import Mathlib

/-! # Node.js bindings for Cap'n Proto (`src/sandstorm/capnp.c++`)

A shallow embedding of the dynamic value engine (`fromJs` / `toJs`), of the
capability client operations (`close`, `dup`, `dup2`), of the call
continuation installed by `send` together with `cancel`, of the reactor bridge
(`UvEventPort`) and of the descriptor operations built on libuv (`UvIoStream`,
`UvConnectionReceiver`).

The bindings sit between two libraries that are not part of the repository:
the host engine (V8) and Cap'n Proto / KJ.  Their values are modelled by the
inductive types below; their operations are modelled by the functions named
after them.  Where the outcome of a library operation is not determined by the
shape of the value (string to number conversion, printing of objects and of
non-integral numbers, narrowing a double to single precision) it is taken from
a `Host` record that every conversion receives as a parameter.  The kernel and
the poller are given to the descriptor operations as a script of outcomes.
-/

namespace V8Capnp

/-! ## Host values -/

/-- Host number (an IEEE double): `finite m e` is the dyadic rational `m / 2^e`. -/
inductive JsNumber
  | finite (m : Int) (e : Nat)
  | negZero
  | nan
  | inf (negative : Bool)
deriving DecidableEq, Repr

/-- Element type of indexed external array data (`v8::ExternalArrayType`). -/
inductive ExternalArrayType
  | kExternalByteArray
  | kExternalUnsignedByteArray
  | kExternalShortArray
  | kExternalUnsignedShortArray
  | kExternalIntArray
  | kExternalUnsignedIntArray
  | kExternalFloatArray
  | kExternalDoubleArray
  | kExternalPixelArray
deriving DecidableEq, Repr

/-- What a host object is besides its named properties: a plain object, an
object whose indexed properties live in external array data, or an object made
by `Wrapper::wrap` (two internal fields: the C++ type and the pointer).  A
wrapped capability client is kept by value: `hook` is the object it refers to
(`none` for a null capability) and `interfaceId` its interface schema. -/
inductive ObjectKind
  | plain
  | externalArray (type : ExternalArrayType) (data : List Nat)
  | wrappedClient (hook : Option Nat) (interfaceId : Nat)
  | wrapped (typeName : String) (ptr : Nat)
deriving DecidableEq, Repr

/-- Host value (`v8::Value`).  `props` lists the enumerable properties of an
object as `GetPropertyNames` reports them, each with the value `Get` returns,
in enumeration order. -/
inductive JsValue
  | undefined
  | null
  | boolean (b : Bool)
  | number (d : JsNumber)
  | string (s : String)
  | array (elems : List JsValue)
  | object (kind : ObjectKind) (props : List (String × JsValue))
deriving Repr

/-- The conversions of the host engine that the shape of a value does not
determine: `toNumber` (ECMAScript ToNumber of strings and objects), `toStr`
(ECMAScript ToString of objects, arrays and numbers that are not small
integers) and `toFloat32` (narrowing of a double to single precision). -/
structure Host where
  toNumber : JsValue → JsNumber
  toStr : JsValue → String
  toFloat32 : JsNumber → JsNumber

/-- Truncation of a finite number toward zero. -/
def JsNumber.trunc (m : Int) (e : Nat) : Int := Int.tdiv m (2 ^ e)

/-- Whether the number is a finite integer (negative zero excluded). -/
def JsNumber.isInteger : JsNumber → Bool
  | .finite m e => m % (2 ^ e) == 0
  | _ => false

/-- `static_cast<int64_t>(double)`: truncation toward zero; a NaN, an infinity
or a value outside the signed 64-bit range gives `-2^63`, which is what the
conversion instruction of x86-64 produces. -/
def staticCastInt64 : JsNumber → Int
  | .finite m e =>
      let t := JsNumber.trunc m e
      if -(2 ^ 63 : Int) ≤ t ∧ t < 2 ^ 63 then t else -(2 ^ 63)
  | .negZero => 0
  | .nan => -(2 ^ 63)
  | .inf _ => -(2 ^ 63)

/-- ECMAScript ToNumber. -/
def ToNumber (H : Host) : JsValue → JsNumber
  | .undefined => .nan
  | .null => .finite 0 0
  | .boolean b => .finite (if b then 1 else 0) 0
  | .number d => d
  | v => H.toNumber v

/-- ECMAScript ToInteger: NaN becomes 0, a finite number is truncated. -/
def ToInteger : JsNumber → JsNumber
  | .finite m e => .finite (JsNumber.trunc m e) 0
  | .negZero => .negZero
  | .nan => .finite 0 0
  | .inf s => .inf s

/-- `v8::Value::BooleanValue()` (ECMAScript ToBoolean). -/
def BooleanValue : JsValue → Bool
  | .undefined => false
  | .null => false
  | .boolean b => b
  | .number (.finite m _) => m != 0
  | .number .negZero => false
  | .number .nan => false
  | .number (.inf _) => true
  | .string s => s != ""
  | .array _ => true
  | .object _ _ => true

/-- `v8::Value::IntegerValue()`, of result type `int64_t`: a number is cast
directly, any other value goes through ToInteger first. -/
def IntegerValue (H : Host) : JsValue → Int
  | .number d => staticCastInt64 d
  | v => staticCastInt64 (ToInteger (ToNumber H v))

/-- `v8::Value::NumberValue()`. -/
def NumberValue (H : Host) (v : JsValue) : JsNumber := ToNumber H v

/-- `v8::Value::ToString()` read as UTF-8: a string is itself, an integer
below `10^21` in magnitude prints in decimal. -/
def ToString (H : Host) : JsValue → String
  | .undefined => "undefined"
  | .null => "null"
  | .boolean b => if b then "true" else "false"
  | .string s => s
  | .number (.finite m 0) =>
      if -(10 ^ 21 : Int) < m ∧ m < 10 ^ 21 then toString m
      else H.toStr (.number (.finite m 0))
  | v => H.toStr v

/-- `v8::Value::IsUint32()`: a number that is an integer in `[0, 2^32)`. -/
def IsUint32 : JsValue → Bool
  | .number (.finite m e) =>
      m % (2 ^ e) == 0 && 0 ≤ JsNumber.trunc m e && JsNumber.trunc m e < 2 ^ 32
  | _ => false

/-- `v8::Value::Uint32Value()` (ECMAScript ToUint32). -/
def Uint32Value (H : Host) (v : JsValue) : Nat :=
  match ToInteger (ToNumber H v) with
  | .finite m _ => (m % (2 ^ 32 : Int)).toNat
  | _ => 0

/-- `v8::Value::IsObject()`. -/
def IsObject : JsValue → Bool
  | .array _ => true
  | .object _ _ => true
  | _ => false

/-- `v8::Value::IsArray()`. -/
def IsArray : JsValue → Bool
  | .array _ => true
  | _ => false

/-- Error values made for the host: `v8::Exception::TypeError`,
`v8::Exception::Error`, and the error object that `toJsException` builds. -/
inductive JsException
  | TypeError (message : String)
  | Error (message : String)
  | fromKj (message : String) (cppFile : String) (line : Nat)
      (nature : String) (durability : String)
deriving DecidableEq, Repr

/-! ## KJ exceptions -/

/-- The enumeration `kj::Exception::Nature`. -/
inductive Nature
  | PRECONDITION
  | LOCAL_BUG
  | OS_ERROR
  | NETWORK_FAILURE
  | OTHER
deriving DecidableEq, Repr

/-- The enumeration `kj::Exception::Durability`. -/
inductive Durability
  | PERMANENT
  | TEMPORARY
  | OVERLOADED
deriving DecidableEq, Repr

/-- The record `kj::Exception`. -/
structure Exception where
  nature : Nature
  durability : Durability
  file : String
  line : Nat
  description : String
deriving DecidableEq, Repr

/-- Failure of a `KJ_REQUIRE` inside the Cap'n Proto library (the position in
the library source is not modelled). -/
def requireFailed (description : String) : Exception :=
  { nature := .PRECONDITION, durability := .PERMANENT, file := "capnp", line := 0,
    description := description }

/-- The function `toJsException`: an error object carrying the description,
the file, the line and the names of the nature and the durability. -/
def toJsException (exception : Exception) : JsException :=
  .fromKj exception.description exception.file exception.line
    (match exception.nature with
     | .PRECONDITION => "precondition"
     | .LOCAL_BUG => "localBug"
     | .OS_ERROR => "osError"
     | .NETWORK_FAILURE => "networkFailure"
     | .OTHER => "other")
    (match exception.durability with
     | .PERMANENT => "permanent"
     | .TEMPORARY => "temporary"
     | .OVERLOADED => "overloaded")

/-! ## Schemas -/

/-- The enumeration `capnp::schema::Type::Which`. -/
inductive Which
  | VOID | BOOL | INT8 | INT16 | INT32 | INT64
  | UINT8 | UINT16 | UINT32 | UINT64 | FLOAT32 | FLOAT64
  | TEXT | DATA | LIST | ENUM | STRUCT | INTERFACE | ANY_POINTER
deriving DecidableEq, Repr

/-- Declared type (`capnp::schema::Type::Reader`); enum, struct and interface
types refer to their schema node by its 64-bit type id. -/
inductive SchemaType
  | VOID | BOOL | INT8 | INT16 | INT32 | INT64
  | UINT8 | UINT16 | UINT32 | UINT64 | FLOAT32 | FLOAT64
  | TEXT | DATA
  | LIST (elementType : SchemaType)
  | ENUM (typeId : Nat)
  | STRUCT (typeId : Nat)
  | INTERFACE (typeId : Nat)
  | ANY_POINTER
deriving DecidableEq, Repr

/-- The tag of a declared type: `type.which()`. -/
def SchemaType.which : SchemaType → Which
  | .VOID => .VOID | .BOOL => .BOOL
  | .INT8 => .INT8 | .INT16 => .INT16 | .INT32 => .INT32 | .INT64 => .INT64
  | .UINT8 => .UINT8 | .UINT16 => .UINT16 | .UINT32 => .UINT32 | .UINT64 => .UINT64
  | .FLOAT32 => .FLOAT32 | .FLOAT64 => .FLOAT64
  | .TEXT => .TEXT | .DATA => .DATA
  | .LIST _ => .LIST | .ENUM _ => .ENUM | .STRUCT _ => .STRUCT
  | .INTERFACE _ => .INTERFACE | .ANY_POINTER => .ANY_POINTER

/-- Whether the type is a struct type: `type.isStruct()`. -/
def SchemaType.isStruct : SchemaType → Bool
  | .STRUCT _ => true
  | _ => false

/-- The two kinds of field (`capnp::schema::Field`): a slot of a declared type
or a group, whose members form a struct schema of their own. -/
inductive FieldProto
  | SLOT (type : SchemaType)
  | GROUP (typeId : Nat)
deriving DecidableEq, Repr

/-- A field of a struct schema (`capnp::StructSchema::Field`).
`discriminantValue` is `none` for a field outside the union. -/
structure Field where
  name : String
  proto : FieldProto
  discriminantValue : Option Nat
deriving DecidableEq, Repr

/-- A schema node (`capnp::schema::Node`). -/
inductive Node
  | STRUCT (displayName : String) (fields : List Field)
  | ENUM (displayName : String) (enumerants : List String)
  | INTERFACE (displayName : String) (methods : List String)
  | OTHER (displayName : String)
deriving DecidableEq, Repr

/-- The loaded schemas, by type id: what `getDependency` resolves against. -/
abbrev SchemaEnv := Nat → Option Node

/-- The fields of a struct schema: `getDependency(typeId).asStruct()`. -/
def getStruct (env : SchemaEnv) (typeId : Nat) : Except Exception (List Field) :=
  match env typeId with
  | some (.STRUCT _ fields) => .ok fields
  | some _ => .error (requireFailed "Tried to use non-struct schema as a struct.")
  | none => .error (requireFailed "Requested ID not found in dependency table.")

/-- The enumerants of an enum schema: `getDependency(typeId).asEnum()`. -/
def getEnum (env : SchemaEnv) (typeId : Nat) : Except Exception (List String) :=
  match env typeId with
  | some (.ENUM _ enumerants) => .ok enumerants
  | some _ => .error (requireFailed "Tried to use non-enum schema as an enum.")
  | none => .error (requireFailed "Requested ID not found in dependency table.")

/-- The lookup `StructSchema::findFieldByName`. -/
def findFieldByName (fields : List Field) (name : String) : Option Field :=
  fields.find? (fun f => f.name == name)

/-- The lookup `EnumSchema::findEnumerantByName`: the ordinal of the enumerant. -/
def findEnumerantByName : List String → String → Option Nat
  | [], _ => none
  | e :: rest, name =>
      if e = name then some 0 else (findEnumerantByName rest name).map (· + 1)

/-- The fields outside the union: `StructSchema::getNonUnionFields`. -/
def getNonUnionFields (fields : List Field) : List Field :=
  fields.filter (fun f => f.discriminantValue.isNone)

/-- The lookup `StructSchema::getFieldByDiscriminant`. -/
def getFieldByDiscriminant (fields : List Field) (discriminant : Nat) : Option Field :=
  fields.find? (fun f => f.discriminantValue == some discriminant)

/-! ## Dynamic values -/

/-- A dynamic value (`capnp::DynamicValue`), as held by a reader, a builder or
an orphan.  A struct is its schema's type id, its union discriminant and the
fields that have been written, by name; a field that is not listed has its
zero (a data field) or is a null pointer. -/
inductive DynamicValue
  | UNKNOWN
  | VOID
  | BOOL (b : Bool)
  | INT (v : Int)
  | UINT (v : Nat)
  | FLOAT (v : JsNumber)
  | TEXT (s : String)
  | DATA (bytes : List Nat)
  | LIST (elementType : SchemaType) (elems : List DynamicValue)
  | ENUM (typeId : Nat) (raw : Nat)
  | STRUCT (typeId : Nat) (discriminant : Nat) (slots : List (String × DynamicValue))
  | CAPABILITY (hook : Option Nat) (interfaceId : Nat)
  | ANY_POINTER
deriving Repr

/-- Whether the orphan is null: `getType() == DynamicValue::UNKNOWN`. -/
def DynamicValue.isUnknown : DynamicValue → Bool
  | .UNKNOWN => true
  | _ => false

/-- A struct under construction (`capnp::DynamicStruct::Builder`). -/
structure Builder where
  typeId : Nat
  discriminant : Nat
  slots : List (String × DynamicValue)
deriving Repr

/-- The read-only view of a builder: `builder.asReader()`. -/
def Builder.asReader (b : Builder) : DynamicValue :=
  .STRUCT b.typeId b.discriminant b.slots

/-- A struct with nothing written: the root of a fresh message, a new struct
orphan, an element of a new struct list. -/
def Builder.fresh (typeId : Nat) : Builder :=
  { typeId := typeId, discriminant := 0, slots := [] }

/-- Writes `key` in an association list: replaces the entry if there is one,
appends otherwise.  Used for struct slots and for `v8::Object::Set`. -/
def assocSet {β : Type} : List (String × β) → String → β → List (String × β)
  | [], key, value => [(key, value)]
  | (k, x) :: rest, key, value =>
      if k = key then (key, value) :: rest else (k, x) :: assocSet rest key value

/-- Reads `key` in an association list. -/
def assocGet {β : Type} : List (String × β) → String → Option β
  | [], _ => none
  | (k, x) :: rest, key => if k = key then some x else assocGet rest key

/-- What `get` returns for a slot that was never written (schema defaults are
taken to be zero): the zero of a data field, the empty value of a null pointer. -/
def defaultValue : SchemaType → DynamicValue
  | .VOID => .VOID
  | .BOOL => .BOOL false
  | .INT8 => .INT 0 | .INT16 => .INT 0 | .INT32 => .INT 0 | .INT64 => .INT 0
  | .UINT8 => .UINT 0 | .UINT16 => .UINT 0 | .UINT32 => .UINT 0 | .UINT64 => .UINT 0
  | .FLOAT32 => .FLOAT (.finite 0 0) | .FLOAT64 => .FLOAT (.finite 0 0)
  | .TEXT => .TEXT ""
  | .DATA => .DATA []
  | .LIST elementType => .LIST elementType []
  | .ENUM typeId => .ENUM typeId 0
  | .STRUCT typeId => .STRUCT typeId 0 []
  | .INTERFACE typeId => .CAPABILITY none typeId
  | .ANY_POINTER => .ANY_POINTER

/-- The accessor `DynamicStruct::Reader::get(field)`, for a field that is
outside the union or is its active member. -/
def readerGet (slots : List (String × DynamicValue)) (field : Field) : DynamicValue :=
  match field.proto with
  | .SLOT type => (assocGet slots field.name).getD (defaultValue type)
  | .GROUP typeId => (assocGet slots field.name).getD (.STRUCT typeId 0 [])

/-- Whether the declared type is stored in the pointer section. -/
def SchemaType.isPointer : SchemaType → Bool
  | .TEXT => true | .DATA => true | .LIST _ => true | .STRUCT _ => true
  | .INTERFACE _ => true | .ANY_POINTER => true
  | _ => false

/-- The test `DynamicStruct::Reader::has(field)`: a union member that is not
active is absent; a group and a data field are always present; a pointer field
is present when the pointer is not null. -/
def readerHas (discriminant : Nat) (slots : List (String × DynamicValue)) (field : Field) : Bool :=
  match field.discriminantValue with
  | some d => if d == discriminant then
      (match field.proto with
       | .GROUP _ => true
       | .SLOT type => !type.isPointer || (assocGet slots field.name).isSome)
      else false
  | none =>
      match field.proto with
      | .GROUP _ => true
      | .SLOT type => !type.isPointer || (assocGet slots field.name).isSome

/-- The accessor `DynamicStruct::Reader::which()`: the active union member,
none when the struct has no union or the discriminant is not a known member. -/
def readerWhich (fields : List Field) (discriminant : Nat) : Option Field :=
  getFieldByDiscriminant fields discriminant

/-- The lookup `DynamicEnum::getEnumerant()`: the name at the raw ordinal. -/
def getEnumerant (enumerants : List String) (raw : Nat) : Option String :=
  enumerants[raw]?

/-- Range check of `DynamicValue::Reader::as<intN_t>()`. -/
def asSigned (bits : Nat) : DynamicValue → Except Exception Int
  | .INT v =>
      if -(2 ^ (bits - 1) : Int) ≤ v ∧ v < 2 ^ (bits - 1) then .ok v
      else .error (requireFailed "Value out-of-range for requested type.")
  | .UINT v =>
      if v < 2 ^ (bits - 1) then .ok v
      else .error (requireFailed "Value out-of-range for requested type.")
  | _ => .error (requireFailed "Value type mismatch.")

/-- Range check of `DynamicValue::Reader::as<uintN_t>()`. -/
def asUnsigned (bits : Nat) : DynamicValue → Except Exception Nat
  | .INT v =>
      if 0 ≤ v ∧ v < 2 ^ bits then .ok v.toNat
      else .error (requireFailed "Value out-of-range for requested type.")
  | .UINT v =>
      if v < 2 ^ bits then .ok v
      else .error (requireFailed "Value out-of-range for requested type.")
  | _ => .error (requireFailed "Value type mismatch.")

/-- The conversion that `set` and `adopt` apply to the value given for a slot
or list element of the declared type: integers are range-checked, a double is
narrowed for a Float32 slot, a pointer value must have the declared kind. -/
def storeValue (H : Host) (type : SchemaType) (orphan : DynamicValue) :
    Except Exception DynamicValue :=
  match type with
  | .VOID =>
      match orphan with
      | .VOID => .ok .VOID
      | _ => .error (requireFailed "Value type mismatch.")
  | .BOOL =>
      match orphan with
      | .BOOL b => .ok (.BOOL b)
      | _ => .error (requireFailed "Value type mismatch.")
  | .INT8 => (asSigned 8 orphan).map .INT
  | .INT16 => (asSigned 16 orphan).map .INT
  | .INT32 => (asSigned 32 orphan).map .INT
  | .INT64 => (asSigned 64 orphan).map .INT
  | .UINT8 => (asUnsigned 8 orphan).map .UINT
  | .UINT16 => (asUnsigned 16 orphan).map .UINT
  | .UINT32 => (asUnsigned 32 orphan).map .UINT
  | .UINT64 => (asUnsigned 64 orphan).map .UINT
  | .FLOAT32 =>
      match orphan with
      | .FLOAT d => .ok (.FLOAT (H.toFloat32 d))
      | _ => .error (requireFailed "Value type mismatch.")
  | .FLOAT64 =>
      match orphan with
      | .FLOAT d => .ok (.FLOAT d)
      | _ => .error (requireFailed "Value type mismatch.")
  | .TEXT =>
      match orphan with
      | .TEXT s => .ok (.TEXT s)
      | _ => .error (requireFailed "Value type mismatch.")
  | .DATA =>
      match orphan with
      | .DATA bytes => .ok (.DATA bytes)
      | _ => .error (requireFailed "Value type mismatch.")
  | .LIST elementType =>
      match orphan with
      | .LIST t elems =>
          if t = elementType then .ok (.LIST t elems)
          else .error (requireFailed "Value type mismatch.")
      | _ => .error (requireFailed "Value type mismatch.")
  | .ENUM typeId =>
      match orphan with
      | .ENUM t raw =>
          if t = typeId then .ok (.ENUM t raw)
          else .error (requireFailed "Value type mismatch.")
      | _ => .error (requireFailed "Value type mismatch.")
  | .STRUCT typeId =>
      match orphan with
      | .STRUCT t d slots =>
          if t = typeId then .ok (.STRUCT t d slots)
          else .error (requireFailed "Value type mismatch.")
      | _ => .error (requireFailed "Value type mismatch.")
  | .INTERFACE _ =>
      match orphan with
      | .CAPABILITY hook t => .ok (.CAPABILITY hook t)
      | _ => .error (requireFailed "Value type mismatch.")
  | .ANY_POINTER => .error (requireFailed "Value type mismatch.")

/-- The step `setInUnion(field)`: writing a union member makes it the active one. -/
def Builder.setInUnion (b : Builder) (field : Field) : Builder :=
  match field.discriminantValue with
  | some d => { b with discriminant := d }
  | none => b

/-- The call `DynamicStruct::Builder::adopt(field, orphan)` on a slot: the
discriminant is switched first, then the converted value is written.  The
builder is returned also when the conversion throws. -/
def Builder.adopt (H : Host) (b : Builder) (field : Field) (orphan : DynamicValue) :
    Builder × Except Exception Unit :=
  match field.proto with
  | .SLOT type =>
      match storeValue H type orphan with
      | .ok stored =>
          ({ b.setInUnion field with
               slots := assocSet (b.setInUnion field).slots field.name stored }, .ok ())
      | .error e => (b.setInUnion field, .error e)
  | .GROUP _ => (b.setInUnion field, .error (requireFailed "Value type mismatch."))

/-- The check `verifySetInUnion(field)` of `DynamicStruct::Builder::get`. -/
def verifySetInUnion (b : Builder) (field : Field) : Except Exception Unit :=
  match field.discriminantValue with
  | some d =>
      if d = b.discriminant then .ok ()
      else .error (requireFailed
        "Tried to get() a union member which is not currently initialized.")
  | none => .ok ()

/-- The builder of a group: `builder.get(field).as<DynamicStruct>()`. -/
def Builder.getGroup (b : Builder) (field : Field) (typeId : Nat) : Builder :=
  match assocGet b.slots field.name with
  | some (.STRUCT t d slots) => { typeId := t, discriminant := d, slots := slots }
  | _ => Builder.fresh typeId

/-- Writes the state of a group builder back into its parent. -/
def Builder.putGroup (b : Builder) (field : Field) (group : Builder) : Builder :=
  { b with slots := assocSet b.slots field.name group.asReader }

/-- The schema lookup of `capnp::ListSchema::of(elementType, context)`. -/
def listSchemaOf (env : SchemaEnv) : SchemaType → Except Exception Unit
  | .LIST elementType => listSchemaOf env elementType
  | .ENUM typeId => (getEnum env typeId).map (fun _ => ())
  | .STRUCT typeId => (getStruct env typeId).map (fun _ => ())
  | .INTERFACE typeId =>
      match env typeId with
      | some (.INTERFACE _ _) => .ok ()
      | some _ => .error (requireFailed "Tried to use non-interface schema as an interface.")
      | none => .error (requireFailed "Requested ID not found in dependency table.")
  | .ANY_POINTER => .error (requireFailed "List(AnyPointer) not supported.")
  | _ => .ok ()

/-! ## Encoding: host value to builder -/

/-- The host exceptions raised so far, oldest first. -/
abbrev Thrown := List JsException

/-- Outcome of `orphanFromJs`: the orphan (`UNKNOWN` for a null orphan) or the
C++ exception that left the function, and the host exceptions raised. -/
structure OrphanResult where
  thrown : Thrown
  result : Except Exception DynamicValue
deriving Repr

/-- Outcome of `fieldFromJs` and `structFromJs`: the builder as it was left,
the host exceptions raised, and the returned flag or the C++ exception. -/
structure StructResult where
  builder : Builder
  thrown : Thrown
  result : Except Exception Bool
deriving Repr

/-- Outcome of filling a list: the elements, a null orphan returned from
inside the loop, or a break to the type error at the end of `orphanFromJs`. -/
inductive ListOutcome
  | built (elems : List DynamicValue)
  | null
  | typeError
deriving Repr

/-- Outcome of a list loop with the host exceptions raised. -/
structure ListResult where
  thrown : Thrown
  result : Except Exception ListOutcome
deriving Repr

/-- The tail of `orphanFromJs`: raises the type error naming the field and
returns a null orphan. -/
def typeErrorInField (field : Field) (thrown : Thrown) : OrphanResult :=
  { thrown := thrown ++ [.TypeError ("Type error in field: " ++ field.name)],
    result := .ok .UNKNOWN }

/-- The schema a builder or reader carries (`getSchema()`), looked up by type
id; an id that is not a loaded struct has no fields. -/
def schemaFields (env : SchemaEnv) (typeId : Nat) : List Field :=
  match env typeId with
  | some (.STRUCT _ fields) => fields
  | _ => []

/-- The bytes of an object whose external array data has type
`kExternalByteArray` or `kExternalUnsignedByteArray`: the two cases of the
inner switch of the DATA case. -/
def externalBytes : ObjectKind → Option (List Nat)
  | .externalArray .kExternalByteArray data => some data
  | .externalArray .kExternalUnsignedByteArray data => some data
  | _ => none

/-- End of the LIST case of `orphanFromJs`: the filled list is returned; a
null orphan returned from inside a loop is passed on; a non-object element of
a struct list leads to the type error at the end of the function. -/
def orphanOfList (field : Field) (elementType : SchemaType) (r : ListResult) : OrphanResult :=
  match r.result with
  | .error e => { thrown := r.thrown, result := .error e }
  | .ok (.built vs) => { thrown := r.thrown, result := .ok (.LIST elementType vs) }
  | .ok .null => { thrown := r.thrown, result := .ok .UNKNOWN }
  | .ok .typeError => typeErrorInField field r.thrown

/-- End of the STRUCT case of `orphanFromJs`:
`if (!structFromJs(orphan.get(), ...)) return nullptr; return orphan`. -/
def orphanOfStruct (r : StructResult) : OrphanResult :=
  match r.result with
  | .error e => { thrown := r.thrown, result := .error e }
  | .ok true => { thrown := r.thrown, result := .ok r.builder.asReader }
  | .ok false => { thrown := r.thrown, result := .ok .UNKNOWN }

/-- The SLOT case of `fieldFromJs` after the orphan is built: a null orphan
gives false, any other is adopted into the field. -/
def adoptOrphan (H : Host) (builder : Builder) (field : Field) (r : OrphanResult) :
    StructResult :=
  match r.result with
  | .error e => { builder := builder, thrown := r.thrown, result := .error e }
  | .ok orphan =>
      if orphan.isUnknown then { builder := builder, thrown := r.thrown, result := .ok false }
      else
        match builder.adopt H field orphan with
        | (b, .ok _) => { builder := b, thrown := r.thrown, result := .ok true }
        | (b, .error e) => { builder := b, thrown := r.thrown, result := .error e }

/-- The GROUP case of `fieldFromJs` after `structFromJs` ran on the group's
builder: the group lives inside its parent, which is returned. -/
def groupResult (builder : Builder) (field : Field) (r : StructResult) : StructResult :=
  { builder := builder.putGroup field r.builder, thrown := r.thrown, result := r.result }

/-- The else branch of the GROUP case of `fieldFromJs`. -/
def groupTypeError (builder : Builder) (field : Field) (thrown : Thrown) : StructResult :=
  { builder := builder,
    thrown := thrown ++ [.TypeError ("Type error in field: " ++ field.name)],
    result := .ok false }

/-- The else branch of the loop of `structFromJs`. -/
def noFieldNamed (builder : Builder) (fieldName : String) (thrown : Thrown) : StructResult :=
  { builder := builder,
    thrown := thrown ++ [.TypeError ("No field named: " ++ fieldName)],
    result := .ok false }

/-- Sequencing in the loop of `structFromJs`: the statement
`fieldFromJs(builder, *field, js->Get(jsName));` drops the returned flag, so
the loop goes on unless a C++ exception left the call. -/
def thenNextKey (r : StructResult) (next : Builder → Thrown → StructResult) : StructResult :=
  match r.result with
  | .error _ => r
  | .ok _ => next r.builder r.thrown

/-- Sequencing in the loop over a list that is not a struct list: a null
element makes the function return a null orphan; any other element is adopted
at its index and the loop goes on. -/
def thenNextElement (H : Host) (elementType : SchemaType) (r : OrphanResult)
    (next : Thrown → ListResult) : ListResult :=
  match r.result with
  | .error e => { thrown := r.thrown, result := .error e }
  | .ok element =>
      if element.isUnknown then { thrown := r.thrown, result := .ok .null }
      else
        match storeValue H elementType element with
        | .error e => { thrown := r.thrown, result := .error e }
        | .ok stored =>
            match (next r.thrown).result with
            | .ok (.built vs) => { thrown := (next r.thrown).thrown, result := .ok (.built (stored :: vs)) }
            | _ => next r.thrown

/-- Sequencing in the loop over a struct list: `structFromJs` returning false
on an element makes the function return a null orphan. -/
def thenNextStruct (r : StructResult) (next : Thrown → ListResult) : ListResult :=
  match r.result with
  | .error e => { thrown := r.thrown, result := .error e }
  | .ok false => { thrown := r.thrown, result := .ok .null }
  | .ok true =>
      match (next r.thrown).result with
      | .ok (.built vs) =>
          { thrown := (next r.thrown).thrown, result := .ok (.built (r.builder.asReader :: vs)) }
      | _ => next r.thrown

mutual

/-- The function `orphanFromJs`: builds the value for a slot or list element
of the declared type from a host value; a null orphan (`UNKNOWN`) reports
failure. -/
def orphanFromJs (H : Host) (env : SchemaEnv) (field : Field) (type : SchemaType)
    (js : JsValue) (thrown : Thrown) : OrphanResult :=
  match type with
  | .VOID =>
      -- Accept any false-y value.
      if !BooleanValue js then { thrown := thrown, result := .ok .VOID }
      else typeErrorInField field thrown
  | .BOOL => { thrown := thrown, result := .ok (.BOOL (BooleanValue js)) }
  | .INT8 => { thrown := thrown, result := .ok (.INT (IntegerValue H js)) }
  | .INT16 => { thrown := thrown, result := .ok (.INT (IntegerValue H js)) }
  | .INT32 => { thrown := thrown, result := .ok (.INT (IntegerValue H js)) }
  | .INT64 => { thrown := thrown, result := .ok (.INT (IntegerValue H js)) }
  | .UINT8 => { thrown := thrown, result := .ok (.INT (IntegerValue H js)) }
  | .UINT16 => { thrown := thrown, result := .ok (.INT (IntegerValue H js)) }
  | .UINT32 => { thrown := thrown, result := .ok (.INT (IntegerValue H js)) }
  | .UINT64 => { thrown := thrown, result := .ok (.INT (IntegerValue H js)) }
  | .FLOAT32 => { thrown := thrown, result := .ok (.FLOAT (NumberValue H js)) }
  | .FLOAT64 => { thrown := thrown, result := .ok (.FLOAT (NumberValue H js)) }
  | .TEXT => { thrown := thrown, result := .ok (.TEXT (ToString H js)) }
  | .DATA =>
      -- Expect an ArrayBuffer of bytes.
      match js with
      | .object kind _ =>
          match externalBytes kind with
          | some data => { thrown := thrown, result := .ok (.DATA data) }
          | none => typeErrorInField field thrown
      | _ => typeErrorInField field thrown
  | .LIST elementType =>
      match js with
      | .array elems =>
          match listSchemaOf env elementType with
          | .error e => { thrown := thrown, result := .error e }
          | .ok _ =>
              match elementType with
              | .STRUCT typeId =>
                  -- Struct lists can't adopt.
                  orphanOfList field elementType (structListFromJs H env typeId elems thrown)
              | _ =>
                  orphanOfList field elementType
                    (listFromJs H env field elementType elems thrown)
      | _ => typeErrorInField field thrown
  | .ENUM typeId =>
      match getEnum env typeId with
      | .error e => { thrown := thrown, result := .error e }
      | .ok enumerants =>
          match findEnumerantByName enumerants (ToString H js) with
          | some ordinal => { thrown := thrown, result := .ok (.ENUM typeId ordinal) }
          | none =>
              if IsUint32 js then
                { thrown := thrown, result := .ok (.ENUM typeId (Uint32Value H js % 2 ^ 16)) }
              else typeErrorInField field thrown
  | .STRUCT typeId =>
      match js with
      | .object _ props =>
          match getStruct env typeId with
          | .error e => { thrown := thrown, result := .error e }
          | .ok _ => orphanOfStruct (structFromJs H env (Builder.fresh typeId) props thrown)
      | .array elems =>
          match getStruct env typeId with
          | .error e => { thrown := thrown, result := .error e }
          | .ok _ =>
              orphanOfStruct (structFromJsIndexed H env (Builder.fresh typeId) 0 elems thrown)
      -- not an object: control falls through to the INTERFACE case
      | _ => typeErrorInField field thrown
  | .INTERFACE _ =>
      -- TODO(soon):  Allow implementing interfaces.
      typeErrorInField field thrown
  | .ANY_POINTER =>
      -- TODO(soon):  Support AnyPointer.
      typeErrorInField field thrown

/-- The loop of `orphanFromJs` over the elements of a list that is not a
struct list: each element is built, then adopted at its index. -/
def listFromJs (H : Host) (env : SchemaEnv) (field : Field) (elementType : SchemaType)
    (elems : List JsValue) (thrown : Thrown) : ListResult :=
  match elems with
  | [] => { thrown := thrown, result := .ok (.built []) }
  | js :: rest =>
      thenNextElement H elementType (orphanFromJs H env field elementType js thrown)
        (fun t => listFromJs H env field elementType rest t)

/-- The loop of `orphanFromJs` over the elements of a struct list: each
element is filled in place from a host object; an element that is not an
object ends the loop with the error flag set. -/
def structListFromJs (H : Host) (env : SchemaEnv) (typeId : Nat)
    (elems : List JsValue) (thrown : Thrown) : ListResult :=
  match elems with
  | [] => { thrown := thrown, result := .ok (.built []) }
  | .object _ props :: rest =>
      thenNextStruct (structFromJs H env (Builder.fresh typeId) props thrown)
        (fun t => structListFromJs H env typeId rest t)
  | .array es :: rest =>
      thenNextStruct (structFromJsIndexed H env (Builder.fresh typeId) 0 es thrown)
        (fun t => structListFromJs H env typeId rest t)
  | _ :: _ => { thrown := thrown, result := .ok .typeError }

/-- The function `structFromJs`, on the enumerable properties of the host
object: each key must name a field of the builder's schema; the flag returned
by `fieldFromJs` is not looked at.  The body of `fieldFromJs` is written out
in place (see `fieldFromJs` and `structFromJs_cons` below). -/
def structFromJs (H : Host) (env : SchemaEnv) (builder : Builder)
    (props : List (String × JsValue)) (thrown : Thrown) : StructResult :=
  match props with
  | [] => { builder := builder, thrown := thrown, result := .ok true }
  | (fieldName, value) :: rest =>
      match findFieldByName (schemaFields env builder.typeId) fieldName with
      | some field =>
          thenNextKey
            (match field.proto with
             | .SLOT type => adoptOrphan H builder field (orphanFromJs H env field type value thrown)
             | .GROUP typeId =>
                 match value with
                 | .object _ groupProps =>
                     match verifySetInUnion builder field with
                     | .error e => { builder := builder, thrown := thrown, result := .error e }
                     | .ok _ =>
                         groupResult builder field
                           (structFromJs H env (builder.getGroup field typeId) groupProps thrown)
                 | .array groupElems =>
                     match verifySetInUnion builder field with
                     | .error e => { builder := builder, thrown := thrown, result := .error e }
                     | .ok _ =>
                         groupResult builder field
                           (structFromJsIndexed H env (builder.getGroup field typeId) 0
                              groupElems thrown)
                 | _ => groupTypeError builder field thrown)
            (fun b t => structFromJs H env b rest t)
      | none => noFieldNamed builder fieldName thrown

/-- The function `structFromJs` on a host array: its property names are the
indices, in order, starting at `index`. -/
def structFromJsIndexed (H : Host) (env : SchemaEnv) (builder : Builder) (index : Nat)
    (elems : List JsValue) (thrown : Thrown) : StructResult :=
  match elems with
  | [] => { builder := builder, thrown := thrown, result := .ok true }
  | value :: rest =>
      match findFieldByName (schemaFields env builder.typeId) (toString index) with
      | some field =>
          thenNextKey
            (match field.proto with
             | .SLOT type => adoptOrphan H builder field (orphanFromJs H env field type value thrown)
             | .GROUP typeId =>
                 match value with
                 | .object _ groupProps =>
                     match verifySetInUnion builder field with
                     | .error e => { builder := builder, thrown := thrown, result := .error e }
                     | .ok _ =>
                         groupResult builder field
                           (structFromJs H env (builder.getGroup field typeId) groupProps thrown)
                 | .array groupElems =>
                     match verifySetInUnion builder field with
                     | .error e => { builder := builder, thrown := thrown, result := .error e }
                     | .ok _ =>
                         groupResult builder field
                           (structFromJsIndexed H env (builder.getGroup field typeId) 0
                              groupElems thrown)
                 | _ => groupTypeError builder field thrown)
            (fun b t => structFromJsIndexed H env b (index + 1) rest t)
      | none => noFieldNamed builder (toString index) thrown

end

/-- The function `fieldFromJs`: converts the host value for one field and
writes it; returns false when the conversion failed. -/
def fieldFromJs (H : Host) (env : SchemaEnv) (builder : Builder) (field : Field)
    (js : JsValue) (thrown : Thrown) : StructResult :=
  match field.proto with
  | .SLOT type => adoptOrphan H builder field (orphanFromJs H env field type js thrown)
  | .GROUP typeId =>
      match js with
      | .object _ groupProps =>
          match verifySetInUnion builder field with
          | .error e => { builder := builder, thrown := thrown, result := .error e }
          | .ok _ =>
              groupResult builder field
                (structFromJs H env (builder.getGroup field typeId) groupProps thrown)
      | .array groupElems =>
          match verifySetInUnion builder field with
          | .error e => { builder := builder, thrown := thrown, result := .error e }
          | .ok _ =>
              groupResult builder field
                (structFromJsIndexed H env (builder.getGroup field typeId) 0 groupElems thrown)
      | _ => groupTypeError builder field thrown

/-- The loop of `fromJs` over an argument list: element `i` goes to field `i`
until either list ends; the loop stops at the first `fieldFromJs` that
returns false. -/
def fromJsArguments (H : Host) (env : SchemaEnv) (builder : Builder) :
    List Field → List JsValue → Thrown → StructResult
  | field :: fields, js :: rest, thrown =>
      match (fieldFromJs H env builder field js thrown).result with
      | .ok true =>
          fromJsArguments H env (fieldFromJs H env builder field js thrown).builder fields rest
            (fieldFromJs H env builder field js thrown).thrown
      | _ => fieldFromJs H env builder field js thrown
  | _, _, thrown => { builder := builder, thrown := thrown, result := .ok true }

/-- What a call of `fromJs` leaves behind: the builder (written in place) and
the exceptions raised into the host.  The call itself returns undefined. -/
structure FromJsResult where
  builder : Builder
  thrown : Thrown
deriving Repr

/-- The wrapper `liftKj` around the body of `fromJs`: a C++ exception is
caught and raised into the host as the object `toJsException` makes of it. -/
def liftKjStruct (r : StructResult) : FromJsResult :=
  match r.result with
  | .ok _ => { builder := r.builder, thrown := r.thrown }
  | .error e => { builder := r.builder, thrown := r.thrown ++ [toJsException e] }

/-- The function `fromJs(builder, jso)`: copies a host object, or an argument
list ordered by ordinal, into the struct builder. -/
def fromJs (H : Host) (env : SchemaEnv) (builder : Builder) (jsValue : JsValue) : FromJsResult :=
  match jsValue with
  | .array elems =>
      liftKjStruct (fromJsArguments H env builder (schemaFields env builder.typeId) elems [])
  | .object _ props => liftKjStruct (structFromJs H env builder props [])
  | _ =>
      { builder := builder,
        thrown := [.TypeError "fromJs() requires an array or an object."] }

/-- The function `newBuilder(schema)`: a fresh builder for a struct schema,
an error naming the schema otherwise. -/
def newBuilder (env : SchemaEnv) (typeId : Nat) : Except JsException Builder :=
  match env typeId with
  | some (.STRUCT _ _) => .ok (Builder.fresh typeId)
  | some (.ENUM displayName _) => .error (.Error ("Not a struct type: " ++ displayName))
  | some (.INTERFACE displayName _) => .error (.Error ("Not a struct type: " ++ displayName))
  | some (.OTHER displayName) => .error (.Error ("Not a struct type: " ++ displayName))
  | none => .error (.Error "Not a struct type: ")

/-! ## Decoding: reader to host value -/

/-- Outcome of a decoding step: a result, a C++ exception, or a recursion
deeper than the given bound. -/
inductive Fueled (α : Type)
  | done (a : α)
  | threw (e : Exception)
  | outOfFuel
deriving Repr

/-- Sequencing of decoding steps. -/
def Fueled.bind {α β : Type} (x : Fueled α) (f : α → Fueled β) : Fueled β :=
  match x with
  | .done a => f a
  | .threw e => .threw e
  | .outOfFuel => .outOfFuel

/-- The enumerants of the schema a dynamic enum carries. -/
def enumerantsOf (env : SchemaEnv) (typeId : Nat) : List String :=
  match env typeId with
  | some (.ENUM _ enumerants) => enumerants
  | _ => []

/-- The loop of the LIST case of `valueToJs`: the elements in index order. -/
def listToJs (recur : DynamicValue → Fueled JsValue) : List DynamicValue → Fueled (List JsValue)
  | [] => .done []
  | v :: rest =>
      (recur v).bind fun js => (listToJs recur rest).bind fun out => .done (js :: out)

/-- The function `fieldToJs`, given the conversion of values: sets the
property named after the field to the converted value of the field.  For a
group the type tag handed to `valueToJs` is `STRUCT`. -/
def fieldToJsWith (recur : DynamicValue → Which → Fueled JsValue)
    (object : List (String × JsValue)) (slots : List (String × DynamicValue)) (field : Field) :
    Fueled (List (String × JsValue)) :=
  match field.proto with
  | .SLOT type =>
      (recur (readerGet slots field) type.which).bind fun js =>
        .done (assocSet object field.name js)
  | .GROUP _ =>
      (recur (readerGet slots field) .STRUCT).bind fun js =>
        .done (assocSet object field.name js)

/-- The loop of the STRUCT case of `valueToJs` over the fields outside the
union: a field is emitted when `reader.has(field)` holds. -/
def nonUnionFieldsToJs (recur : DynamicValue → Which → Fueled JsValue)
    (discriminant : Nat) (slots : List (String × DynamicValue)) :
    List Field → List (String × JsValue) → Fueled (List (String × JsValue))
  | [], object => .done object
  | field :: rest, object =>
      if readerHas discriminant slots field then
        (fieldToJsWith recur object slots field).bind fun object1 =>
          nonUnionFieldsToJs recur discriminant slots rest object1
      else nonUnionFieldsToJs recur discriminant slots rest object

/-- The STRUCT case of `valueToJs`, given the conversion of values: the active
union member first, then the fields outside the union that are present. -/
def structToJsWith (recur : DynamicValue → Which → Fueled JsValue) (fields : List Field)
    (discriminant : Nat) (slots : List (String × DynamicValue)) : Fueled JsValue :=
  (match readerWhich fields discriminant with
   | some field => fieldToJsWith recur [] slots field
   | none => .done []).bind fun object =>
    (nonUnionFieldsToJs recur discriminant slots (getNonUnionFields fields) object).bind
      fun object1 => .done (.object .plain object1)

/-- The function `valueToJs(context, value, whichType)`.  The first argument
bounds the depth of the recursion into lists and structs. -/
def valueToJs (env : SchemaEnv) : Nat → DynamicValue → Which → Fueled JsValue
  | _, .UNKNOWN, _ => .done .undefined
  | _, .VOID, _ => .done .null
  | _, .BOOL b, _ => .done (.boolean b)
  | _, .INT v, whichType =>
      if whichType = .INT64 ∨ whichType = .UINT64 then
        -- 64-bit values must be stringified to avoid losing precision.
        .done (.string (toString v))
      else
        match asSigned 32 (.INT v) with
        | .ok i => .done (.number (.finite i 0))
        | .error e => .threw e
  | _, .UINT v, whichType =>
      if whichType = .INT64 ∨ whichType = .UINT64 then
        -- 64-bit values must be stringified to avoid losing precision.
        .done (.string (toString v))
      else
        match asUnsigned 32 (.UINT v) with
        | .ok n => .done (.number (.finite n 0))
        | .error e => .threw e
  | _, .FLOAT d, _ => .done (.number d)
  | _, .TEXT s, _ => .done (.string s)
  | _, .DATA bytes, _ =>
      .done (.object (.externalArray .kExternalUnsignedByteArray bytes) [])
  | fuel + 1, .LIST elementType elems, _ =>
      (listToJs (fun v => valueToJs env fuel v elementType.which) elems).bind fun out =>
        .done (.array out)
  | 0, .LIST _ _, _ => .outOfFuel
  | _, .ENUM typeId raw, _ =>
      match getEnumerant (enumerantsOf env typeId) raw with
      | some name => .done (.string name)
      | none => .done (.number (.finite raw 0))
  | fuel + 1, .STRUCT typeId discriminant slots, _ =>
      structToJsWith (fun v w => valueToJs env fuel v w) (schemaFields env typeId)
        discriminant slots
  | 0, .STRUCT _ _ _, _ => .outOfFuel
  | _, .CAPABILITY hook interfaceId, _ => .done (.object (.wrappedClient hook interfaceId) [])
  | _, .ANY_POINTER, _ => .done .undefined

/-- The function `fieldToJs(context, object, reader, field)`. -/
def fieldToJs (env : SchemaEnv) (fuel : Nat) (object : List (String × JsValue))
    (slots : List (String × DynamicValue)) (field : Field) : Fueled (List (String × JsValue)) :=
  fieldToJsWith (fun v w => valueToJs env fuel v w) object slots field

/-- The function `toJs(reader)`: the host object for a struct reader. -/
def toJs (env : SchemaEnv) (fuel : Nat) (reader : DynamicValue) : Fueled JsValue :=
  valueToJs env fuel reader .STRUCT

/-! ## Capability clients: `close`, `dup`, `dup2` -/

/-- What a capability client points to (`kj::Own<capnp::ClientHook>`): a null
capability, an object (local or remote) named by its id, or a broken
capability made by `capnp::newBrokenCap(reason)`. -/
inductive ClientHook
  | null
  | object (id : Nat)
  | broken (reason : String)
deriving DecidableEq, Repr

/-- A typed client (`capnp::DynamicCapability::Client`): the hook and the
interface schema, by type id. -/
structure Client where
  hook : ClientHook
  schema : Nat
deriving DecidableEq, Repr

/-- The wrapped clients of the process.  A wrapper made by `wrapCopy` is named
by its position in `slots`; `refs o` is the reference count of the hook of
object `o`; `released` lists the objects whose hook was destroyed because its
count came down to zero. -/
structure CapTable where
  slots : List Client
  refs : Nat → Nat
  released : List Nat

/-- The step `hook->addRef()`, taken whenever a client is copied. -/
def CapTable.addRef (t : CapTable) : ClientHook → CapTable
  | .object o => { t with refs := fun x => if x = o then t.refs o + 1 else t.refs x }
  | _ => t

/-- Dropping one `kj::Own` of a hook: the count goes down by one and the hook
is destroyed when no reference is left. -/
def CapTable.release (t : CapTable) : ClientHook → CapTable
  | .object o =>
      { t with
        refs := fun x => if x = o then t.refs o - 1 else t.refs x,
        released := if t.refs o - 1 = 0 then o :: t.released else t.released }
  | _ => t

/-- The function `closeCap`: the slot is overwritten with a broken capability
of the same schema, which drops the reference it held.  An argument that is
not a wrapped client raises a type error and changes nothing. -/
def closeCap (t : CapTable) (cap : Nat) : CapTable :=
  match t.slots[cap]? with
  | some c =>
      let t1 := t.release c.hook
      { t1 with
        slots := t1.slots.set cap
          { hook := .broken "Capability has been closed.", schema := c.schema } }
  | none => t

/-- The function `dupCap`: `wrapCopy(cap)` makes a new wrapper holding a copy
of the client; the result is the new table and the name of the new wrapper. -/
def dupCap (t : CapTable) (cap : Nat) : CapTable × Option Nat :=
  match t.slots[cap]? with
  | some c =>
      let t1 := t.addRef c.hook
      ({ t1 with slots := t1.slots ++ [c] }, some t.slots.length)
  | none => (t, none)

/-- The function `dup2Cap`: the assignment `dstCap = srcCap` takes a new
reference to the source, then drops what the destination held. -/
def dup2Cap (t : CapTable) (srcCap dstCap : Nat) : CapTable :=
  match t.slots[srcCap]?, t.slots[dstCap]? with
  | some s, some d =>
      let t1 := (t.addRef s.hook).release d.hook
      { t1 with slots := t1.slots.set dstCap s }
  | _, _ => t

/-- Outcome of starting a call on a client: the object that receives it, or
the error of a broken or null capability. -/
def Client.call (c : Client) : Except String Nat :=
  match c.hook with
  | .object o => .ok o
  | .broken reason => .error reason
  | .null => .error "Called null capability."

/-- The operations on wrapped clients. -/
inductive CapOp
  | close (cap : Nat)
  | dup (cap : Nat)
  | dup2 (srcCap dstCap : Nat)
deriving DecidableEq, Repr

/-- The effect of one operation on the table. -/
def CapTable.step (t : CapTable) : CapOp → CapTable
  | .close cap => closeCap t cap
  | .dup cap => (dupCap t cap).1
  | .dup2 srcCap dstCap => dup2Cap t srcCap dstCap

/-- The effect of a sequence of operations. -/
def CapTable.run (t : CapTable) (ops : List CapOp) : CapTable :=
  ops.foldl CapTable.step t

/-- Number of wrapped clients that refer to object `o`. -/
def CapTable.holders (t : CapTable) (o : Nat) : Nat :=
  t.slots.countP (fun c => c.hook = .object o)

/-- Consistency of the reference counts: every wrapped client that refers to
an object holds one counted reference to it (other references may exist), and
a destroyed hook has no reference left. -/
def CapTable.Consistent (t : CapTable) : Prop :=
  ∀ o, t.holders o ≤ t.refs o ∧ (o ∈ t.released → t.refs o = 0)

/-! ## The continuation installed by `send`, and `cancel` -/

/-- How a promise was resolved. -/
inductive Settled
  | fulfilled (response : Nat)
  | rejected (exception : Exception)
deriving DecidableEq, Repr

/-- An invocation of one of the two host callbacks given to `send`. -/
inductive Call
  | callback (response : Nat)
  | errorCallback (error : JsException)
deriving DecidableEq, Repr

/-- The state of one `send`: the promise returned by `request.send()`, the
promise paired with the `canceler` fulfiller, the outcome of their
`exclusiveJoin` (that of the promise that resolved first; the other one is
dropped), and the callbacks invoked so far. -/
structure Pipeline where
  promise : Option Settled
  canceler : Option Settled
  joined : Option Settled
  calls : List Call
deriving DecidableEq, Repr

/-- The state right after `send` returned. -/
def send : Pipeline :=
  { promise := none, canceler := none, joined := none, calls := [] }

/-- The exception `cancel` rejects the canceler with. -/
def canceledException : Exception :=
  { nature := .OTHER, durability := .PERMANENT, file := "src/sandstorm/capnp.c++",
    line := 1542, description := "Request canceled by caller." }

/-- The response promise resolves (at most once). -/
def Pipeline.respond (p : Pipeline) (s : Settled) : Pipeline :=
  match p.promise with
  | some _ => p
  | none =>
      { p with promise := some s,
               joined := match p.joined with
                         | some j => some j
                         | none => some s }

/-- The function `cancel`: `pipeline.canceler->reject(...)`.  Rejecting has an
effect only while the canceler promise is still waited on. -/
def cancel (p : Pipeline) : Pipeline :=
  match p.canceler, p.joined with
  | none, none =>
      { p with canceler := some (.rejected canceledException),
               joined := some (.rejected canceledException) }
  | _, _ => p

/-- The continuation `.then(callback).detach(errorCallback)` given the outcome
of the join. -/
def deliver : Settled → Call
  | .fulfilled response => .callback response
  | .rejected exception => .errorCallback (toJsException exception)

/-- A turn of the event loop: the continuation runs once the join is resolved. -/
def Pipeline.turn (p : Pipeline) : Pipeline :=
  match p.joined, p.calls with
  | some s, [] => { p with calls := [deliver s] }
  | _, _ => p

/-- What can happen to a pipeline after `send`. -/
inductive PipelineEvent
  | respond (s : Settled)
  | cancel
  | turn
deriving DecidableEq, Repr

/-- The effect of one event. -/
def Pipeline.step (p : Pipeline) : PipelineEvent → Pipeline
  | .respond s => p.respond s
  | .cancel => cancel p
  | .turn => p.turn

/-- The effect of a sequence of events. -/
def Pipeline.run (p : Pipeline) (events : List PipelineEvent) : Pipeline :=
  events.foldl Pipeline.step p

/-- What holds of a pipeline in every state after `send`: the join is
resolved as soon as either promise is, with the canceled error if the
response is still pending, and the callbacks invoked are at most the one the
join's outcome calls for. -/
def Pipeline.Inv (p : Pipeline) : Prop :=
  (p.promise = none → p.joined = none ∨ p.joined = some (.rejected canceledException)) ∧
  (p.joined = none → p.promise = none ∧ p.canceler = none ∧ p.calls = []) ∧
  (∀ s, p.joined = some s → p.calls = [] ∨ p.calls = [deliver s])

/-- A table with one wrapped client, which holds the only reference to object 7. -/
def CapTable.sample : CapTable :=
  { slots := [{ hook := .object 7, schema := 3 }], refs := fun o => if o = 7 then 1 else 0,
    released := [] }

/-! ## Sample inputs -/

/-- A host whose undetermined conversions are the simplest ones: strings and
objects are not numeric, objects print as `[object Object]`, and narrowing to
single precision is taken to be exact. -/
def Host.sample : Host :=
  { toNumber := fun _ => .nan, toStr := fun _ => "[object Object]", toFloat32 := fun d => d }

/-- A small set of schemas: a struct with data fields and pointer fields, an
enum, an interface, a struct holding a capability, and a struct with a union. -/
def sampleEnv : SchemaEnv := fun typeId =>
  match typeId with
  | 1 => some (.STRUCT "Point"
      [{ name := "d", proto := .SLOT .DATA, discriminantValue := none },
       { name := "a", proto := .SLOT .INT32, discriminantValue := none },
       { name := "x", proto := .SLOT .UINT64, discriminantValue := none }])
  | 2 => some (.ENUM "Color" ["red", "green"])
  | 3 => some (.INTERFACE "Service" ["ping"])
  | 4 => some (.STRUCT "Holder"
      [{ name := "c", proto := .SLOT (.INTERFACE 3), discriminantValue := none }])
  | 5 => some (.STRUCT "Shape"
      [{ name := "circle", proto := .SLOT .INT32, discriminantValue := some 0 },
       { name := "square", proto := .SLOT .INT32, discriminantValue := some 1 },
       { name := "label", proto := .SLOT .TEXT, discriminantValue := none },
       { name := "color", proto := .SLOT (.ENUM 2), discriminantValue := none }])
  | _ => none

/-- Width and signedness of the integer types: `(signed, bits)`. -/
def SchemaType.integerKind : SchemaType → Option (Bool × Nat)
  | .INT8 => some (true, 8)
  | .INT16 => some (true, 16)
  | .INT32 => some (true, 32)
  | .INT64 => some (true, 64)
  | .UINT8 => some (false, 8)
  | .UINT16 => some (false, 16)
  | .UINT32 => some (false, 32)
  | .UINT64 => some (false, 64)
  | _ => none

/-- The dynamic value a reader gives for the integer `v` held in a slot or
list element of the declared integer type: `INT` for a signed type, `UINT`
for an unsigned one; none when `v` is outside the range of the type. -/
def integerReader (type : SchemaType) (v : Int) : Option DynamicValue :=
  match type.integerKind with
  | some (true, bits) =>
      if -(2 ^ (bits - 1) : Int) ≤ v ∧ v < 2 ^ (bits - 1) then some (.INT v) else none
  | some (false, bits) =>
      if 0 ≤ v ∧ v < 2 ^ bits then some (.UINT v.toNat) else none
  | none => none

/-- The type tag `fieldToJs` hands to `valueToJs` for a field. -/
def Field.whichType (field : Field) : Which :=
  match field.proto with
  | .SLOT type => type.which
  | .GROUP _ => .STRUCT

/-- The fields the presence rule selects: the active union member, if any,
followed by the fields outside the union for which `has` holds. -/
def emittedFields (fields : List Field) (discriminant : Nat)
    (slots : List (String × DynamicValue)) : List Field :=
  (readerWhich fields discriminant).toList ++
    (getNonUnionFields fields).filter (fun f => readerHas discriminant slots f)

/-- The result of a decoding step that returned (undefined otherwise). -/
def Fueled.value : Fueled JsValue → JsValue
  | .done js => js
  | _ => .undefined

/-- The property `fieldToJs` sets for a field, as decoded with the given
recursion bound: the name of the field and the host value of its content. -/
def emittedProperty (env : SchemaEnv) (fuel : Nat) (slots : List (String × DynamicValue))
    (field : Field) : String × JsValue :=
  (field.name, (valueToJs env fuel (readerGet slots field) field.whichType).value)

/-! ## Round trip: shapes and the relation between input and output -/

/-- The declared type of the content of a field: the slot's type, or the
group's struct schema. -/
def Field.valueType (field : Field) : SchemaType :=
  match field.proto with
  | .SLOT type => type
  | .GROUP typeId => .STRUCT typeId

/-- The declared types whose host values come back unchanged from a round
trip: everything except the 64-bit integers (returned as strings), lists and
structs (compared element by element) and the capability and AnyPointer types
(not encodable). -/
def SchemaType.isPlain : SchemaType → Bool
  | .VOID => true | .BOOL => true
  | .INT8 => true | .INT16 => true | .INT32 => true
  | .UINT8 => true | .UINT16 => true | .UINT32 => true
  | .FLOAT32 => true | .FLOAT64 => true
  | .TEXT => true | .DATA => true | .ENUM _ => true
  | _ => false

/-- The keys of a host object that name a member of the union of struct `typeId`. -/
def unionKeys (env : SchemaEnv) (typeId : Nat) (props : List (String × JsValue)) :
    List String :=
  (props.filter fun p =>
    match findFieldByName (schemaFields env typeId) p.1 with
    | some f => f.discriminantValue.isSome
    | none => false).map Prod.fst

mutual

/-- Host values whose shape matches a declared type, for the types `fromJs`
can encode: `null` for Void, a boolean, an integer number within the range of
the declared integer type (for UInt64: within `[0, 2^63)`), a number (for
Float32: one that single precision represents), a string for Text, an object
over external unsigned bytes for Data, an array of matching elements, the name
of an enumerant, and for a struct a plain object matching the struct. -/
inductive Shape (H : Host) (env : SchemaEnv) : SchemaType → JsValue → Prop
  | void : Shape H env .VOID .null
  | bool (b : Bool) : Shape H env .BOOL (.boolean b)
  | int (type : SchemaType) (n : Int) (value : DynamicValue) :
      type ≠ .UINT64 → integerReader type n = some value →
      Shape H env type (.number (.finite n 0))
  | uint64 (n : Int) : 0 ≤ n → n < 2 ^ 63 → Shape H env .UINT64 (.number (.finite n 0))
  | float32 (d : JsNumber) : H.toFloat32 d = d → Shape H env .FLOAT32 (.number d)
  | float64 (d : JsNumber) : Shape H env .FLOAT64 (.number d)
  | text (s : String) : Shape H env .TEXT (.string s)
  | data (bytes : List Nat) :
      Shape H env .DATA (.object (.externalArray .kExternalUnsignedByteArray bytes) [])
  | list (elementType : SchemaType) (elems : List JsValue) :
      listSchemaOf env elementType = .ok () → ShapeList H env elementType elems →
      Shape H env (.LIST elementType) (.array elems)
  | enum (typeId : Nat) (enumerants : List String) (name : String) :
      getEnum env typeId = .ok enumerants → name ∈ enumerants →
      Shape H env (.ENUM typeId) (.string name)
  | struct (typeId : Nat) (props : List (String × JsValue)) :
      (getStruct env typeId).isOk → ShapeProps H env typeId props →
      (props.map Prod.fst).Nodup → (unionKeys env typeId props).length ≤ 1 →
      Shape H env (.STRUCT typeId) (.object .plain props)

/-- Every element of the host array matches the element type. -/
inductive ShapeList (H : Host) (env : SchemaEnv) : SchemaType → List JsValue → Prop
  | nil (elementType : SchemaType) : ShapeList H env elementType []
  | cons (elementType : SchemaType) (js : JsValue) (rest : List JsValue) :
      Shape H env elementType js → ShapeList H env elementType rest →
      ShapeList H env elementType (js :: rest)

/-- Every key names a field of the struct and its value matches the field; a
group that is a member of the union is the default member. -/
inductive ShapeProps (H : Host) (env : SchemaEnv) : Nat → List (String × JsValue) → Prop
  | nil (typeId : Nat) : ShapeProps H env typeId []
  | cons (typeId : Nat) (key : String) (js : JsValue) (rest : List (String × JsValue))
      (field : Field) :
      findFieldByName (schemaFields env typeId) key = some field →
      Shape H env field.valueType js →
      (∀ groupId, field.proto = .GROUP groupId →
        field.discriminantValue = none ∨ field.discriminantValue = some 0) →
      ShapeProps H env typeId rest →
      ShapeProps H env typeId ((key, js) :: rest)

end

mutual

/-- The relation between a host value given to `fromJs` and the host value
`toJs` returns for it: equal, except that a 64-bit integer comes back as its
decimal string, arrays are compared element by element, and every property of
an input object is found in the output object with a related value. -/
inductive RoundTrip (env : SchemaEnv) : SchemaType → JsValue → JsValue → Prop
  | int64 (n : Int) : RoundTrip env .INT64 (.number (.finite n 0)) (.string (toString n))
  | uint64 (n : Int) : RoundTrip env .UINT64 (.number (.finite n 0)) (.string (toString n))
  | plain (type : SchemaType) (js : JsValue) : type.isPlain = true → RoundTrip env type js js
  | list (elementType : SchemaType) (elems out : List JsValue) :
      RoundTripList env elementType elems out →
      RoundTrip env (.LIST elementType) (.array elems) (.array out)
  | struct (typeId : Nat) (props out : List (String × JsValue)) :
      RoundTripProps env typeId props out →
      (out.map Prod.fst).Nodup →
      (∀ key ∈ out.map Prod.fst, ∃ f ∈ schemaFields env typeId, f.name = key) →
      RoundTrip env (.STRUCT typeId) (.object .plain props) (.object .plain out)

/-- Element-wise round trip of arrays of the same length. -/
inductive RoundTripList (env : SchemaEnv) : SchemaType → List JsValue → List JsValue → Prop
  | nil (elementType : SchemaType) : RoundTripList env elementType [] []
  | cons (elementType : SchemaType) (js out : JsValue) (rest outRest : List JsValue) :
      RoundTrip env elementType js out → RoundTripList env elementType rest outRest →
      RoundTripList env elementType (js :: rest) (out :: outRest)

/-- Every property of the input object is a property of the output object,
with a value related by the round trip at the field's type. -/
inductive RoundTripProps (env : SchemaEnv) :
    Nat → List (String × JsValue) → List (String × JsValue) → Prop
  | nil (typeId : Nat) (out : List (String × JsValue)) : RoundTripProps env typeId [] out
  | cons (typeId : Nat) (key : String) (js : JsValue) (rest out : List (String × JsValue))
      (field : Field) (y : JsValue) :
      findFieldByName (schemaFields env typeId) key = some field →
      assocGet out key = some y →
      RoundTrip env field.valueType js y →
      RoundTripProps env typeId rest out →
      RoundTripProps env typeId ((key, js) :: rest) out

end

/-- The schemas the round trip is stated for: field names are distinct within
a struct, so are the discriminant values of its union members, and the fields
that `toJs` emits without their having been written (groups, and a
struct-typed default member of a union) lead to schemas of smaller rank, so
that decoding a fresh struct terminates. -/
structure WellFormed (env : SchemaEnv) (rank : Nat → Nat) : Prop where
  names : ∀ typeId, ((schemaFields env typeId).map Field.name).Nodup
  discriminants : ∀ typeId, ∀ f ∈ schemaFields env typeId, ∀ g ∈ schemaFields env typeId,
    ∀ d, f.discriminantValue = some d → g.discriminantValue = some d → f = g
  groups : ∀ typeId, ∀ f ∈ schemaFields env typeId, ∀ groupId,
    f.proto = .GROUP groupId → rank groupId < rank typeId
  defaults : ∀ typeId, ∀ f ∈ schemaFields env typeId, ∀ structId,
    f.proto = .SLOT (.STRUCT structId) → f.discriminantValue = some 0 →
    rank structId < rank typeId

/-! ## Round trip: decoding fields that were never written -/

/-- A field that `toJs` can emit without its having been written: a member of
the union with discriminant value 0, a group, or a data field. -/
def Field.emittedUnset (f : Field) : Prop :=
  f.discriminantValue = some 0 ∨
    (f.discriminantValue = none ∧
      ((∃ groupId, f.proto = .GROUP groupId) ∨
       (∃ type, f.proto = .SLOT type ∧ type.isPointer = false)))

/-- What the round trip needs of one host value: `orphanFromJs` returns an
orphan without raising, the orphan is adopted, and the stored value decodes,
within the recursion bound, to a host value related to the input. -/
def ValueOK (H : Host) (env : SchemaEnv) (type : SchemaType) (js : JsValue) : Prop :=
  ∃ orphan stored fuel out,
    (∀ field thrown,
      orphanFromJs H env field type js thrown = { thrown := thrown, result := .ok orphan }) ∧
    orphan.isUnknown = false ∧
    storeValue H type orphan = .ok stored ∧
    valueToJs env fuel stored type.which = .done out ∧
    RoundTrip env type js out

/-- What the round trip needs of the loop of `structFromJs` over `props`
starting from `builder`: it returns true without raising and leaves `b2`,
which differs from `builder` only at the keys of `props`; each key's field is
written, is the active member if it is in the union, and decodes to a host
value related to the key's value. -/
def PropsOK (H : Host) (env : SchemaEnv) (builder : Builder)
    (props : List (String × JsValue)) (fuel : Nat) (b2 : Builder) : Prop :=
  (∀ thrown, structFromJs H env builder props thrown =
    { builder := b2, thrown := thrown, result := .ok true }) ∧
  b2.typeId = builder.typeId ∧
  (∀ name, name ∉ props.map Prod.fst → assocGet b2.slots name = assocGet builder.slots name) ∧
  (unionKeys env builder.typeId props = [] → b2.discriminant = builder.discriminant) ∧
  ∀ p ∈ props, ∃ f out,
    findFieldByName (schemaFields env builder.typeId) p.1 = some f ∧
    (assocGet b2.slots p.1).isSome = true ∧
    (∀ d, f.discriminantValue = some d → b2.discriminant = d) ∧
    valueToJs env fuel (readerGet b2.slots f) f.whichType = .done out ∧
    RoundTrip env f.valueType p.2 out

/-- What the round trip needs of the loop over a list that is not a struct
list: it returns the stored elements without raising, and they decode, within
the recursion bound, to host values related to the input elements. -/
def ListOK (H : Host) (env : SchemaEnv) (elementType : SchemaType) (elems : List JsValue) :
    Prop :=
  ∃ vs fuel out,
    (∀ field thrown, listFromJs H env field elementType elems thrown =
      { thrown := thrown, result := .ok (.built vs) }) ∧
    listToJs (fun v => valueToJs env fuel v elementType.which) vs = .done out ∧
    RoundTripList env elementType elems out

/-- What the round trip needs of the loop over a struct list. -/
def StructListOK (H : Host) (env : SchemaEnv) (typeId : Nat) (elems : List JsValue) : Prop :=
  ∃ vs fuel out,
    (∀ thrown, structListFromJs H env typeId elems thrown =
      { thrown := thrown, result := .ok (.built vs) }) ∧
    listToJs (fun v => valueToJs env fuel v .STRUCT) vs = .done out ∧
    RoundTripList env (.STRUCT typeId) elems out

/-! ## The reactor bridge: `UvEventPort` -/

/-- Failure of a `KJ_ASSERT` of this file. -/
def assertFailed (line : Nat) (condition : String) : Exception :=
  { nature := .LOCAL_BUG, durability := .PERMANENT, file := "src/sandstorm/capnp.c++",
    line := line, description := "expected " ++ condition }

/-- The state of a `UvEventPort`: the flags `runnable` and `scheduled` of the
class and whether the libuv timer is started, together with two records kept
for the statements about it: the value of `scheduled` found at each entry of
`schedule()` (latest first) and the number of calls of `kjLoop.run()`. -/
structure UvEventPort where
  runnable : Bool
  scheduled : Bool
  timerActive : Bool
  scheduleEntries : List Bool
  loopRuns : Nat
deriving DecidableEq, Repr

/-- The port as constructed: not runnable, nothing scheduled. -/
def UvEventPort.new : UvEventPort :=
  { runnable := false, scheduled := false, timerActive := false, scheduleEntries := [],
    loopRuns := 0 }

/-- The method `schedule()`: starts the zero-delay one-shot timer and sets
`scheduled`. -/
def UvEventPort.schedule (port : UvEventPort) : UvEventPort :=
  { port with
    timerActive := true,
    scheduled := true,
    scheduleEntries := port.scheduled :: port.scheduleEntries }

/-- The method `setRunnable(runnable)`. -/
def UvEventPort.setRunnable (port : UvEventPort) (runnable : Bool) : UvEventPort :=
  if runnable != port.runnable then
    if runnable && !port.scheduled then
      UvEventPort.schedule { port with runnable := runnable }
    else { port with runnable := runnable }
  else port

/-- The call `kjLoop.run()`.  The KJ event loop is outside this file; what it
does to the port is to call `setRunnable`, here with the given arguments in
order. -/
def UvEventPort.kjLoopRun (port : UvEventPort) (calls : List Bool) : UvEventPort :=
  calls.foldl UvEventPort.setRunnable { port with loopRuns := port.loopRuns + 1 }

/-- The method `run()`, called when the timer fires. -/
def UvEventPort.run (port : UvEventPort) (calls : List Bool) : Except Exception UvEventPort :=
  if !port.scheduled then .error (assertFailed 101 "scheduled")
  else
    -- uv_timer_stop
    let stopped := { port with timerActive := false }
    let ran := if stopped.runnable then stopped.kjLoopRun calls else stopped
    let cleared := { ran with scheduled := false }
    if cleared.runnable then
      -- Since `scheduled` has been true the whole time, we won't have been rescheduled.
      .ok cleared.schedule
    else .ok { cleared with scheduled := false }

/-- The timer callback `doRun(handle, status)`. -/
def UvEventPort.doRun (port : UvEventPort) (status : Int) (calls : List Bool) :
    Except Exception UvEventPort :=
  if status = 0 then port.run calls else .ok port

/-- What can happen to a port: a call of `setRunnable` from the KJ loop, or
the timer firing with a status, during which `kjLoop.run()` makes the listed
calls of `setRunnable`. -/
inductive PortEvent
  | setRunnable (runnable : Bool)
  | timer (status : Int) (calls : List Bool)
deriving DecidableEq, Repr

/-- The effect of one event.  A timer that is not started does not fire; a
one-shot timer is stopped by libuv before its callback runs. -/
def UvEventPort.step (port : UvEventPort) : PortEvent → Except Exception UvEventPort
  | .setRunnable runnable => .ok (port.setRunnable runnable)
  | .timer status calls =>
      if port.timerActive then
        UvEventPort.doRun { port with timerActive := false } status calls
      else .ok port

/-- The effect of a sequence of events, stopping at the first exception. -/
def UvEventPort.runEvents : UvEventPort → List PortEvent → Except Exception UvEventPort
  | port, [] => .ok port
  | port, event :: rest =>
      match port.step event with
      | .ok next => next.runEvents rest
      | .error e => .error e

/-- The invariant of the bridge between events: a runnable port has a wake-up
scheduled, a started timer is a scheduled one, and `schedule()` was never
entered with `scheduled` set. -/
def UvEventPort.Inv (port : UvEventPort) : Prop :=
  (port.runnable = true → port.scheduled = true) ∧
  (port.timerActive = true → port.scheduled = true) ∧
  ∀ entry ∈ port.scheduleEntries, entry = false

/-! ## Descriptors: `UvIoStream` and `UvConnectionReceiver`

The kernel and the poller are outside the file.  An operation is run against
a script: one entry per system call it makes, giving the outcome of the call
and how the wait that may follow it ends. -/

/-- How the promise of `onReadable()` or `onWritable()` ends: `pollDone` fires
the event, or it reports an error and rejects the promise. -/
inductive Notification
  | fired
  | failed (description : String)
deriving DecidableEq, Repr

/-- Why an operation on a descriptor fails: the fault raised by a system call
macro (the call and the error number), the rejection of a wait, or a failed
requirement. -/
inductive IoError
  | syscall (call : String) (errno : Nat)
  | poll (description : String)
  | require (description : String)
deriving DecidableEq, Repr

/-- The promise an operation returns, as far as the script determines it:
fulfilled, rejected, or still waiting when the script ends. -/
inductive IoResult (α : Type)
  | ready (value : α)
  | failed (error : IoError)
  | pending
deriving DecidableEq, Repr

/-- The outcome of `KJ_NONBLOCKING_SYSCALL(n = ::read(fd, buffer, maxBytes))`:
the bytes the kernel has for the descriptor (of which the call delivers at
most `maxBytes`; none at end of stream), a negative result by `EAGAIN`, or
another error, for which the macro raises a fault. -/
inductive ReadOutcome
  | data (bytes : List Nat)
  | wouldBlock
  | failed (errno : Nat)
deriving DecidableEq, Repr

/-- The outcome of `KJ_NONBLOCKING_SYSCALL` around `::write` or `::writev`:
the number of bytes the kernel has room for (of which the call takes at most
the bytes offered), a negative result by `EAGAIN`, or another error. -/
inductive WriteOutcome
  | space (bytes : Nat)
  | wouldBlock
  | failed (errno : Nat)
deriving DecidableEq, Repr

/-- The outcome of `accept4`: the result and the value of `errno`. -/
structure AcceptOutcome where
  newFd : Int
  errno : Nat
deriving DecidableEq, Repr

/-- What an operation does that is visible outside it: a system call, with
its arguments and its outcome, or the registration of a wait. -/
inductive IoEvent
  | read (buffer minBytes maxBytes alreadyRead : Nat) (outcome : ReadOutcome)
  | write (buffer : List Nat) (outcome : WriteOutcome)
  | writev (iov : List (List Nat)) (outcome : WriteOutcome)
  | accept (outcome : AcceptOutcome)
  | onReadable
  | onWritable
deriving DecidableEq, Repr

/-- The error number for which the macro raises a fault, if any. -/
def WriteOutcome.error : WriteOutcome → Option Nat
  | .failed errno => some errno
  | _ => none

/-- The statement `size_t n = writeResult < 0 ? 0 : writeResult;` for a call
that offered `size` bytes. -/
def WriteOutcome.written (outcome : WriteOutcome) (size : Nat) : Nat :=
  match outcome with
  | .space bytes => min bytes size
  | _ => 0

/-- The course of an operation: the state of its promise and the events so far. -/
structure IoRun (α : Type) where
  result : IoResult α
  trace : List IoEvent
deriving DecidableEq, Repr

/-- An operation that does `events` first and then goes on as `run`. -/
def IoRun.after {α : Type} (events : List IoEvent) (run : IoRun α) : IoRun α :=
  { run with trace := events ++ run.trace }

/-- The promise `wait.then(continuation)`: the continuation runs when the wait
fires; a rejected wait rejects the promise. -/
def thenAfter {α : Type} (wake : Notification) (continuation : IoRun α) : IoRun α :=
  match wake with
  | .fired => continuation
  | .failed description => { result := .failed (.poll description), trace := [] }

/-- The method `write(buffer, size)`. -/
def UvIoStream.write : List (WriteOutcome × Notification) → List Nat → IoRun Unit
  | [], _ => { result := .pending, trace := [] }
  | (outcome, wake) :: rest, buffer =>
      match outcome.error with
      | some errno =>
          { result := .failed (.syscall "write" errno), trace := [.write buffer outcome] }
      | none =>
          -- A negative result means EAGAIN, which we can treat the same as having written
          -- zero bytes.
          if outcome.written buffer.length = buffer.length then
            { result := .ready (), trace := [.write buffer outcome] }
          else
            IoRun.after [.write buffer outcome, .onReadable]
              (thenAfter wake
                (UvIoStream.write rest (buffer.drop (outcome.written buffer.length))))

/-- Where the loop of `writeInternal` that discards the written data ends: a
new write of what is left, completion, or the failure of the debug assertion
`n == firstPiece.size()`. -/
inductive Discarded
  | retry (firstPiece : List Nat) (morePieces : List (List Nat))
  | done
  | assertFailed (n : Nat)
deriving DecidableEq, Repr

/-- The loop `for (;;)` of `writeInternal`: discards the `n` bytes written. -/
def discardWritten : Nat → List Nat → List (List Nat) → Discarded
  | n, firstPiece, [] =>
      if n < firstPiece.length then
        -- Only part of the first piece was consumed.
        .retry (firstPiece.drop n) []
      else if n = firstPiece.length then .done
      else .assertFailed n
  | n, firstPiece, next :: rest =>
      if n < firstPiece.length then .retry (firstPiece.drop n) (next :: rest)
      else
        -- First piece was fully consumed, so move on to the next piece.
        discardWritten (n - firstPiece.length) next rest

/-- The method `writeInternal(firstPiece, morePieces)`. -/
def UvIoStream.writeInternal :
    List (WriteOutcome × Notification) → List Nat → List (List Nat) → IoRun Unit
  | [], _, _ => { result := .pending, trace := [] }
  | (outcome, wake) :: rest, firstPiece, morePieces =>
      match outcome.error with
      | some errno =>
          { result := .failed (.syscall "writev" errno),
            trace := [.writev (firstPiece :: morePieces) outcome] }
      | none =>
          match discardWritten (outcome.written (firstPiece :: morePieces).flatten.length)
              firstPiece morePieces with
          | .done =>
              { result := .ready (), trace := [.writev (firstPiece :: morePieces) outcome] }
          | .assertFailed n =>
              { result := .failed (.require ("n == firstPiece.size(); n = " ++ toString n)),
                trace := [.writev (firstPiece :: morePieces) outcome] }
          | .retry firstPiece1 morePieces1 =>
              -- Wait for POLLOUT and then write again.
              IoRun.after [.writev (firstPiece :: morePieces) outcome, .onWritable]
                (thenAfter wake (UvIoStream.writeInternal rest firstPiece1 morePieces1))

/-- The method `write(pieces)`. -/
def UvIoStream.writePieces (script : List (WriteOutcome × Notification))
    (pieces : List (List Nat)) : IoRun Unit :=
  match pieces with
  | [] => UvIoStream.writeInternal script [] []
  | firstPiece :: morePieces => UvIoStream.writeInternal script firstPiece morePieces

/-- The bytes the kernel took at the system calls of a trace, in order. -/
def bytesWritten : List IoEvent → List Nat
  | [] => []
  | .write buffer outcome :: rest =>
      buffer.take (outcome.written buffer.length) ++ bytesWritten rest
  | .writev iov outcome :: rest =>
      iov.flatten.take (outcome.written iov.flatten.length) ++ bytesWritten rest
  | _ :: rest => bytesWritten rest

/-- The caller's memory after the kernel has stored `bytes` from the address
`buffer` on; addresses are counted from the start of the caller's buffer. -/
def storeBytes (memory : Nat → Nat) (buffer : Nat) (bytes : List Nat) : Nat → Nat :=
  fun address =>
    if buffer ≤ address then (bytes[address - buffer]?).getD (memory address)
    else memory address

/-- The course of a read: the state of its promise, the caller's memory and
the events so far. -/
structure ReadRun where
  result : IoResult Nat
  memory : Nat → Nat
  trace : List IoEvent

/-- A read that does `events` first and then goes on as `run`. -/
def ReadRun.after (events : List IoEvent) (run : ReadRun) : ReadRun :=
  { run with trace := events ++ run.trace }

/-- The promise `onReadable().then(continuation)` of a read: a rejected wait
rejects the promise and leaves the memory as it is. -/
def thenRead (wake : Notification) (memory : Nat → Nat) (continuation : ReadRun) : ReadRun :=
  match wake with
  | .fired => continuation
  | .failed description =>
      { result := .failed (.poll description), memory := memory, trace := [] }

/-- The method `tryReadInternal(buffer, minBytes, maxBytes, alreadyRead)`. -/
def UvIoStream.tryReadInternal :
    List (ReadOutcome × Notification) → (Nat → Nat) → Nat → Nat → Nat → Nat → ReadRun
  | [], memory, _, _, _, _ => { result := .pending, memory := memory, trace := [] }
  | (outcome, wake) :: rest, memory, buffer, minBytes, maxBytes, alreadyRead =>
      match outcome with
      | .failed errno =>
          { result := .failed (.syscall "read" errno), memory := memory,
            trace := [.read buffer minBytes maxBytes alreadyRead outcome] }
      | .wouldBlock =>
          -- Read would block.
          ReadRun.after [.read buffer minBytes maxBytes alreadyRead outcome, .onReadable]
            (thenRead wake memory
              (UvIoStream.tryReadInternal rest memory buffer minBytes maxBytes alreadyRead))
      | .data bytes =>
          if (bytes.take maxBytes).length = 0 then
            -- EOF -OR- maxBytes == 0.
            { result := .ready alreadyRead,
              memory := storeBytes memory buffer (bytes.take maxBytes),
              trace := [.read buffer minBytes maxBytes alreadyRead outcome] }
          else if (bytes.take maxBytes).length < minBytes then
            -- The kernel returned fewer bytes than we asked for (and fewer than we need).
            ReadRun.after [.read buffer minBytes maxBytes alreadyRead outcome, .onReadable]
              (thenRead wake (storeBytes memory buffer (bytes.take maxBytes))
                (UvIoStream.tryReadInternal rest
                  (storeBytes memory buffer (bytes.take maxBytes))
                  (buffer + (bytes.take maxBytes).length)
                  (minBytes - (bytes.take maxBytes).length)
                  (maxBytes - (bytes.take maxBytes).length)
                  (alreadyRead + (bytes.take maxBytes).length)))
          else
            -- We read enough to stop here.
            { result := .ready (alreadyRead + (bytes.take maxBytes).length),
              memory := storeBytes memory buffer (bytes.take maxBytes),
              trace := [.read buffer minBytes maxBytes alreadyRead outcome] }

/-- The method `tryRead(buffer, minBytes, maxBytes)`; the buffer starts at
address 0 of the caller's memory. -/
def UvIoStream.tryRead (script : List (ReadOutcome × Notification)) (memory : Nat → Nat)
    (minBytes maxBytes : Nat) : ReadRun :=
  UvIoStream.tryReadInternal script memory 0 minBytes maxBytes 0

/-- The method `read(buffer, minBytes, maxBytes)`: a result short of
`minBytes` fails the requirement "Premature EOF". -/
def UvIoStream.read (script : List (ReadOutcome × Notification)) (memory : Nat → Nat)
    (minBytes maxBytes : Nat) : ReadRun :=
  match (UvIoStream.tryRead script memory minBytes maxBytes).result with
  | .ready result =>
      if result ≥ minBytes then UvIoStream.tryRead script memory minBytes maxBytes
      else
        { UvIoStream.tryRead script memory minBytes maxBytes with
          result := .failed (.require "Premature EOF") }
  | _ => UvIoStream.tryRead script memory minBytes maxBytes

/-- The bytes the kernel delivered at the reads of a trace, in order. -/
def bytesRead : List IoEvent → List Nat
  | [] => []
  | .read _ _ maxBytes _ (.data bytes) :: rest => bytes.take maxBytes ++ bytesRead rest
  | _ :: rest => bytesRead rest

/-- The number of waits for readability registered in a trace. -/
def readableWaits (trace : List IoEvent) : Nat :=
  trace.count .onReadable

/-! ### `accept` -/

/-- Error numbers of `<errno.h>` on Linux, which is not part of the
repository. -/
def EINTR : Nat := 4
/-- Error number `EAGAIN` on Linux. -/
def EAGAIN : Nat := 11
/-- Error number `EWOULDBLOCK` on Linux, where it equals `EAGAIN`. -/
def EWOULDBLOCK : Nat := 11
/-- Error number `EPROTO` on Linux. -/
def EPROTO : Nat := 71
/-- Error number `ENETDOWN` on Linux. -/
def ENETDOWN : Nat := 100
/-- Error number `ENETUNREACH` on Linux. -/
def ENETUNREACH : Nat := 101
/-- Error number `ECONNABORTED` on Linux. -/
def ECONNABORTED : Nat := 103
/-- Error number `ETIMEDOUT` on Linux. -/
def ETIMEDOUT : Nat := 110
/-- Error number `EHOSTDOWN` on Linux. -/
def EHOSTDOWN : Nat := 112
/-- Error number `EHOSTUNREACH` on Linux. -/
def EHOSTUNREACH : Nat := 113

/-- Flag `kj::LowLevelAsyncIoProvider::TAKE_OWNERSHIP` (declared in
`kj/async-io.h`, which is not part of the repository). -/
def TAKE_OWNERSHIP : Nat := 1
/-- Flag `kj::LowLevelAsyncIoProvider::ALREADY_CLOEXEC`. -/
def ALREADY_CLOEXEC : Nat := 2
/-- Flag `kj::LowLevelAsyncIoProvider::ALREADY_NONBLOCK`. -/
def ALREADY_NONBLOCK : Nat := 4

/-- The C++ operator `||` on unsigned values: 1 if an operand is not zero. -/
def logicalOr (a b : Nat) : Nat :=
  if a ≠ 0 ∨ b ≠ 0 then 1 else 0

/-- The constant `NEW_FD_FLAGS` on Linux, as written in the source:
`ALREADY_CLOEXEC || ALREADY_NONBLOCK || TAKE_OWNERSHIP`. -/
def NEW_FD_FLAGS : Nat :=
  logicalOr (logicalOr ALREADY_CLOEXEC ALREADY_NONBLOCK) TAKE_OWNERSHIP

/-- A stream made by `kj::heap<UvIoStream>(uvLoop, fd, flags)`. -/
structure UvIoStream where
  fd : Int
  flags : Nat
deriving DecidableEq, Repr

/-- The error numbers for which `accept` retries at once (`goto retry`). -/
def acceptRetriesAtOnce (errno : Nat) : Bool :=
  errno = EINTR || errno = ENETDOWN || errno = EPROTO || errno = EHOSTDOWN ||
    errno = EHOSTUNREACH || errno = ENETUNREACH || errno = ECONNABORTED || errno = ETIMEDOUT

/-- The method `UvConnectionReceiver::accept()`. -/
def UvConnectionReceiver.accept : List (AcceptOutcome × Notification) → IoRun UvIoStream
  | [] => { result := .pending, trace := [] }
  | (outcome, wake) :: rest =>
      if outcome.newFd ≥ 0 then
        { result := .ready { fd := outcome.newFd, flags := NEW_FD_FLAGS },
          trace := [.accept outcome] }
      else if outcome.errno = EAGAIN ∨ outcome.errno = EWOULDBLOCK then
        -- Not ready yet.
        IoRun.after [.accept outcome, .onReadable]
          (thenAfter wake (UvConnectionReceiver.accept rest))
      else if acceptRetriesAtOnce outcome.errno then
        IoRun.after [.accept outcome] (UvConnectionReceiver.accept rest)
      else
        { result := .failed (.syscall "accept" outcome.errno), trace := [.accept outcome] }

/-- An outcome of `accept4` after which `accept` tries again: an error whose
number is one of those retried at once or is `EAGAIN` / `EWOULDBLOCK`. -/
def AcceptOutcome.skipped (outcome : AcceptOutcome) : Bool :=
  decide (outcome.newFd < 0) &&
    (outcome.errno = EAGAIN || outcome.errno = EWOULDBLOCK || acceptRetriesAtOnce outcome.errno)

/-- The events of outcomes that are skipped: the call alone for an error
retried at once, the call and a wait for readability for `EAGAIN` /
`EWOULDBLOCK`. -/
def skippedEvents : List (AcceptOutcome × Notification) → List IoEvent
  | [] => []
  | (outcome, _) :: rest =>
      if outcome.errno = EAGAIN ∨ outcome.errno = EWOULDBLOCK then
        .accept outcome :: .onReadable :: skippedEvents rest
      else .accept outcome :: skippedEvents rest

/-- Enumerant names are identifiers of the schema language: none starts with
a decimal digit. -/
def identifierNames (enumerants : List String) : Prop :=
  ∀ name ∈ enumerants, ∀ c ∈ name.data.head?, c.isDigit = false

/-- The element a list that is not a struct list gets from the orphan built
for it: none when the conversion threw, the orphan is null, or `adopt` threw. -/
def adoptedElement (H : Host) (elementType : SchemaType) (r : OrphanResult) :
    Option DynamicValue :=
  match r.result with
  | .error _ => none
  | .ok orphan =>
      if orphan.isUnknown then none
      else
        match storeValue H elementType orphan with
        | .ok stored => some stored
        | .error _ => none

/-- The element of a struct list after it was filled in place: none when
`structFromJs` threw or returned false. -/
def filledStruct (r : StructResult) : Option DynamicValue :=
  match r.result with
  | .ok true => some r.builder.asReader
  | _ => none

/-- The call of `structFromJs` on element `i` of a struct list, for a host
element that is an object; none for a host element that is not an object. -/
def fillElement (H : Host) (env : SchemaEnv) (typeId : Nat) (js : JsValue)
    (thrown : Thrown) : Option StructResult :=
  match js with
  | .object _ props => some (structFromJs H env (Builder.fresh typeId) props thrown)
  | .array es => some (structFromJsIndexed H env (Builder.fresh typeId) 0 es thrown)
  | _ => none

/-- The element of a struct list filled in place from a host value: none when
the host value is not an object or `structFromJs` did not return true. -/
def filledElement (H : Host) (env : SchemaEnv) (typeId : Nat) (js : JsValue)
    (thrown : Thrown) : Option DynamicValue :=
  match fillElement H env typeId js thrown with
  | some r => filledStruct r
  | none => none

/-! ## Schema functions: `methods`, `restore`, `castAs` -/

/-- The name under which a schema node is reported: `getProto().getDisplayName()`. -/
def Node.displayName : Node → String
  | .STRUCT displayName _ => displayName
  | .ENUM displayName _ => displayName
  | .INTERFACE displayName _ => displayName
  | .OTHER displayName => displayName

/-- The test `getProto().isStruct()`. -/
def Node.isStruct : Node → Bool
  | .STRUCT _ _ => true
  | _ => false

/-- The test `getProto().isInterface()`. -/
def Node.isInterface : Node → Bool
  | .INTERFACE _ _ => true
  | _ => false

/-- A method schema (`capnp::InterfaceSchema::Method`): the interface that
declares it, its position among the methods and its name. -/
structure Method where
  interfaceId : Nat
  ordinal : Nat
  name : String
deriving DecidableEq, Repr

/-- The methods of an interface in declaration order: `asInterface().getMethods()`. -/
def getMethods (interfaceId : Nat) (names : List String) : List Method :=
  names.enum.map fun p => { interfaceId := interfaceId, ordinal := p.1, name := p.2 }

/-- The two memo tables of `CapnpContext`, each from a 64-bit id to the handle
of the host object kept for it. -/
structure CapnpContext where
  importedFiles : List (Nat × Nat)
  methodSets : List (Nat × Nat)
deriving DecidableEq, Repr

/-- The host objects made by `v8::Object::New()` in `methods`, in order of
creation: a handle is the position of its object, so that two handles name the
same object exactly when they are equal. -/
abbrev JsHeap := List (List (String × Method))

/-- Outcome of `methods`: the context and the host heap afterwards, and the
handle returned or the exception raised. -/
structure MethodsResult where
  context : CapnpContext
  heap : JsHeap
  result : Except JsException Nat
deriving Repr

/-- The function `methods(schema)`: for an interface schema, a new host object
is made and each method is set in it under its name; any other schema raises
an error naming it. -/
def methods (env : SchemaEnv) (context : CapnpContext) (heap : JsHeap) (typeId : Nat) :
    MethodsResult :=
  match env typeId with
  | some (.INTERFACE _ names) =>
      let result := (getMethods typeId names).foldl (fun obj m => assocSet obj m.name m) []
      { context := context, heap := heap ++ [result], result := .ok heap.length }
  | some (.STRUCT displayName _) =>
      { context := context, heap := heap,
        result := .error (.Error ("Not an interface type: " ++ displayName)) }
  | some (.ENUM displayName _) =>
      { context := context, heap := heap,
        result := .error (.Error ("Not an interface type: " ++ displayName)) }
  | some (.OTHER displayName) =>
      { context := context, heap := heap,
        result := .error (.Error ("Not an interface type: " ++ displayName)) }
  | none =>
      { context := context, heap := heap, result := .error (.Error "Not an interface type: ") }

/-- Outcome of a function that wraps a new client: the table afterwards, and
the position of the new wrapper or the exception raised. -/
structure CapResult where
  table : CapTable
  result : Except JsException Nat

/-- The step `wrapper.wrapCopy(client)` for a client: a new wrapper holding
one more reference to the hook. -/
def wrapCopyClient (t : CapTable) (c : Client) : CapResult :=
  let t1 := t.addRef c.hook
  { table := { t1 with slots := t1.slots ++ [c] }, result := .ok t.slots.length }

/-- The body of `castAs(cap, schema)`, run on the unwrapped client: for an
interface schema, a new wrapper on the same hook, typed by the schema; any
other schema raises an error naming it. -/
def castAs (env : SchemaEnv) (t : CapTable) (cap : Client) (typeId : Nat) : CapResult :=
  match env typeId with
  | some (.INTERFACE _ _) => wrapCopyClient t { hook := cap.hook, schema := typeId }
  | some (.STRUCT displayName _) =>
      { table := t, result := .error (.Error ("Not an interface type: " ++ displayName)) }
  | some (.ENUM displayName _) =>
      { table := t, result := .error (.Error ("Not an interface type: " ++ displayName)) }
  | some (.OTHER displayName) =>
      { table := t, result := .error (.Error ("Not an interface type: " ++ displayName)) }
  | none => { table := t, result := .error (.Error "Not an interface type: ") }

/-- The body of `restore(connection, objectId, schema)`: for an interface
schema, a new wrapper on the hook that the connection imports under the given
reference, typed by the schema; any other schema raises an error naming it and
imports nothing. -/
def restore (env : SchemaEnv) (t : CapTable) (connection : String → ClientHook)
    (ref : String) (typeId : Nat) : CapResult :=
  match env typeId with
  | some (.INTERFACE _ _) => wrapCopyClient t { hook := connection ref, schema := typeId }
  | some (.STRUCT displayName _) =>
      { table := t, result := .error (.Error ("Not an interface type: " ++ displayName)) }
  | some (.ENUM displayName _) =>
      { table := t, result := .error (.Error ("Not an interface type: " ++ displayName)) }
  | some (.OTHER displayName) =>
      { table := t, result := .error (.Error ("Not an interface type: " ++ displayName)) }
  | none => { table := t, result := .error (.Error "Not an interface type: ") }

/-- A context that has memoized nothing yet. -/
def CapnpContext.new : CapnpContext :=
  { importedFiles := [], methodSets := [] }

/-! ## `OwnedFileDescriptor`: construction and the poll waiters -/

/-- Status flag `O_NONBLOCK` of Linux (`fcntl.h`, not part of the repository). -/
def O_NONBLOCK : Nat := 2048
/-- Descriptor flag `FD_CLOEXEC` of Linux. -/
def FD_CLOEXEC : Nat := 1

/-- Event `UV_READABLE` of libuv (`uv.h`, not part of the repository). -/
def UV_READABLE : Nat := 1
/-- Event `UV_WRITABLE` of libuv. -/
def UV_WRITABLE : Nat := 2

/-- A call of `fcntl` on the descriptor. -/
inductive Fcntl
  | F_GETFL
  | F_SETFL (flags : Nat)
  | F_GETFD
  | F_SETFD (flags : Nat)
deriving DecidableEq, Repr

/-- What the kernel keeps for a descriptor: the status flags read by `F_GETFL`
and the descriptor flags read by `F_GETFD`. -/
structure FdState where
  statusFlags : Nat
  fdFlags : Nat
deriving DecidableEq, Repr

/-- Failure of a `KJ_REQUIRE` of this file. -/
def preconditionFailed (line : Nat) (condition : String) (message : String) : Exception :=
  { nature := .PRECONDITION, durability := .PERMANENT, file := "src/sandstorm/capnp.c++",
    line := line, description := "expected " ++ condition ++ "; " ++ message }

/-- The function `setNonblocking`: the status flags are read, and written back
with `O_NONBLOCK` only if it was missing.  The result is the calls made and
the descriptor afterwards. -/
def setNonblocking (kernel : FdState) : List Fcntl × FdState :=
  if kernel.statusFlags &&& O_NONBLOCK = 0 then
    ([.F_GETFL, .F_SETFL (kernel.statusFlags ||| O_NONBLOCK)],
     { kernel with statusFlags := kernel.statusFlags ||| O_NONBLOCK })
  else ([.F_GETFL], kernel)

/-- The function `setCloseOnExec`: the descriptor flags are read, and written
back with `FD_CLOEXEC` only if it was missing. -/
def setCloseOnExec (kernel : FdState) : List Fcntl × FdState :=
  if kernel.fdFlags &&& FD_CLOEXEC = 0 then
    ([.F_GETFD, .F_SETFD (kernel.fdFlags ||| FD_CLOEXEC)],
     { kernel with fdFlags := kernel.fdFlags ||| FD_CLOEXEC })
  else ([.F_GETFD], kernel)

/-- A settled waiter: the fulfiller of the given number was fulfilled, or
rejected with an exception. -/
inductive Settlement
  | fulfilled (waiter : Nat)
  | rejected (waiter : Nat) (exception : Exception)
deriving DecidableEq, Repr

/-- The fulfiller that a settlement is about. -/
def Settlement.waiter : Settlement → Nat
  | .fulfilled waiter => waiter
  | .rejected waiter _ => waiter

/-- The state of an `OwnedFileDescriptor`: the members `fd`, `flags`,
`readable`, `writable` and `error`, and the events given to the last
`uv_poll_start` (`none` once `uv_poll_stop` was called).  A fulfiller is named
by the order in which `newPromiseAndFulfiller` made it.  Two records are kept
for the statements about it: the number of fulfillers made so far, and the
calls of `fulfill` and `reject` in order. -/
structure OwnedFileDescriptor where
  fd : Int
  flags : Nat
  readable : Option Nat
  writable : Option Nat
  error : Option Exception
  uvPoller : Option Nat
  fulfillers : Nat
  settled : List Settlement
deriving DecidableEq, Repr

/-- The object at the end of the constructor: no waiter, no error, and the
poller started with no event (`uv_poll_start(&uvPoller, 0, ...)`). -/
def OwnedFileDescriptor.init (fd : Int) (flags : Nat) : OwnedFileDescriptor :=
  { fd := fd, flags := flags, readable := none, writable := none, error := none,
    uvPoller := some 0, fulfillers := 0, settled := [] }

/-- Outcome of the constructor: the `fcntl` calls made, the descriptor in the
kernel afterwards, and the object or the exception of a failed `KJ_DREQUIRE`. -/
structure Construction where
  calls : List Fcntl
  kernel : FdState
  result : Except Exception OwnedFileDescriptor
deriving Repr

/-- The non-blocking part of the constructor.  With `ALREADY_NONBLOCK` the flag
is only checked, and only in a debug build (`KJ_DREQUIRE`); without it
`setNonblocking` runs. -/
def constructNonblocking (debug : Bool) (kernel : FdState) (flags : Nat) :
    List Fcntl × FdState × Option Exception :=
  if flags &&& ALREADY_NONBLOCK ≠ 0 then
    if debug then
      if kernel.statusFlags &&& O_NONBLOCK ≠ 0 then ([.F_GETFL], kernel, none)
      else ([.F_GETFL], kernel, some (preconditionFailed 156 "fcntl(fd, F_GETFL) & O_NONBLOCK"
        "You claimed you set NONBLOCK, but you didn't."))
    else ([], kernel, none)
  else ((setNonblocking kernel).1, (setNonblocking kernel).2, none)

/-- The close-on-exec part of the constructor, which runs only with
`TAKE_OWNERSHIP`.  With `ALREADY_CLOEXEC` the flag is only checked, and only in
a debug build; without it `setCloseOnExec` runs. -/
def constructCloseOnExec (debug : Bool) (kernel : FdState) (flags : Nat) :
    List Fcntl × FdState × Option Exception :=
  if flags &&& TAKE_OWNERSHIP ≠ 0 then
    if flags &&& ALREADY_CLOEXEC ≠ 0 then
      if debug then
        if kernel.fdFlags &&& FD_CLOEXEC ≠ 0 then ([.F_GETFD], kernel, none)
        else ([.F_GETFD], kernel, some (preconditionFailed 163 "fcntl(fd, F_GETFD) & FD_CLOEXEC"
          "You claimed you set CLOEXEC, but you didn't."))
      else ([], kernel, none)
    else ((setCloseOnExec kernel).1, (setCloseOnExec kernel).2, none)
  else ([], kernel, none)

/-- The constructor `OwnedFileDescriptor(loop, fd, flags)`, the system calls
and the libuv calls being taken to succeed. -/
def OwnedFileDescriptor.new (debug : Bool) (kernel : FdState) (fd : Int) (flags : Nat) :
    Construction :=
  match constructNonblocking debug kernel flags with
  | (calls1, kernel1, some exception) =>
      { calls := calls1, kernel := kernel1, result := .error exception }
  | (calls1, kernel1, none) =>
      match constructCloseOnExec debug kernel1 flags with
      | (calls2, kernel2, some exception) =>
          { calls := calls1 ++ calls2, kernel := kernel2, result := .error exception }
      | (calls2, kernel2, none) =>
          { calls := calls1 ++ calls2, kernel := kernel2,
            result := .ok (OwnedFileDescriptor.init fd flags) }

/-- Whether the destructor closes the descriptor: `flags & TAKE_OWNERSHIP`. -/
def OwnedFileDescriptor.closesOnDestruction (d : OwnedFileDescriptor) : Bool :=
  d.flags &&& TAKE_OWNERSHIP ≠ 0

/-- What `onReadable` or `onWritable` gives back: the promise of a new
fulfiller, a promise already broken by the stored error, or the exception of
the failed `KJ_REQUIRE`. -/
inductive WaitResult
  | promise (waiter : Nat)
  | broken (exception : Exception)
  | thrown (exception : Exception)
deriving DecidableEq, Repr

/-- The method `onReadable`. -/
def OwnedFileDescriptor.onReadable (d : OwnedFileDescriptor) :
    OwnedFileDescriptor × WaitResult :=
  match d.error with
  | some e => (d, .broken e)
  | none =>
      match d.readable with
      | some _ =>
          (d, .thrown (preconditionFailed 194 "readable == nullptr"
            "Must wait for previous event to complete."))
      | none =>
          ({ d with
             readable := some d.fulfillers,
             fulfillers := d.fulfillers + 1,
             uvPoller := some (UV_READABLE |||
               (match d.writable with
                | none => 0
                | some _ => UV_WRITABLE)) },
           .promise d.fulfillers)

/-- The method `onWritable`. -/
def OwnedFileDescriptor.onWritable (d : OwnedFileDescriptor) :
    OwnedFileDescriptor × WaitResult :=
  match d.error with
  | some e => (d, .broken e)
  | none =>
      match d.writable with
      | some _ =>
          (d, .thrown (preconditionFailed 210 "writable == nullptr"
            "Must wait for previous event to complete."))
      | none =>
          ({ d with
             writable := some d.fulfillers,
             fulfillers := d.fulfillers + 1,
             uvPoller := some (UV_WRITABLE |||
               (match d.readable with
                | none => 0
                | some _ => UV_READABLE)) },
           .promise d.fulfillers)

/-- The exception that `pollDone` makes for a failed poll; the description is
the text libuv gives for the last error of the loop. -/
def pollException (message : String) : Exception :=
  { nature := .OS_ERROR, durability := .PERMANENT, file := "src/sandstorm/capnp.c++",
    line := 241, description := message }

/-- The events for the waiters that are pending:
`(readable == nullptr ? 0 : UV_READABLE) | (writable == nullptr ? 0 : UV_WRITABLE)`. -/
def OwnedFileDescriptor.pendingEvents (d : OwnedFileDescriptor) : Nat :=
  (match d.readable with
   | none => 0
   | some _ => UV_READABLE) |||
  (match d.writable with
   | none => 0
   | some _ => UV_WRITABLE)

/-- The step `if (events & UV_READABLE)` of `pollDone`: the readable waiter is
fulfilled and cleared; `KJ_ASSERT_NONNULL` throws if there is none. -/
def OwnedFileDescriptor.fireReadable (d : OwnedFileDescriptor) (events : Nat) :
    OwnedFileDescriptor × Option Exception :=
  if events &&& UV_READABLE ≠ 0 then
    match d.readable with
    | some r => ({ d with readable := none, settled := d.settled ++ [.fulfilled r] }, none)
    | none => (d, some (assertFailed 256 "readable != nullptr"))
  else (d, none)

/-- The step `if (events & UV_WRITABLE)` of `pollDone`. -/
def OwnedFileDescriptor.fireWritable (d : OwnedFileDescriptor) (events : Nat) :
    OwnedFileDescriptor × Option Exception :=
  if events &&& UV_WRITABLE ≠ 0 then
    match d.writable with
    | some w => ({ d with writable := none, settled := d.settled ++ [.fulfilled w] }, none)
    | none => (d, some (assertFailed 260 "writable != nullptr"))
  else (d, none)

/-- The method `pollDone(status, events)`; `message` is the text of the last
libuv error.  The result is the object afterwards and the exception thrown by
a failed assertion, if any. -/
def OwnedFileDescriptor.pollDone (d : OwnedFileDescriptor) (status : Int) (events : Nat)
    (message : String) : OwnedFileDescriptor × Option Exception :=
  if status ≠ 0 then
    let exception := pollException message
    let settled1 :=
      match d.readable with
      | some r => d.settled ++ [.rejected r exception]
      | none => d.settled
    let settled2 :=
      match d.writable with
      | some w => settled1 ++ [.rejected w exception]
      | none => settled1
    ({ d with readable := none, writable := none, error := some exception, uvPoller := none,
              settled := settled2 }, none)
  else
    match d.fireReadable events with
    | (d1, some e) => (d1, some e)
    | (d1, none) =>
        match d1.fireWritable events with
        | (d2, some e) => (d2, some e)
        | (d2, none) => ({ d2 with uvPoller := some d2.pendingEvents }, none)

/-- The events registered with the poller: those of the last `uv_poll_start`,
none once the poller is stopped. -/
def OwnedFileDescriptor.registered (d : OwnedFileDescriptor) : Nat :=
  match d.uvPoller with
  | some events => events
  | none => 0

/-- An operation on the descriptor: a call of `onReadable` or `onWritable`
by the owner, or a call of `pollDone` by libuv. -/
inductive PollOp
  | onReadable
  | onWritable
  | pollDone (status : Int) (events : Nat) (message : String)
deriving DecidableEq, Repr

/-- What an operation gave back. -/
inductive PollOutcome
  | waited (result : WaitResult)
  | polled (thrown : Option Exception)
deriving DecidableEq, Repr

/-- One operation. -/
def OwnedFileDescriptor.step (d : OwnedFileDescriptor) : PollOp → OwnedFileDescriptor × PollOutcome
  | .onReadable => (d.onReadable.1, .waited d.onReadable.2)
  | .onWritable => (d.onWritable.1, .waited d.onWritable.2)
  | .pollDone status events message =>
      ((d.pollDone status events message).1, .polled (d.pollDone status events message).2)

/-- A sequence of operations: the object at the end and what each operation
gave back. -/
def OwnedFileDescriptor.run (d : OwnedFileDescriptor) :
    List PollOp → OwnedFileDescriptor × List PollOutcome
  | [] => (d, [])
  | op :: rest => (((d.step op).1.run rest).1, (d.step op).2 :: ((d.step op).1.run rest).2)

/-- Whether each `pollDone` of the sequence reports only events that are
registered with the poller when it is called. -/
def OwnedFileDescriptor.reportsRegistered (d : OwnedFileDescriptor) : List PollOp → Bool
  | [] => true
  | op :: rest =>
      (match op with
       | .pollDone _ events _ => events &&& d.registered = events
       | _ => true) && (d.step op).1.reportsRegistered rest

/-- The invariant of the waiters: a pending waiter was made by this object and
is not settled; the two pending waiters differ; and no waiter was settled
twice. -/
def OwnedFileDescriptor.WaitersInv (d : OwnedFileDescriptor) : Prop :=
  (∀ r, d.readable = some r → r < d.fulfillers ∧ r ∉ d.settled.map Settlement.waiter) ∧
  (∀ w, d.writable = some w → w < d.fulfillers ∧ w ∉ d.settled.map Settlement.waiter) ∧
  (∀ r w, d.readable = some r → d.writable = some w → r ≠ w) ∧
  (∀ s ∈ d.settled.map Settlement.waiter, s < d.fulfillers) ∧
  (d.settled.map Settlement.waiter).Nodup

/-- The invariant of the poll waiters: the events registered with the poller
are those of the pending waiters, and the invariant of the waiters holds. -/
def OwnedFileDescriptor.Inv (d : OwnedFileDescriptor) : Prop :=
  d.registered = d.pendingEvents ∧ d.WaitersInv

/-! # Theorems -/

/-! ## The continuation of `send`: theorems -/

theorem send_inv : send.Inv := by
  refine ⟨fun _ => Or.inl rfl, fun _ => ⟨rfl, rfl, rfl⟩, ?_⟩
  intro s h
  simp [send] at h

theorem step_inv (p : Pipeline) (e : PipelineEvent) (h : p.Inv) : (p.step e).Inv := by
  obtain ⟨h1, h2, h3⟩ := h
  cases e with
  | respond s =>
      cases hp : p.promise with
      | some x =>
          have : p.step (.respond s) = p := by simp [Pipeline.step, Pipeline.respond, hp]
          rw [this]
          exact ⟨h1, h2, h3⟩
      | none =>
          cases hj : p.joined with
          | none =>
              obtain ⟨_, _, hc⟩ := h2 hj
              have : p.step (.respond s) = { p with promise := some s, joined := some s } := by
                simp [Pipeline.step, Pipeline.respond, hp, hj]
              rw [this]
              refine ⟨by simp, by simp, ?_⟩
              intro s' hs'
              simp [hc]
          | some j =>
              have : p.step (.respond s) = { p with promise := some s, joined := some j } := by
                simp [Pipeline.step, Pipeline.respond, hp, hj]
              rw [this]
              refine ⟨by simp, by simp, ?_⟩
              intro s' hs'
              simp at hs'
              subst hs'
              simpa using h3 j hj
  | cancel =>
      cases hj : p.joined with
      | some j =>
          have : p.step .cancel = p := by
            cases hc : p.canceler <;> simp [Pipeline.step, cancel, hc, hj]
          rw [this]
          exact ⟨h1, h2, h3⟩
      | none =>
          obtain ⟨_, hc, hcalls⟩ := h2 hj
          have : p.step .cancel =
              { p with
                canceler := some (.rejected canceledException),
                joined := some (.rejected canceledException) } := by
            simp [Pipeline.step, cancel, hc, hj]
          rw [this]
          refine ⟨by simp, by simp, ?_⟩
          intro s' hs'
          simp [hcalls]
  | turn =>
      cases hj : p.joined with
      | none =>
          have : p.step .turn = p := by simp [Pipeline.step, Pipeline.turn, hj]
          rw [this]
          exact ⟨h1, h2, h3⟩
      | some j =>
          cases hcalls : p.calls with
          | cons c cs =>
              have : p.step .turn = p := by simp [Pipeline.step, Pipeline.turn, hj, hcalls]
              rw [this]
              exact ⟨h1, h2, h3⟩
          | nil =>
              have : p.step .turn = { p with calls := [deliver j] } := by
                simp [Pipeline.step, Pipeline.turn, hj, hcalls]
              rw [this]
              refine ⟨by simpa [hj] using h1, by simp [hj], ?_⟩
              intro s' hs'
              simp [hj] at hs'
              subst hs'
              simp

theorem run_inv (events : List PipelineEvent) :
    ∀ p : Pipeline, p.Inv → (p.run events).Inv := by
  induction events with
  | nil => intro p h; exact h
  | cons e es ih => intro p h; exact ih _ (step_inv p e h)

/-- Once the join is resolved its outcome never changes. -/
theorem step_joined (p : Pipeline) (e : PipelineEvent) (s : Settled)
    (h : p.joined = some s) : (p.step e).joined = some s := by
  cases e with
  | respond s' =>
      simp only [Pipeline.step, Pipeline.respond]
      cases hp : p.promise <;> simp [h]
  | cancel =>
      simp only [Pipeline.step, cancel]
      cases hc : p.canceler <;> simp [h]
  | turn =>
      simp only [Pipeline.step, Pipeline.turn, h]
      cases hcalls : p.calls <;> simp [h]

theorem run_joined (events : List PipelineEvent) :
    ∀ (p : Pipeline) (s : Settled), p.joined = some s → (p.run events).joined = some s := by
  induction events with
  | nil => intro p s h; exact h
  | cons e es ih => intro p s h; exact ih _ s (step_joined p e s h)

/-- C7: if `cancel(pipeline)` is called while the response is still pending,
then whatever happens afterwards the success callback is never invoked, and
once the event loop has turned the failure callback has been invoked, exactly
once, with the error "Request canceled by caller." (nature other, durability
permanent). -/
theorem cancel_before_resolution (before after : List PipelineEvent)
    (h : (send.run before).promise = none) :
    (∀ response, Call.callback response ∉ ((cancel (send.run before)).run after).calls) ∧
    (((cancel (send.run before)).run after).turn).calls =
      [.errorCallback (.fromKj "Request canceled by caller." "src/sandstorm/capnp.c++" 1542
        "other" "permanent")] := by
  have hinv := run_inv before send send_inv
  have hcj : (cancel (send.run before)).joined = some (.rejected canceledException) := by
    obtain ⟨h1, h2, _⟩ := hinv
    rcases h1 h with hj | hj
    · obtain ⟨_, hc, _⟩ := h2 hj
      simp [cancel, hj, hc]
    · exact step_joined _ .cancel _ hj
  have hinv2 : ((cancel (send.run before)).run after).Inv :=
    run_inv after _ (step_inv _ .cancel hinv)
  have hj2 := run_joined after _ _ hcj
  obtain ⟨_, _, h3⟩ := hinv2
  have hcalls := h3 _ hj2
  constructor
  · intro response hmem
    rcases hcalls with hc | hc
    · simp [hc] at hmem
    · simp [hc, deliver] at hmem
  · rcases hcalls with hc | hc
    · simp [Pipeline.turn, hj2, hc, deliver, toJsException, canceledException]
    · simp [Pipeline.turn, hj2, hc, deliver, toJsException, canceledException]

/-- Witness of C7: `cancel` right after `send`, then a late response. -/
theorem cancel_before_resolution_witness :
    (send.run []).promise = none ∧
    (((cancel (send.run [])).run [.respond (.fulfilled 5)]).turn).calls =
      [.errorCallback (.fromKj "Request canceled by caller." "src/sandstorm/capnp.c++" 1542
        "other" "permanent")] :=
  ⟨rfl, (cancel_before_resolution [] [.respond (.fulfilled 5)] rfl).2⟩

/-- A resolved join stays resolved after any event other than a turn. -/
theorem run_joined_of_event (events : List PipelineEvent) :
    ∀ p : Pipeline, p.Inv → (∃ e ∈ events, e ≠ PipelineEvent.turn) →
      ∃ s, (p.run events).joined = some s := by
  induction events with
  | nil => intro p _ h; simp at h
  | cons e es ih =>
      intro p hinv h
      by_cases hj : ∃ s, (p.step e).joined = some s
      · obtain ⟨s, hs⟩ := hj
        exact ⟨s, run_joined es _ s hs⟩
      · have hes : ∃ e' ∈ es, e' ≠ PipelineEvent.turn := by
          obtain ⟨e', hmem, hne⟩ := h
          rcases List.mem_cons.1 hmem with he | he
          · subst he
            exfalso
            apply hj
            obtain ⟨_, h2, _⟩ := hinv
            cases e' with
            | turn => exact absurd rfl hne
            | respond s =>
                simp only [Pipeline.step, Pipeline.respond]
                cases hp : p.promise with
                | none => cases hjj : p.joined <;> simp
                | some x =>
                    cases hjj : p.joined with
                    | none => have := (h2 hjj).1; simp [hp] at this
                    | some j => exact ⟨j, by simp [hjj]⟩
            | cancel =>
                simp only [Pipeline.step, cancel]
                cases hjj : p.joined with
                | none =>
                    have := (h2 hjj).2.1
                    simp [this]
                | some j =>
                    cases hc : p.canceler <;> simp [hjj]
          · exact ⟨e', he, hne⟩
        exact ih _ (step_inv p e hinv) hes

/-- C8: for every order of events on one pipeline, at most one callback
invocation has taken place; once a response or a cancel has occurred, the
continuation run by the event loop has invoked exactly one callback; and a
`cancel` after a `cancel` changes nothing and invokes nothing. -/
theorem continuation_fires_once (events : List PipelineEvent) :
    (send.run events).calls.length ≤ 1 ∧
    ((∃ e ∈ events, e ≠ PipelineEvent.turn) → ((send.run events).turn).calls.length = 1) ∧
    cancel (cancel (send.run events)) = cancel (send.run events) ∧
    (cancel (send.run events)).calls = (send.run events).calls := by
  have hinv := run_inv events send send_inv
  obtain ⟨h1, h2, h3⟩ := hinv
  refine ⟨?_, ?_, ?_, ?_⟩
  · cases hj : (send.run events).joined with
    | none => simp [(h2 hj).2.2]
    | some s => rcases h3 s hj with hc | hc <;> simp [hc]
  · intro h
    obtain ⟨s, hs⟩ := run_joined_of_event events send send_inv h
    rcases h3 s hs with hc | hc <;> simp [Pipeline.turn, hs, hc]
  · simp only [cancel]
    cases hc : (send.run events).canceler <;> cases hj : (send.run events).joined <;> simp [hc, hj]
  · simp only [cancel]
    cases hc : (send.run events).canceler <;> cases hj : (send.run events).joined <;> simp [hc, hj]

/-- Witness of C8: a response followed by two cancels gives one callback. -/
theorem continuation_fires_once_witness :
    ((send.run [.respond (.fulfilled 5), .cancel, .cancel]).turn).calls.length = 1 :=
  (continuation_fires_once [.respond (.fulfilled 5), .cancel, .cancel]).2.1
    ⟨.cancel, by simp, by simp⟩

/-! ## Capability clients: theorems -/

theorem countP_set_balance {α : Type} (p : α → Bool) :
    ∀ (l : List α) (i : Nat) (c c' : α), l[i]? = some c →
      (l.set i c').countP p + (if p c then 1 else 0)
        = l.countP p + (if p c' then 1 else 0)
  | [], i, c, c', h => by simp at h
  | x :: l, 0, c, c', h => by
      simp at h
      subst h
      simp [List.countP_cons]
      omega
  | x :: l, i + 1, c, c', h => by
      simp at h
      have ih := countP_set_balance p l i c c' h
      simp [List.countP_cons]
      omega

@[simp] theorem release_slots (t : CapTable) (h : ClientHook) : (t.release h).slots = t.slots := by
  cases h <;> rfl

@[simp] theorem addRef_slots (t : CapTable) (h : ClientHook) : (t.addRef h).slots = t.slots := by
  cases h <;> rfl

@[simp] theorem addRef_released (t : CapTable) (h : ClientHook) :
    (t.addRef h).released = t.released := by
  cases h <;> rfl

theorem closeCap_eq (t : CapTable) (cap : Nat) (c : Client) (h : t.slots[cap]? = some c) :
    closeCap t cap =
      { t.release c.hook with
        slots := t.slots.set cap
          { hook := .broken "Capability has been closed.", schema := c.schema } } := by
  simp [closeCap, h]

theorem dupCap_eq (t : CapTable) (cap : Nat) (c : Client) (h : t.slots[cap]? = some c) :
    dupCap t cap = ({ t.addRef c.hook with slots := t.slots ++ [c] }, some t.slots.length) := by
  simp [dupCap, h]

theorem dup2Cap_eq (t : CapTable) (srcCap dstCap : Nat) (s d : Client)
    (hs : t.slots[srcCap]? = some s) (hd : t.slots[dstCap]? = some d) :
    dup2Cap t srcCap dstCap =
      { (t.addRef s.hook).release d.hook with slots := t.slots.set dstCap s } := by
  simp [dup2Cap, hs, hd]

/-- A wrapped client that refers to an object is counted among its holders. -/
theorem holders_pos (t : CapTable) (cap : Nat) (c : Client) (o : Nat)
    (h : t.slots[cap]? = some c) (ho : c.hook = .object o) : 0 < t.holders o := by
  unfold CapTable.holders
  rw [List.countP_pos_iff]
  refine ⟨c, ?_, by simp [ho]⟩
  rcases List.getElem?_eq_some_iff.1 h with ⟨hlt, hc⟩
  rw [← hc]
  exact List.getElem_mem _

/-- Taking a reference and handing it to a new or overwritten slot keeps the
counts consistent. -/
theorem consistent_release_set (t : CapTable) (cap : Nat) (c new : Client)
    (h : t.slots[cap]? = some c)
    (hcons : ∀ o, t.holders o + (if new.hook = .object o then 1 else 0) ≤ t.refs o
      ∧ (o ∈ t.released → t.refs o = 0)) :
    CapTable.Consistent { t.release c.hook with slots := t.slots.set cap new } := by
  intro o
  have hbal := countP_set_balance (fun x : Client => decide (x.hook = .object o)) t.slots cap c new h
  obtain ⟨h1, h2⟩ := hcons o
  cases hc : c.hook with
  | null =>
      simp only [hc, CapTable.release, CapTable.holders]
      simp only [hc, decide_eq_true_eq] at hbal
      simp only [CapTable.holders] at h1
      refine ⟨?_, h2⟩
      simp at hbal
      omega
  | broken r =>
      simp only [hc, CapTable.release, CapTable.holders]
      simp only [hc, decide_eq_true_eq] at hbal
      simp only [CapTable.holders] at h1
      refine ⟨?_, h2⟩
      simp at hbal
      omega
  | object a =>
      simp only [hc, CapTable.release, CapTable.holders]
      simp only [hc, decide_eq_true_eq] at hbal
      simp only [CapTable.holders] at h1
      by_cases hoa : o = a
      · subst hoa
        simp at hbal
        simp only [if_true]
        constructor
        · omega
        · intro hmem
          split at hmem
          · assumption
          · have := h2 hmem
            omega
      · have hao : a ≠ o := fun e => hoa e.symm
        simp [hao] at hbal
        simp only [hoa, if_false]
        constructor
        · omega
        · intro hmem
          split at hmem
          · rcases List.mem_cons.1 hmem with e | e
            · exact absurd e hoa
            · exact h2 e
          · exact h2 hmem

/-- Closing a wrapped client keeps the counts consistent. -/
theorem closeCap_consistent (t : CapTable) (cap : Nat) (h : t.Consistent) :
    (closeCap t cap).Consistent := by
  cases hc : t.slots[cap]? with
  | none => simpa [closeCap, hc] using h
  | some c =>
      rw [closeCap_eq t cap c hc]
      apply consistent_release_set t cap c _ hc
      intro o
      simpa using h o

/-- Duplicating a wrapped client keeps the counts consistent. -/
theorem dupCap_consistent (t : CapTable) (cap : Nat) (h : t.Consistent) :
    (dupCap t cap).1.Consistent := by
  cases hc : t.slots[cap]? with
  | none => simpa [dupCap, hc] using h
  | some c =>
      rw [dupCap_eq t cap c hc]
      intro o
      obtain ⟨h1, h2⟩ := h o
      cases hh : c.hook with
      | null => simpa [CapTable.addRef, CapTable.holders, hh, List.countP_append] using h o
      | broken r => simpa [CapTable.addRef, CapTable.holders, hh, List.countP_append] using h o
      | object a =>
          have hpos := holders_pos t cap c a hc hh
          by_cases hoa : o = a
          · subst hoa
            simp only [CapTable.addRef, CapTable.holders, hh, List.countP_append, if_true]
            simp only [CapTable.holders] at h1 hpos
            constructor
            · have : List.countP (fun c => decide (c.hook = ClientHook.object o)) [c] = 1 := by
                simp [hh]
              omega
            · intro hmem
              have := h2 hmem
              omega
          · have hao : a ≠ o := fun e => hoa e.symm
            simp only [CapTable.addRef, CapTable.holders, hh, List.countP_append, hoa, if_false]
            simp only [CapTable.holders] at h1
            constructor
            · have : List.countP (fun c => decide (c.hook = ClientHook.object o)) [c] = 0 := by
                simp [hh, hao]
              omega
            · exact h2

/-- Overwriting a wrapped client with another keeps the counts consistent. -/
theorem dup2Cap_consistent (t : CapTable) (srcCap dstCap : Nat) (h : t.Consistent) :
    (dup2Cap t srcCap dstCap).Consistent := by
  cases hs : t.slots[srcCap]? with
  | none => simpa [dup2Cap, hs] using h
  | some s =>
      cases hd : t.slots[dstCap]? with
      | none => simpa [dup2Cap, hs, hd] using h
      | some d =>
          rw [dup2Cap_eq t srcCap dstCap s d hs hd]
          have := consistent_release_set (t.addRef s.hook) dstCap d s (by simpa using hd) (by
            intro o
            obtain ⟨h1, h2⟩ := h o
            cases hh : s.hook with
            | null => simpa [CapTable.addRef, CapTable.holders] using h o
            | broken r => simpa [CapTable.addRef, CapTable.holders] using h o
            | object a =>
                have hpos := holders_pos t srcCap s a hs hh
                by_cases hoa : o = a
                · subst hoa
                  simp only [CapTable.addRef, CapTable.holders, if_true]
                  simp only [CapTable.holders] at h1 hpos
                  constructor
                  · omega
                  · intro hmem
                    have := h2 hmem
                    omega
                · have hao : a ≠ o := fun e => hoa e.symm
                  simp only [CapTable.addRef, CapTable.holders, hoa, if_false]
                  simp only [CapTable.holders] at h1
                  constructor
                  · simp [hao]
                    exact h1
                  · exact h2)
          simpa using this

/-- Every operation keeps the counts consistent. -/
theorem run_consistent (ops : List CapOp) :
    ∀ t : CapTable, t.Consistent → (t.run ops).Consistent := by
  induction ops with
  | nil => intro t h; exact h
  | cons op ops ih =>
      intro t h
      have hstep : (t.step op).Consistent := by
        cases op with
        | close cap => exact closeCap_consistent t cap h
        | dup cap => exact dupCap_consistent t cap h
        | dup2 s d => exact dup2Cap_consistent t s d h
      exact ih _ hstep

/-- In a consistent table no wrapped client refers to a released object. -/
theorem released_not_held (t : CapTable) (h : t.Consistent) (o : Nat) (ho : o ∈ t.released) :
    ∀ c ∈ t.slots, c.hook ≠ .object o := by
  intro c hc heq
  obtain ⟨h1, h2⟩ := h o
  have h0 := h2 ho
  have hpos : 0 < t.holders o := by
    unfold CapTable.holders
    rw [List.countP_pos_iff]
    exact ⟨c, hc, by simp [heq]⟩
  omega

/-- C9: after `close(c)` the slot of `c` is not null: it holds a broken
capability with the interface schema `c` had, on which every call fails with
"Capability has been closed."; closing again leaves the table as it is. -/
theorem closeCap_leaves_broken_client (t : CapTable) (cap : Nat) (c : Client)
    (h : t.slots[cap]? = some c) :
    (closeCap t cap).slots[cap]? =
        some { hook := .broken "Capability has been closed.", schema := c.schema } ∧
    (∀ c2, (closeCap t cap).slots[cap]? = some c2 →
        c2.hook ≠ .null ∧ c2.schema = c.schema ∧
        c2.call = .error "Capability has been closed.") ∧
    closeCap (closeCap t cap) cap = closeCap t cap := by
  have hlt : cap < t.slots.length := by
    rcases List.getElem?_eq_some_iff.1 h with ⟨hlt, _⟩
    exact hlt
  have h2 : (closeCap t cap).slots[cap]? =
      some { hook := .broken "Capability has been closed.", schema := c.schema } := by
    rw [closeCap_eq t cap c h]
    simp [List.getElem?_set, hlt]
  refine ⟨h2, ?_, ?_⟩
  · intro c2 hc2
    rw [h2] at hc2
    cases hc2
    simp [Client.call]
  · rw [closeCap_eq _ cap _ h2, closeCap_eq t cap c h]
    simp [CapTable.release]

/-- Witness of C9: closing the only client of the sample table. -/
theorem closeCap_leaves_broken_client_witness :
    CapTable.sample.slots[0]? = some { hook := .object 7, schema := 3 } ∧
    (closeCap CapTable.sample 0).slots[0]? =
      some { hook := .broken "Capability has been closed.", schema := 3 } :=
  ⟨rfl, (closeCap_leaves_broken_client CapTable.sample 0 _ rfl).1⟩

theorem sample_consistent : CapTable.sample.Consistent := by
  intro o
  by_cases h : o = 7
  · subst h
    simp [CapTable.sample, CapTable.holders]
  · have h7 : ¬ (7 = o) := fun e => h e.symm
    simp [CapTable.sample, CapTable.holders, h, h7]

/-- C10: after `d = dup(c)` the new wrapper `d` and `c` refer to the same
object with the same schema; `close(c)` leaves `d` referring to that object,
a call on `d` reaches it and the object is not released; and after any
sequence of `dup`, `dup2` and `close` no wrapped client refers to a released
object. -/
theorem dup_close_reference_counting (t : CapTable) (cap : Nat) (c : Client) (o : Nat)
    (hcons : t.Consistent) (h : t.slots[cap]? = some c) (ho : c.hook = .object o) :
    (dupCap t cap).2 = some t.slots.length ∧
    (dupCap t cap).1.slots[t.slots.length]? = some c ∧
    (dupCap t cap).1.slots[cap]? = some c ∧
    (closeCap (dupCap t cap).1 cap).slots[t.slots.length]? = some c ∧
    c.call = .ok o ∧
    o ∉ (closeCap (dupCap t cap).1 cap).released ∧
    (∀ ops : List CapOp, ∀ x ∈ (t.run ops).released,
      ∀ s ∈ (t.run ops).slots, s.hook ≠ .object x) := by
  have hlt : cap < t.slots.length := by
    rcases List.getElem?_eq_some_iff.1 h with ⟨hlt, _⟩
    exact hlt
  have hne : cap ≠ t.slots.length := by omega
  have hd1 : (dupCap t cap).1.slots[t.slots.length]? = some c := by
    rw [dupCap_eq t cap c h]
    simp
  have hd2 : (dupCap t cap).1.slots[cap]? = some c := by
    rw [dupCap_eq t cap c h]
    simp [List.getElem?_append_left hlt, h]
  have hc1 : (closeCap (dupCap t cap).1 cap).slots[t.slots.length]? = some c := by
    rw [closeCap_eq _ cap c hd2]
    simp only [List.getElem?_set_ne hne]
    exact hd1
  refine ⟨by rw [dupCap_eq t cap c h], hd1, hd2, hc1, by simp [Client.call, ho], ?_, ?_⟩
  · intro hrel
    have hcons2 := closeCap_consistent _ cap (dupCap_consistent t cap hcons)
    have hmem : c ∈ (closeCap (dupCap t cap).1 cap).slots := by
      rcases List.getElem?_eq_some_iff.1 hc1 with ⟨hlt2, hc2⟩
      rw [← hc2]
      exact List.getElem_mem _
    exact released_not_held _ hcons2 o hrel c hmem ho
  · intro ops x hx s hs
    exact released_not_held _ (run_consistent ops t hcons) x hx s hs

/-- Witness of C10: duplicating the client of the sample table, then closing
the original, leaves object 7 alive. -/
theorem dup_close_reference_counting_witness :
    CapTable.sample.Consistent ∧
    CapTable.sample.slots[0]? = some { hook := .object 7, schema := 3 } ∧
    7 ∉ (closeCap (dupCap CapTable.sample 0).1 0).released :=
  ⟨sample_consistent, rfl,
    (dup_close_reference_counting CapTable.sample 0 _ 7 sample_consistent rfl rfl).2.2.2.2.2.1⟩

/-! ## Decoding: theorems -/

theorem toString_toNat (v : Int) (h : 0 ≤ v) : toString v.toNat = toString v := by
  cases v with
  | ofNat n => rfl
  | negSucc n =>
      have := Int.negSucc_lt_zero n
      omega

/-- C3: an integer `v` read from a slot or list element whose declared type
is Int64 or UInt64 is returned as the host string that is its decimal
representation; read from a narrower integer type it is returned as the host
number `v`. -/
theorem valueToJs_integer (env : SchemaEnv) (fuel : Nat) (type : SchemaType) (v : Int)
    (value : DynamicValue) (h : integerReader type v = some value) :
    valueToJs env fuel value type.which =
      .done (if type = .INT64 ∨ type = .UINT64 then .string (toString v)
             else .number (.finite v 0)) := by
  cases type <;> simp [integerReader, SchemaType.integerKind] at h
  all_goals
    obtain ⟨hr, hv⟩ := h
    subst hv
  all_goals
    cases fuel <;>
      simp only [valueToJs, SchemaType.which, asSigned, asUnsigned] <;>
      simp <;>
      first
      | exact toString_toNat v hr.1
      | (rw [if_pos (by omega)]; done)
      | (rw [if_pos (by omega)]; simp [Int.toNat_of_nonneg hr.1])

/-- Witness of C3: the largest unsigned 64-bit value decodes to its decimal string. -/
theorem valueToJs_integer_witness :
    integerReader .UINT64 18446744073709551615 = some (.UINT 18446744073709551615) ∧
    valueToJs sampleEnv 0 (.UINT 18446744073709551615) .UINT64 =
      .done (.string "18446744073709551615") :=
  ⟨rfl, valueToJs_integer sampleEnv 0 .UINT64 18446744073709551615 _ rfl⟩

theorem keys_assocSet_fresh {β : Type} :
    ∀ (object : List (String × β)) (key : String) (value : β),
      key ∉ object.map Prod.fst → assocSet object key value = object ++ [(key, value)]
  | [], _, _, _ => rfl
  | (k, x) :: rest, key, value, h => by
      simp only [List.map_cons, List.mem_cons, not_or] at h
      have hne : ¬ k = key := fun e => h.1 e.symm
      simp [assocSet, hne, keys_assocSet_fresh rest key value h.2]

theorem fieldToJsWith_eq (recur : DynamicValue → Which → Fueled JsValue)
    (object : List (String × JsValue)) (slots : List (String × DynamicValue)) (field : Field) :
    fieldToJsWith recur object slots field =
      (recur (readerGet slots field) field.whichType).bind fun js =>
        .done (assocSet object field.name js) := by
  unfold fieldToJsWith Field.whichType
  cases field.proto <;> rfl

/-- The loop over the fields outside the union appends one property for each
field that is present, in schema order. -/
theorem nonUnionFieldsToJs_done (recur : DynamicValue → Which → Fueled JsValue)
    (discriminant : Nat) (slots : List (String × DynamicValue)) :
    ∀ (rest : List Field) (object : List (String × JsValue)),
      (rest.map Field.name).Nodup →
      (∀ f ∈ rest, f.name ∉ object.map Prod.fst) →
      (∀ f ∈ rest, readerHas discriminant slots f = true →
        ∃ js, recur (readerGet slots f) f.whichType = .done js) →
      nonUnionFieldsToJs recur discriminant slots rest object =
        .done (object ++ (rest.filter (fun f => readerHas discriminant slots f)).map
          (fun f => (f.name, (recur (readerGet slots f) f.whichType).value)))
  | [], object, _, _, _ => by simp [nonUnionFieldsToJs]
  | f :: rest, object, hnodup, hfresh, hsub => by
      simp only [List.map_cons, List.nodup_cons] at hnodup
      cases hhas : readerHas discriminant slots f with
      | false =>
          simp only [nonUnionFieldsToJs, hhas, List.filter_cons]
          simpa using nonUnionFieldsToJs_done recur discriminant slots rest object hnodup.2
            (fun g hg => hfresh g (List.mem_cons_of_mem _ hg))
            (fun g hg => hsub g (List.mem_cons_of_mem _ hg))
      | true =>
          obtain ⟨js, hjs⟩ := hsub f (List.mem_cons_self _ _) hhas
          have hkey := hfresh f (List.mem_cons_self _ _)
          simp only [nonUnionFieldsToJs, hhas, List.filter_cons, if_true, fieldToJsWith_eq, hjs,
            Fueled.bind, List.map_cons]
          rw [keys_assocSet_fresh object f.name js hkey]
          rw [nonUnionFieldsToJs_done recur discriminant slots rest _ hnodup.2 ?_
            (fun g hg => hsub g (List.mem_cons_of_mem _ hg))]
          · simp [Fueled.value]
          · intro g hg hmem
            simp only [List.map_append, List.map_cons, List.map_nil, List.mem_append,
              List.mem_singleton] at hmem
            rcases hmem with hmem | hmem
            · exact hfresh g (List.mem_cons_of_mem _ hg) hmem
            · exact hnodup.1 (hmem ▸ List.mem_map_of_mem Field.name hg)

theorem mem_getNonUnionFields (fields : List Field) (f : Field) :
    f ∈ getNonUnionFields fields ↔ f ∈ fields ∧ f.discriminantValue = none := by
  simp [getNonUnionFields, List.mem_filter]

theorem readerWhich_some (fields : List Field) (discriminant : Nat) (f : Field)
    (h : readerWhich fields discriminant = some f) :
    f ∈ fields ∧ f.discriminantValue = some discriminant := by
  unfold readerWhich getFieldByDiscriminant at h
  refine ⟨List.mem_of_find?_eq_some h, ?_⟩
  simpa using List.find?_some h

/-- The STRUCT case of `valueToJs` returns the properties of the fields the
presence rule selects, in that order, once their contents are decoded. -/
theorem structToJsWith_done (recur : DynamicValue → Which → Fueled JsValue)
    (fields : List Field) (discriminant : Nat) (slots : List (String × DynamicValue))
    (hnames : (fields.map Field.name).Nodup)
    (hsub : ∀ f ∈ emittedFields fields discriminant slots,
      ∃ js, recur (readerGet slots f) f.whichType = .done js) :
    structToJsWith recur fields discriminant slots =
      .done (.object .plain ((emittedFields fields discriminant slots).map
        (fun f => (f.name, (recur (readerGet slots f) f.whichType).value)))) := by
  have hsubl : (getNonUnionFields fields).Sublist fields := List.filter_sublist _
  have hnn : ((getNonUnionFields fields).map Field.name).Nodup :=
    hnames.sublist (hsubl.map _)
  have hsub2 : ∀ f ∈ getNonUnionFields fields, readerHas discriminant slots f = true →
      ∃ js, recur (readerGet slots f) f.whichType = .done js := by
    intro f hf hhas
    apply hsub
    simp only [emittedFields, List.mem_append, List.mem_filter]
    exact Or.inr ⟨hf, hhas⟩
  unfold structToJsWith
  cases hw : readerWhich fields discriminant with
  | none =>
      simp only [Fueled.bind]
      rw [nonUnionFieldsToJs_done recur discriminant slots _ [] hnn (by simp) hsub2]
      simp [emittedFields, hw]
  | some w =>
      obtain ⟨hwmem, hwd⟩ := readerWhich_some fields discriminant w hw
      obtain ⟨js, hjs⟩ := hsub w (by simp [emittedFields, hw])
      simp only [fieldToJsWith_eq, hjs, Fueled.bind, assocSet]
      rw [nonUnionFieldsToJs_done recur discriminant slots _ _ hnn ?_ hsub2]
      · simp [emittedFields, hw, hjs, Fueled.value]
      · intro f hf hmem
        simp only [List.map_cons, List.map_nil, List.mem_singleton] at hmem
        obtain ⟨hfmem, hfd⟩ := (mem_getNonUnionFields fields f).1 hf
        have := List.inj_on_of_nodup_map hnames hfmem hwmem hmem
        rw [this, hwd] at hfd
        cases hfd

/-- The names of the fields the presence rule selects are pairwise distinct,
and no inactive union member is among them. -/
theorem emittedFields_names (fields : List Field) (discriminant : Nat)
    (slots : List (String × DynamicValue)) (hnames : (fields.map Field.name).Nodup) :
    ((emittedFields fields discriminant slots).map Field.name).Nodup ∧
    (∀ f ∈ fields, ∀ d, f.discriminantValue = some d → d ≠ discriminant →
      f.name ∉ (emittedFields fields discriminant slots).map Field.name) := by
  have hsubl : ((getNonUnionFields fields).filter
      (fun f => readerHas discriminant slots f)).Sublist fields :=
    (List.filter_sublist _).trans (List.filter_sublist _)
  have hmemF : ∀ g ∈ emittedFields fields discriminant slots, g ∈ fields ∧
      (g.discriminantValue = some discriminant ∨ g.discriminantValue = none) := by
    intro g hg
    simp only [emittedFields, List.mem_append, List.mem_filter, Option.mem_toList,
      Option.mem_def] at hg
    rcases hg with hg | ⟨hg, _⟩
    · obtain ⟨h1, h2⟩ := readerWhich_some fields discriminant g hg
      exact ⟨h1, Or.inl h2⟩
    · obtain ⟨h1, h2⟩ := (mem_getNonUnionFields fields g).1 hg
      exact ⟨h1, Or.inr h2⟩
  constructor
  · unfold emittedFields
    rw [List.map_append, List.nodup_append]
    refine ⟨?_, hnames.sublist (hsubl.map _), ?_⟩
    · cases readerWhich fields discriminant <;> simp
    · intro a ha hb
      simp only [List.mem_map, Option.mem_toList, Option.mem_def] at ha
      obtain ⟨w, hw, hwa⟩ := ha
      obtain ⟨g, hg, hga⟩ := List.mem_map.1 hb
      obtain ⟨hwmem, hwd⟩ := readerWhich_some fields discriminant w hw
      have hg2 := (List.mem_filter.1 hg).1
      obtain ⟨hgmem, hgd⟩ := (mem_getNonUnionFields fields g).1 hg2
      have := List.inj_on_of_nodup_map hnames hgmem hwmem (hga.trans hwa.symm)
      rw [this, hwd] at hgd
      cases hgd
  · intro f hf d hfd hne hmem
    obtain ⟨g, hg, hgn⟩ := List.mem_map.1 hmem
    obtain ⟨hgmem, hgd⟩ := hmemF g hg
    have := List.inj_on_of_nodup_map hnames hgmem hf hgn
    subst this
    rw [hfd] at hgd
    rcases hgd with h | h
    · exact hne (Option.some.inj h)
    · cases h

/-- C4 (presence rule): once the contents of the selected fields are decoded,
`valueToJs` of a struct returns a plain object whose properties are, in order,
the active union member (if the struct has one) and the fields outside the
union for which `reader.has(field)` holds, each with its decoded content; the
keys are pairwise distinct and no inactive union member is among them. -/
theorem struct_presence_rule (env : SchemaEnv) (fuel : Nat) (typeId discriminant : Nat)
    (slots : List (String × DynamicValue)) (whichType : Which)
    (hnames : ((schemaFields env typeId).map Field.name).Nodup)
    (hsub : ∀ f ∈ emittedFields (schemaFields env typeId) discriminant slots,
      ∃ js, valueToJs env fuel (readerGet slots f) f.whichType = .done js) :
    ∃ props,
      valueToJs env (fuel + 1) (.STRUCT typeId discriminant slots) whichType =
        .done (.object .plain props) ∧
      props = (emittedFields (schemaFields env typeId) discriminant slots).map
        (emittedProperty env fuel slots) ∧
      props.map Prod.fst =
        ((readerWhich (schemaFields env typeId) discriminant).toList ++
          (getNonUnionFields (schemaFields env typeId)).filter
            (fun f => readerHas discriminant slots f)).map Field.name ∧
      (props.map Prod.fst).Nodup ∧
      (∀ f ∈ schemaFields env typeId, ∀ d, f.discriminantValue = some d → d ≠ discriminant →
        f.name ∉ props.map Prod.fst) := by
  have hkeys : ((emittedFields (schemaFields env typeId) discriminant slots).map
      (emittedProperty env fuel slots)).map Prod.fst =
      (emittedFields (schemaFields env typeId) discriminant slots).map Field.name := by
    simp [emittedProperty, Function.comp_def]
  obtain ⟨hn1, hn2⟩ := emittedFields_names (schemaFields env typeId) discriminant slots hnames
  refine ⟨_, ?_, rfl, ?_, ?_, ?_⟩
  · show structToJsWith (fun v w => valueToJs env fuel v w) _ _ _ = _
    rw [structToJsWith_done _ _ _ _ hnames hsub]
    rfl
  · rw [hkeys]; rfl
  · rw [hkeys]; exact hn1
  · rw [hkeys]; exact hn2

/-- Witness of C4: a `Shape` whose union is on its second member decodes to
that member followed by the two data fields, without the first member. -/
theorem struct_presence_rule_witness :
    ((schemaFields sampleEnv 5).map Field.name).Nodup ∧
    ∃ props,
      valueToJs sampleEnv 1 (.STRUCT 5 1 [("square", .INT 4)]) .STRUCT =
        .done (.object .plain props) ∧
      props.map Prod.fst = ["square", "color"] := by
  have hn : ((schemaFields sampleEnv 5).map Field.name).Nodup := by decide
  refine ⟨hn, ?_⟩
  obtain ⟨props, h1, _, h3, _⟩ :=
    struct_presence_rule sampleEnv 0 5 1 [("square", .INT 4)] .STRUCT hn (by
      intro f hf
      simp [emittedFields, schemaFields, sampleEnv, readerWhich, getFieldByDiscriminant,
        getNonUnionFields, readerHas, SchemaType.isPointer, assocGet] at hf
      rcases hf with hf | hf <;> subst hf <;> exact ⟨_, rfl⟩)
  exact ⟨props, h1, h3⟩

/-! ## Encoding: theorems -/

/-- One turn of the loop of `structFromJs`, in terms of `fieldFromJs`. -/
theorem structFromJs_cons (H : Host) (env : SchemaEnv) (builder : Builder)
    (fieldName : String) (value : JsValue) (rest : List (String × JsValue)) (thrown : Thrown) :
    structFromJs H env builder ((fieldName, value) :: rest) thrown =
      match findFieldByName (schemaFields env builder.typeId) fieldName with
      | some field =>
          thenNextKey (fieldFromJs H env builder field value thrown)
            (fun b t => structFromJs H env b rest t)
      | none => noFieldNamed builder fieldName thrown := by
  rw [structFromJs]
  rfl

/-- C5, the code at a failing input: with the `Point` schema and the host
object `{d: 5, a: 7}`, the conversion of `d` (a Data field given a number)
fails, `fieldFromJs` returns false and raises the type error, yet
`structFromJs` goes on to the key `a`, writes it, and returns true. -/
theorem structFromJs_ignores_field_failure :
    (fieldFromJs Host.sample sampleEnv (Builder.fresh 1)
        { name := "d", proto := .SLOT .DATA, discriminantValue := none }
        (.number (.finite 5 0)) []).result = .ok false ∧
    structFromJs Host.sample sampleEnv (Builder.fresh 1)
        [("d", .number (.finite 5 0)), ("a", .number (.finite 7 0))] [] =
      { builder := { typeId := 1, discriminant := 0, slots := [("a", .INT 7)] },
        thrown := [.TypeError "Type error in field: d"],
        result := .ok true } :=
  ⟨rfl, rfl⟩

/-- C6, as the code has it: encoding into an interface-typed field fails for
every host value, a previously issued capability handle included:
`fieldFromJs` raises the type error naming the field, returns false and leaves
the builder as it was. -/
theorem interface_field_always_fails (H : Host) (env : SchemaEnv) (builder : Builder)
    (name : String) (typeId : Nat) (discriminantValue : Option Nat) (js : JsValue)
    (thrown : Thrown) :
    fieldFromJs H env builder
        { name := name, proto := .SLOT (.INTERFACE typeId),
          discriminantValue := discriminantValue } js thrown =
      { builder := builder,
        thrown := thrown ++ [.TypeError ("Type error in field: " ++ name)],
        result := .ok false } := by
  cases js <;> rfl

/-- C6 fails as stated: a wrapped capability client given for the interface
field `c` of `Holder` is rejected with a type error. -/
theorem interface_field_rejects_handle :
    ¬ ((fieldFromJs Host.sample sampleEnv (Builder.fresh 4)
        { name := "c", proto := .SLOT (.INTERFACE 3), discriminantValue := none }
        (.object (.wrappedClient (some 1) 3) []) []).result = .ok true) ∧
    (fieldFromJs Host.sample sampleEnv (Builder.fresh 4)
        { name := "c", proto := .SLOT (.INTERFACE 3), discriminantValue := none }
        (.object (.wrappedClient (some 1) 3) []) []).thrown =
      [.TypeError "Type error in field: c"] := by
  constructor
  · intro h
    have h2 : (fieldFromJs Host.sample sampleEnv (Builder.fresh 4)
        { name := "c", proto := .SLOT (.INTERFACE 3), discriminantValue := none }
        (.object (.wrappedClient (some 1) 3) []) []).result = .ok false := rfl
    rw [h2] at h
    cases h
  · rfl

theorem staticCastInt64_range (d : JsNumber) :
    -(2 ^ 63 : Int) ≤ staticCastInt64 d ∧ staticCastInt64 d < 2 ^ 63 := by
  cases d with
  | finite m e =>
      simp only [staticCastInt64]
      split
      · assumption
      · constructor <;> norm_num
  | negZero => simp [staticCastInt64]
  | nan => simp [staticCastInt64]
  | inf s => simp [staticCastInt64]

/-- The host's integer conversion has the range of `int64_t`. -/
theorem IntegerValue_range (H : Host) (js : JsValue) :
    -(2 ^ 63 : Int) ≤ IntegerValue H js ∧ IntegerValue H js < 2 ^ 63 := by
  cases js <;> simp only [IntegerValue] <;> exact staticCastInt64_range _

theorem IntegerValue_integer (H : Host) (n : Int) (h1 : -(2 ^ 63 : Int) ≤ n) (h2 : n < 2 ^ 63) :
    IntegerValue H (.number (.finite n 0)) = n := by
  simp only [IntegerValue, staticCastInt64, JsNumber.trunc, pow_zero, Int.tdiv_one]
  rw [if_pos ⟨h1, h2⟩]

theorem orphanFromJs_integer (H : Host) (env : SchemaEnv) (field : Field) (type : SchemaType)
    (js : JsValue) (thrown : Thrown) (h : type.integerKind.isSome) :
    orphanFromJs H env field type js thrown =
      { thrown := thrown, result := .ok (.INT (IntegerValue H js)) } := by
  cases type <;> simp [SchemaType.integerKind] at h <;> cases js <;> rfl

/-- What `fromJs` leaves in a UInt64 field `name` given the host object
`{name: js}`: the host's signed 64-bit integer reading of `js` when that is
not negative, and an out-of-range exception otherwise. -/
theorem fromJs_uint64 (H : Host) (env : SchemaEnv) (typeId : Nat) (name : String)
    (discriminantValue : Option Nat) (js : JsValue)
    (hfind : findFieldByName (schemaFields env typeId) name =
      some { name := name, proto := .SLOT .UINT64, discriminantValue := discriminantValue }) :
    fromJs H env (Builder.fresh typeId) (.object .plain [(name, js)]) =
      if 0 ≤ IntegerValue H js then
        { builder :=
            { typeId := typeId,
              discriminant := discriminantValue.getD 0,
              slots := [(name, .UINT (IntegerValue H js).toNat)] },
          thrown := [] }
      else
        { builder := { typeId := typeId, discriminant := discriminantValue.getD 0, slots := [] },
          thrown := [toJsException (requireFailed "Value out-of-range for requested type.")] } := by
  have hr := IntegerValue_range H js
  have hf : findFieldByName (schemaFields env (Builder.fresh typeId).typeId) name =
      some { name := name, proto := .SLOT .UINT64, discriminantValue := discriminantValue } := hfind
  simp only [fromJs, structFromJs_cons, hf, fieldFromJs,
    orphanFromJs_integer H env _ .UINT64 js [] rfl, adoptOrphan, DynamicValue.isUnknown,
    Builder.adopt, storeValue, asUnsigned]
  by_cases h0 : 0 ≤ IntegerValue H js
  · have hc : 0 ≤ IntegerValue H js ∧ IntegerValue H js < 2 ^ 64 := ⟨h0, by omega⟩
    simp only [if_pos hc, if_pos h0]
    cases discriminantValue <;>
      simp [Except.map, thenNextKey, structFromJs, liftKjStruct, Builder.setInUnion,
        Builder.fresh, assocSet]
  · have hn : ¬ (0 ≤ IntegerValue H js ∧ IntegerValue H js < 2 ^ 64) := fun h => h0 h.1
    simp only [if_neg hn, if_neg h0]
    cases discriminantValue <;>
      simp [Except.map, thenNextKey, liftKjStruct, Builder.setInUnion, Builder.fresh]

/-- C2 fails as stated: a host number of value `2^64 - 1` given for the UInt64
field `x` of `Point` is not stored: its signed 64-bit reading is out of range,
`fromJs` raises the out-of-range exception, and `toJs` then gives `"0"` for
`x`.  The same holds for `2^64`, the double nearest to `2^64 - 1`. -/
theorem uint64_max_not_round_tripped :
    ¬ (∃ props,
        toJs sampleEnv 1 (fromJs Host.sample sampleEnv (Builder.fresh 1)
          (.object .plain [("x", .number (.finite 18446744073709551615 0))])).builder.asReader =
          .done (.object .plain props) ∧
        assocGet props "x" = some (.string "18446744073709551615")) ∧
    (fromJs Host.sample sampleEnv (Builder.fresh 1)
        (.object .plain [("x", .number (.finite 18446744073709551615 0))])).thrown =
      [.fromKj "Value out-of-range for requested type." "capnp" 0 "precondition" "permanent"] ∧
    toJs sampleEnv 1 (fromJs Host.sample sampleEnv (Builder.fresh 1)
        (.object .plain [("x", .number (.finite 18446744073709551616 0))])).builder.asReader =
      .done (.object .plain [("a", .number (.finite 0 0)), ("x", .string "0")]) := by
  have h : toJs sampleEnv 1 (fromJs Host.sample sampleEnv (Builder.fresh 1)
      (.object .plain [("x", .number (.finite 18446744073709551615 0))])).builder.asReader =
      .done (.object .plain [("a", .number (.finite 0 0)), ("x", .string "0")]) := rfl
  refine ⟨?_, rfl, rfl⟩
  rintro ⟨props, h1, h2⟩
  rw [h] at h1
  cases h1
  simp [assocGet] at h2

/-- C2, as the code has it: for a UInt64 field, (1) a host integer `n` with
`0 ≤ n < 2^63` is stored exactly and decodes to the decimal string of `n`,
with no exception raised; (2) decoding is exact for every stored value, up to
`2^64 - 1`; (3) whatever the host value, the value left in the field is below
`2^63`, so `2^64 - 1` is never the result of an encoding. -/
theorem uint64_round_trip (H : Host) (env : SchemaEnv) (typeId : Nat) (name : String)
    (discriminantValue : Option Nat)
    (hfind : findFieldByName (schemaFields env typeId) name =
      some { name := name, proto := .SLOT .UINT64, discriminantValue := discriminantValue }) :
    (∀ (n : Int) (fuel : Nat), 0 ≤ n → n < 2 ^ 63 →
      (fromJs H env (Builder.fresh typeId)
        (.object .plain [(name, .number (.finite n 0))])).thrown = [] ∧
      valueToJs env fuel
        (readerGet (fromJs H env (Builder.fresh typeId)
            (.object .plain [(name, .number (.finite n 0))])).builder.slots
          { name := name, proto := .SLOT .UINT64, discriminantValue := discriminantValue })
        .UINT64 = .done (.string (toString n))) ∧
    (∀ (m fuel : Nat), valueToJs env fuel (.UINT m) .UINT64 = .done (.string (toString m))) ∧
    (∀ js : JsValue, ∃ m : Nat, m < 2 ^ 63 ∧
      readerGet (fromJs H env (Builder.fresh typeId) (.object .plain [(name, js)])).builder.slots
          { name := name, proto := .SLOT .UINT64, discriminantValue := discriminantValue } =
        .UINT m) := by
  refine ⟨?_, ?_, ?_⟩
  · intro n fuel h0 h1
    have hi := IntegerValue_integer H n (by omega) h1
    rw [fromJs_uint64 H env typeId name discriminantValue _ hfind, hi, if_pos h0]
    refine ⟨rfl, ?_⟩
    simp only [readerGet, assocGet, if_true, Option.getD]
    cases fuel <;> simp [valueToJs, toString_toNat n h0]
  · intro m fuel
    cases fuel <;> simp [valueToJs]
  · intro js
    have hr := IntegerValue_range H js
    rw [fromJs_uint64 H env typeId name discriminantValue _ hfind]
    by_cases h0 : 0 ≤ IntegerValue H js
    · rw [if_pos h0]
      refine ⟨(IntegerValue H js).toNat, by omega, ?_⟩
      simp [readerGet, assocGet]
    · rw [if_neg h0]
      exact ⟨0, by norm_num, by simp [readerGet, assocGet, defaultValue]⟩

/-- Witness of C2: the field `x` of `Point` and the host number `2^63 - 1`. -/
theorem uint64_round_trip_witness :
    findFieldByName (schemaFields sampleEnv 1) "x" =
      some { name := "x", proto := .SLOT .UINT64, discriminantValue := none } ∧
    valueToJs sampleEnv 0
        (readerGet (fromJs Host.sample sampleEnv (Builder.fresh 1)
            (.object .plain [("x", .number (.finite 9223372036854775807 0))])).builder.slots
          { name := "x", proto := .SLOT .UINT64, discriminantValue := none })
        .UINT64 = .done (.string (toString (9223372036854775807 : Int))) :=
  ⟨rfl, ((uint64_round_trip Host.sample sampleEnv 1 "x" none rfl).1
    9223372036854775807 0 (by norm_num) (by norm_num)).2⟩

/-! ## Round trip: decoding with a larger recursion bound -/

theorem Fueled.bind_eq_done {α β : Type} (x : Fueled α) (f : α → Fueled β) (b : β) :
    x.bind f = .done b ↔ ∃ a, x = .done a ∧ f a = .done b := by
  cases x <;> simp [Fueled.bind]

theorem listToJs_mono (r r2 : DynamicValue → Fueled JsValue)
    (h : ∀ v out, r v = .done out → r2 v = .done out) :
    ∀ (l : List DynamicValue) (o : List JsValue),
      listToJs r l = .done o → listToJs r2 l = .done o
  | [], o, ho => by simpa [listToJs] using ho
  | v :: rest, o, ho => by
      simp only [listToJs, Fueled.bind_eq_done] at ho
      obtain ⟨js, hjs, o2, ho2, hdone⟩ := ho
      simp only [listToJs, Fueled.bind_eq_done]
      exact ⟨js, h v js hjs, o2, listToJs_mono r r2 h rest o2 ho2, hdone⟩

theorem fieldToJsWith_mono (r r2 : DynamicValue → Which → Fueled JsValue)
    (h : ∀ v w out, r v w = .done out → r2 v w = .done out)
    (object : List (String × JsValue)) (slots : List (String × DynamicValue)) (field : Field)
    (o : List (String × JsValue)) (ho : fieldToJsWith r object slots field = .done o) :
    fieldToJsWith r2 object slots field = .done o := by
  rw [fieldToJsWith_eq, Fueled.bind_eq_done] at ho
  obtain ⟨js, hjs, hdone⟩ := ho
  rw [fieldToJsWith_eq, Fueled.bind_eq_done]
  exact ⟨js, h _ _ js hjs, hdone⟩

theorem nonUnionFieldsToJs_mono (r r2 : DynamicValue → Which → Fueled JsValue)
    (h : ∀ v w out, r v w = .done out → r2 v w = .done out)
    (discriminant : Nat) (slots : List (String × DynamicValue)) :
    ∀ (rest : List Field) (object o : List (String × JsValue)),
      nonUnionFieldsToJs r discriminant slots rest object = .done o →
      nonUnionFieldsToJs r2 discriminant slots rest object = .done o
  | [], object, o, ho => by simpa [nonUnionFieldsToJs] using ho
  | f :: rest, object, o, ho => by
      simp only [nonUnionFieldsToJs] at ho ⊢
      split at ho
      · rename_i hhas
        rw [Fueled.bind_eq_done] at ho
        obtain ⟨o1, ho1, ho2⟩ := ho
        rw [if_pos hhas, Fueled.bind_eq_done]
        exact ⟨o1, fieldToJsWith_mono r r2 h _ _ _ _ ho1,
          nonUnionFieldsToJs_mono r r2 h discriminant slots rest o1 o ho2⟩
      · rename_i hhas
        rw [if_neg hhas]
        exact nonUnionFieldsToJs_mono r r2 h discriminant slots rest object o ho

theorem structToJsWith_mono (r r2 : DynamicValue → Which → Fueled JsValue)
    (h : ∀ v w out, r v w = .done out → r2 v w = .done out)
    (fields : List Field) (discriminant : Nat) (slots : List (String × DynamicValue))
    (out : JsValue) (ho : structToJsWith r fields discriminant slots = .done out) :
    structToJsWith r2 fields discriminant slots = .done out := by
  unfold structToJsWith at ho ⊢
  rw [Fueled.bind_eq_done] at ho
  obtain ⟨o1, ho1, ho2⟩ := ho
  rw [Fueled.bind_eq_done] at ho2
  obtain ⟨o2, ho2, ho3⟩ := ho2
  rw [Fueled.bind_eq_done]
  refine ⟨o1, ?_, ?_⟩
  · cases hw : readerWhich fields discriminant with
    | none => simpa [hw] using ho1
    | some f =>
        simp only [hw] at ho1 ⊢
        exact fieldToJsWith_mono r r2 h _ _ _ _ ho1
  · rw [Fueled.bind_eq_done]
    exact ⟨o2, nonUnionFieldsToJs_mono r r2 h discriminant slots _ _ _ ho2, ho3⟩

/-- A decoding that returned within a recursion bound returns the same value
within the next bound. -/
theorem valueToJs_succ (env : SchemaEnv) :
    ∀ (fuel : Nat) (v : DynamicValue) (w : Which) (out : JsValue),
      valueToJs env fuel v w = .done out → valueToJs env (fuel + 1) v w = .done out
  | 0, v, w, out, h => by
      cases v <;> simp_all [valueToJs]
  | fuel + 1, v, w, out, h => by
      cases v with
      | LIST e elems =>
          simp only [valueToJs, Fueled.bind_eq_done] at h ⊢
          obtain ⟨o, ho, hdone⟩ := h
          exact ⟨o, listToJs_mono _ _ (fun v out hv => valueToJs_succ env fuel v _ out hv) elems o ho,
            hdone⟩
      | STRUCT typeId d slots =>
          simp only [valueToJs] at h ⊢
          exact structToJsWith_mono _ _ (fun v w out hv => valueToJs_succ env fuel v w out hv)
            _ _ _ _ h
      | _ => simp_all [valueToJs]

/-- A decoding that returned within a recursion bound returns the same value
within every larger bound. -/
theorem valueToJs_mono (env : SchemaEnv) (v : DynamicValue) (w : Which) (out : JsValue)
    (fuel : Nat) (h : valueToJs env fuel v w = .done out) :
    ∀ fuel2, fuel ≤ fuel2 → valueToJs env fuel2 v w = .done out := by
  intro fuel2 hle
  induction fuel2 with
  | zero =>
      have : fuel = 0 := by omega
      subst this
      exact h
  | succ n ih =>
      by_cases hn : fuel ≤ n
      · exact valueToJs_succ env n v w out (ih hn)
      · have : fuel = n + 1 := by omega
        subst this
        exact h

/-! ## Round trip: decoding fields that were never written -/

theorem unset_field_decodes (env : SchemaEnv) (rank : Nat → Nat) (hwf : WellFormed env rank)
    (typeId : Nat) (f : Field) (hf : f ∈ schemaFields env typeId) (hunset : f.emittedUnset)
    (hsubs : ∀ id2, rank id2 < rank typeId → ∀ w,
      ∃ out, valueToJs env (rank id2 + 2) (.STRUCT id2 0 []) w = .done out) :
    ∃ js, valueToJs env (rank typeId + 1) (readerGet [] f) f.whichType = .done js := by
  cases hp : f.proto with
  | GROUP groupId =>
      have hr := hwf.groups typeId f hf groupId hp
      obtain ⟨out, hout⟩ := hsubs groupId hr .STRUCT
      refine ⟨out, ?_⟩
      simp only [readerGet, Field.whichType, hp, assocGet, Option.getD]
      exact valueToJs_mono env _ _ _ _ hout _ (by omega)
  | SLOT type =>
      simp only [readerGet, Field.whichType, hp, assocGet, Option.getD]
      cases type with
      | STRUCT structId =>
          rcases hunset with h0 | ⟨_, hg | hs⟩
          · have hr := hwf.defaults typeId f hf structId hp h0
            obtain ⟨out, hout⟩ := hsubs structId hr .STRUCT
            exact ⟨out, valueToJs_mono env _ _ _ _ hout _ (by omega)⟩
          · obtain ⟨g, hg⟩ := hg
            rw [hp] at hg
            cases hg
          · obtain ⟨t, ht, hnp⟩ := hs
            rw [hp] at ht
            cases ht
            simp [SchemaType.isPointer] at hnp
      | ENUM enumId =>
          simp only [valueToJs, defaultValue]
          cases getEnumerant (enumerantsOf env enumId) 0 <;> simp
      | _ => simp [valueToJs, defaultValue, SchemaType.which, asSigned, asUnsigned,
                 listToJs, Fueled.bind]

theorem mem_emittedFields_unset (fields : List Field) (f : Field)
    (h : f ∈ emittedFields fields 0 []) : f ∈ fields ∧ f.emittedUnset := by
  simp only [emittedFields, List.mem_append, List.mem_filter, Option.mem_toList,
    Option.mem_def] at h
  rcases h with h | ⟨h, hhas⟩
  · obtain ⟨h1, h2⟩ := readerWhich_some fields 0 f h
    exact ⟨h1, Or.inl h2⟩
  · obtain ⟨h1, h2⟩ := (mem_getNonUnionFields fields f).1 h
    refine ⟨h1, Or.inr ⟨h2, ?_⟩⟩
    cases hp : f.proto with
    | GROUP g => exact Or.inl ⟨g, rfl⟩
    | SLOT t =>
        refine Or.inr ⟨t, rfl, ?_⟩
        simpa [readerHas, h2, hp, assocGet] using hhas

/-- Decoding a struct with nothing written returns, within a recursion bound
given by the rank of its schema. -/
theorem default_struct_decodes (env : SchemaEnv) (rank : Nat → Nat) (hwf : WellFormed env rank) :
    ∀ (r typeId : Nat), rank typeId = r → ∀ w,
      ∃ out, valueToJs env (rank typeId + 2) (.STRUCT typeId 0 []) w = .done out := by
  intro r
  induction r using Nat.strong_induction_on with
  | _ r ih =>
      intro typeId hr w
      have hsubs : ∀ id2, rank id2 < rank typeId → ∀ w,
          ∃ out, valueToJs env (rank id2 + 2) (.STRUCT id2 0 []) w = .done out :=
        fun id2 hlt w => ih (rank id2) (hr ▸ hlt) id2 rfl w
      have hsub : ∀ f ∈ emittedFields (schemaFields env typeId) 0 [],
          ∃ js, valueToJs env (rank typeId + 1) (readerGet [] f) f.whichType = .done js := by
        intro f hf
        obtain ⟨h1, h2⟩ := mem_emittedFields_unset _ f hf
        exact unset_field_decodes env rank hwf typeId f h1 h2 hsubs
      obtain ⟨props, hprops, _⟩ :=
        struct_presence_rule env (rank typeId + 1) typeId 0 [] w (hwf.names typeId) hsub
      exact ⟨_, hprops⟩

/-- A field that was never written and that `toJs` emits decodes within the
recursion bound given by the rank of the struct. -/
theorem unset_field_decodes_rank (env : SchemaEnv) (rank : Nat → Nat)
    (hwf : WellFormed env rank) (typeId : Nat) (f : Field)
    (hf : f ∈ schemaFields env typeId) (hunset : f.emittedUnset) :
    ∃ js, valueToJs env (rank typeId + 1) (readerGet [] f) f.whichType = .done js :=
  unset_field_decodes env rank hwf typeId f hf hunset
    (fun id2 _ w => default_struct_decodes env rank hwf (rank id2) id2 rfl w)

/-! ## Round trip: single steps of the encoding -/

theorem assocGet_assocSet_same {β : Type} :
    ∀ (l : List (String × β)) (key : String) (value : β),
      assocGet (assocSet l key value) key = some value
  | [], key, value => by simp [assocSet, assocGet]
  | (k, x) :: rest, key, value => by
      by_cases h : k = key
      · simp [assocSet, assocGet, h]
      · simp [assocSet, assocGet, h, assocGet_assocSet_same rest key value]

theorem assocGet_assocSet_other {β : Type} :
    ∀ (l : List (String × β)) (key name : String) (value : β), name ≠ key →
      assocGet (assocSet l key value) name = assocGet l name
  | [], key, name, value, hne => by
      have : ¬ key = name := fun e => hne e.symm
      simp [assocSet, assocGet, this]
  | (k, x) :: rest, key, name, value, hne => by
      by_cases h : k = key
      · subst h
        have : ¬ k = name := fun e => hne e.symm
        simp [assocSet, assocGet, this]
      · by_cases h2 : k = name
        · subst h2
          simp [assocSet, assocGet, h]
        · simp [assocSet, assocGet, h, h2, assocGet_assocSet_other rest key name value hne]

theorem assocGet_map_of_mem {α β : Type} (name : α → String) (value : α → β) :
    ∀ (l : List α) (a : α), a ∈ l → (l.map name).Nodup →
      assocGet (l.map fun x => (name x, value x)) (name a) = some (value a)
  | [], a, h, _ => by simp at h
  | x :: rest, a, h, hn => by
      simp only [List.map_cons, List.nodup_cons] at hn
      rcases List.mem_cons.1 h with h | h
      · subst h
        simp [assocGet]
      · have hne : ¬ name x = name a := by
          intro e
          exact hn.1 (e ▸ List.mem_map_of_mem name h)
        simp [assocGet, hne, assocGet_map_of_mem name value rest a h hn.2]

theorem findFieldByName_some (fields : List Field) (key : String) (f : Field)
    (h : findFieldByName fields key = some f) : f ∈ fields ∧ f.name = key := by
  unfold findFieldByName at h
  refine ⟨List.mem_of_find?_eq_some h, ?_⟩
  simpa using List.find?_some h

theorem getFieldByDiscriminant_unique (fields : List Field) (f : Field) (d : Nat)
    (hf : f ∈ fields) (hd : f.discriminantValue = some d)
    (huniq : ∀ a ∈ fields, ∀ b ∈ fields, ∀ d, a.discriminantValue = some d →
      b.discriminantValue = some d → a = b) :
    readerWhich fields d = some f := by
  unfold readerWhich getFieldByDiscriminant
  cases hfind : fields.find? (fun g => g.discriminantValue == some d) with
  | none =>
      have := List.find?_eq_none.1 hfind f hf
      simp [hd] at this
  | some g =>
      have hg := List.mem_of_find?_eq_some hfind
      have hgd : g.discriminantValue = some d := by simpa using List.find?_some hfind
      rw [huniq g hg f hf d hgd hd]

theorem findEnumerantByName_mem :
    ∀ (enumerants : List String) (name : String), name ∈ enumerants →
      ∃ i, findEnumerantByName enumerants name = some i ∧ enumerants[i]? = some name
  | [], _, h => by simp at h
  | e :: rest, name, h => by
      by_cases he : e = name
      · exact ⟨0, by simp [findEnumerantByName, he], by simp [he]⟩
      · have hmem : name ∈ rest := by
          rcases List.mem_cons.1 h with h | h
          · exact absurd h.symm he
          · exact h
        obtain ⟨i, hi, hget⟩ := findEnumerantByName_mem rest name hmem
        exact ⟨i + 1, by simp [findEnumerantByName, he, hi], by simpa using hget⟩

theorem storeValue_integer (H : Host) (type : SchemaType) (n : Int) (value : DynamicValue)
    (h : integerReader type n = some value) : storeValue H type (.INT n) = .ok value := by
  cases type <;> simp [integerReader, SchemaType.integerKind] at h
  all_goals
    obtain ⟨hr, hv⟩ := h
    subst hv
    simp only [storeValue, asSigned, asUnsigned]
    rw [if_pos (by omega)]
    rfl

theorem integerReader_range (type : SchemaType) (n : Int) (value : DynamicValue)
    (h : integerReader type n = some value) (hne : type ≠ .UINT64) :
    -(2 ^ 63 : Int) ≤ n ∧ n < 2 ^ 63 := by
  cases type <;> simp [integerReader, SchemaType.integerKind] at h hne
  all_goals
    obtain ⟨hr, _⟩ := h
    omega

theorem fieldFromJs_slot (H : Host) (env : SchemaEnv) (builder : Builder) (field : Field)
    (type : SchemaType) (js : JsValue) (thrown : Thrown) (orphan stored : DynamicValue)
    (hp : field.proto = .SLOT type)
    (ho : orphanFromJs H env field type js thrown = { thrown := thrown, result := .ok orphan })
    (hu : orphan.isUnknown = false) (hs : storeValue H type orphan = .ok stored) :
    fieldFromJs H env builder field js thrown =
      { builder := { builder.setInUnion field with
                     slots := assocSet builder.slots field.name stored },
        thrown := thrown, result := .ok true } := by
  have hslots : (builder.setInUnion field).slots = builder.slots := by
    unfold Builder.setInUnion
    cases field.discriminantValue <;> rfl
  simp only [fieldFromJs, hp, ho, adoptOrphan, hu, Builder.adopt, hs, hslots]
  rfl

theorem fieldFromJs_group (H : Host) (env : SchemaEnv) (builder : Builder) (field : Field)
    (groupId : Nat) (kind : ObjectKind) (props : List (String × JsValue)) (thrown : Thrown)
    (g : Builder) (hp : field.proto = .GROUP groupId)
    (hv : verifySetInUnion builder field = .ok ())
    (hs : structFromJs H env (builder.getGroup field groupId) props thrown =
      { builder := g, thrown := thrown, result := .ok true }) :
    fieldFromJs H env builder field (.object kind props) thrown =
      { builder := builder.putGroup field g, thrown := thrown, result := .ok true } := by
  simp only [fieldFromJs, hp, hv, hs, groupResult]

theorem structFromJs_step (H : Host) (env : SchemaEnv) (builder b1 : Builder)
    (key : String) (js : JsValue) (rest : List (String × JsValue)) (thrown : Thrown)
    (field : Field)
    (hfind : findFieldByName (schemaFields env builder.typeId) key = some field)
    (hfield : fieldFromJs H env builder field js thrown =
      { builder := b1, thrown := thrown, result := .ok true }) :
    structFromJs H env builder ((key, js) :: rest) thrown = structFromJs H env b1 rest thrown := by
  rw [structFromJs_cons, hfind]
  simp only [hfield, thenNextKey]

theorem Shape_array_inv (H : Host) (env : SchemaEnv) (type : SchemaType) (elems : List JsValue)
    (h : Shape H env type (.array elems)) :
    ∃ e, type = .LIST e ∧ listSchemaOf env e = .ok () ∧ ShapeList H env e elems := by
  cases h with
  | list e _ h1 h2 => exact ⟨e, rfl, h1, h2⟩

theorem Shape_object_inv (H : Host) (env : SchemaEnv) (type : SchemaType) (kind : ObjectKind)
    (props : List (String × JsValue)) (h : Shape H env type (.object kind props)) :
    (type = .DATA ∧ ∃ bytes, kind = .externalArray .kExternalUnsignedByteArray bytes ∧
      props = []) ∨
    (∃ typeId, type = .STRUCT typeId ∧ kind = .plain ∧ (getStruct env typeId).isOk ∧
      ShapeProps H env typeId props ∧ (props.map Prod.fst).Nodup ∧
      (unionKeys env typeId props).length ≤ 1) := by
  cases h with
  | data bytes => exact Or.inl ⟨rfl, bytes, rfl, rfl⟩
  | struct typeId _ h1 h2 h3 h4 => exact Or.inr ⟨typeId, rfl, rfl, h1, h2, h3, h4⟩

theorem ShapeList_cons_inv (H : Host) (env : SchemaEnv) (e : SchemaType) (js : JsValue)
    (rest : List JsValue) (h : ShapeList H env e (js :: rest)) :
    Shape H env e js ∧ ShapeList H env e rest := by
  cases h with
  | cons _ _ _ h1 h2 => exact ⟨h1, h2⟩

theorem ShapeProps_cons_inv (H : Host) (env : SchemaEnv) (typeId : Nat) (key : String)
    (js : JsValue) (rest : List (String × JsValue))
    (h : ShapeProps H env typeId ((key, js) :: rest)) :
    ∃ field, findFieldByName (schemaFields env typeId) key = some field ∧
      Shape H env field.valueType js ∧
      (∀ groupId, field.proto = .GROUP groupId →
        field.discriminantValue = none ∨ field.discriminantValue = some 0) ∧
      ShapeProps H env typeId rest := by
  cases h with
  | cons _ _ _ _ field h1 h2 h3 h4 => exact ⟨field, h1, h2, h3, h4⟩

/-! ## Round trip: values that are not arrays or structs -/

theorem orphanFromJs_number (H : Host) (env : SchemaEnv) (field : Field) (d : JsNumber)
    (thrown : Thrown) :
    orphanFromJs H env field .FLOAT32 (.number d) thrown =
        { thrown := thrown, result := .ok (.FLOAT d) } ∧
    orphanFromJs H env field .FLOAT64 (.number d) thrown =
        { thrown := thrown, result := .ok (.FLOAT d) } :=
  ⟨rfl, rfl⟩

theorem getEnum_enumerantsOf (env : SchemaEnv) (typeId : Nat) (enumerants : List String)
    (h : getEnum env typeId = .ok enumerants) : enumerantsOf env typeId = enumerants := by
  unfold getEnum at h
  unfold enumerantsOf
  cases hn : env typeId with
  | none => simp [hn] at h
  | some node =>
      cases node <;> simp [hn] at h
      simp [h]

theorem orphanFromJs_enum_name (H : Host) (env : SchemaEnv) (field : Field) (typeId : Nat)
    (enumerants : List String) (name : String) (i : Nat) (thrown : Thrown)
    (hg : getEnum env typeId = .ok enumerants)
    (hi : findEnumerantByName enumerants name = some i) :
    orphanFromJs H env field (.ENUM typeId) (.string name) thrown =
      { thrown := thrown, result := .ok (.ENUM typeId i) } := by
  have : orphanFromJs H env field (.ENUM typeId) (.string name) thrown =
      match getEnum env typeId with
      | .error e => { thrown := thrown, result := .error e }
      | .ok enumerants =>
          match findEnumerantByName enumerants (ToString H (.string name)) with
          | some ordinal => { thrown := thrown, result := .ok (.ENUM typeId ordinal) }
          | none =>
              if IsUint32 (.string name) then
                { thrown := thrown,
                  result := .ok (.ENUM typeId (Uint32Value H (.string name) % 2 ^ 16)) }
              else typeErrorInField field thrown := rfl
  rw [this, hg]
  simp only [ToString, hi]

/-- The round trip of a host value that matches a type other than a list or
a struct. -/
theorem valueOK_of_leaf (H : Host) (env : SchemaEnv) (type : SchemaType) (js : JsValue)
    (h : Shape H env type js) (hl : ∀ e, type ≠ .LIST e) (hs : ∀ typeId, type ≠ .STRUCT typeId) :
    ValueOK H env type js := by
  cases h with
  | void =>
      exact ⟨.VOID, .VOID, 0, .null, fun _ _ => rfl, rfl, rfl, rfl, .plain _ _ rfl⟩
  | bool b =>
      exact ⟨.BOOL b, .BOOL b, 0, .boolean b, fun _ _ => rfl, rfl, rfl, rfl, .plain _ _ rfl⟩
  | int _ n value hne hv =>
      obtain ⟨hr1, hr2⟩ := integerReader_range type n value hv hne
      have hk : type.integerKind.isSome := by
        cases type <;> simp [integerReader, SchemaType.integerKind] at hv ⊢
      refine ⟨.INT n, value, 0, _, ?_, rfl, storeValue_integer H type n value hv,
        valueToJs_integer env 0 type n value hv, ?_⟩
      · intro field thrown
        rw [orphanFromJs_integer H env field type _ thrown hk, IntegerValue_integer H n hr1 hr2]
      · by_cases h64 : type = .INT64
        · subst h64
          simp only [true_or, if_true]
          exact .int64 n
        · have hnn : ¬ (type = .INT64 ∨ type = .UINT64) := by
            intro h
            rcases h with h | h
            · exact h64 h
            · exact hne h
          rw [if_neg hnn]
          apply RoundTrip.plain
          cases type <;> simp [integerReader, SchemaType.integerKind] at hv h64 hne ⊢ <;> rfl
  | uint64 n h0 h1 =>
      have hv : integerReader .UINT64 n = some (.UINT n.toNat) := by
        simp only [integerReader, SchemaType.integerKind]
        rw [if_pos ⟨h0, by omega⟩]
      refine ⟨.INT n, .UINT n.toNat, 0, .string (toString n), ?_, rfl,
        storeValue_integer H .UINT64 n _ hv, ?_, .uint64 n⟩
      · intro field thrown
        rw [orphanFromJs_integer H env field .UINT64 _ thrown rfl,
          IntegerValue_integer H n (by omega) h1]
      · have := valueToJs_integer env 0 .UINT64 n _ hv
        simpa using this
  | float32 d hd =>
      refine ⟨.FLOAT d, .FLOAT d, 0, .number d, fun _ _ => rfl, rfl, ?_, rfl, .plain _ _ rfl⟩
      simp [storeValue, hd]
  | float64 d =>
      exact ⟨.FLOAT d, .FLOAT d, 0, .number d, fun _ _ => rfl, rfl, rfl, rfl, .plain _ _ rfl⟩
  | text s =>
      exact ⟨.TEXT s, .TEXT s, 0, .string s, fun _ _ => rfl, rfl, rfl, rfl, .plain _ _ rfl⟩
  | data bytes =>
      exact ⟨.DATA bytes, .DATA bytes, 0, _, fun _ _ => rfl, rfl, rfl, rfl, .plain _ _ rfl⟩
  | list e elems _ _ => exact absurd rfl (hl e)
  | «enum» typeId enumerants name hg hmem =>
      obtain ⟨i, hi, hget⟩ := findEnumerantByName_mem enumerants name hmem
      refine ⟨.ENUM typeId i, .ENUM typeId i, 0, .string name,
        fun field thrown => orphanFromJs_enum_name H env field typeId enumerants name i thrown hg hi,
        rfl, ?_, ?_, .plain _ _ rfl⟩
      · simp [storeValue]
      · simp [valueToJs, getEnumerant, getEnum_enumerantsOf env typeId enumerants hg, hget]
  | struct typeId props _ _ _ _ => exact absurd rfl (hs typeId)

/-! ## Round trip: decoding an encoded struct -/

theorem mem_emittedFields (fields : List Field) (discriminant : Nat)
    (slots : List (String × DynamicValue)) (f : Field) :
    f ∈ emittedFields fields discriminant slots ↔
      readerWhich fields discriminant = some f ∨
      (f ∈ getNonUnionFields fields ∧ readerHas discriminant slots f = true) := by
  simp [emittedFields, List.mem_filter]

theorem mem_fields_of_emitted (fields : List Field) (discriminant : Nat)
    (slots : List (String × DynamicValue)) (f : Field)
    (h : f ∈ emittedFields fields discriminant slots) : f ∈ fields := by
  rcases (mem_emittedFields fields discriminant slots f).1 h with h | ⟨h, _⟩
  · exact (readerWhich_some fields discriminant f h).1
  · exact ((mem_getNonUnionFields fields f).1 h).1

theorem readerGet_unset (slots : List (String × DynamicValue)) (f : Field)
    (h : assocGet slots f.name = none) : readerGet slots f = readerGet [] f := by
  unfold readerGet
  cases f.proto <;> simp [h, assocGet]

theorem readerHas_of_written (discriminant : Nat) (slots : List (String × DynamicValue))
    (f : Field) (hd : f.discriminantValue = none)
    (hw : (assocGet slots f.name).isSome = true) : readerHas discriminant slots f = true := by
  unfold readerHas
  rw [hd]
  cases f.proto <;> simp [hw]

theorem mem_unionKeys (env : SchemaEnv) (typeId : Nat) (props : List (String × JsValue))
    (h : unionKeys env typeId props ≠ []) :
    ∃ p ∈ props, ∃ f d, findFieldByName (schemaFields env typeId) p.1 = some f ∧
      f.discriminantValue = some d := by
  obtain ⟨key, hkey⟩ := List.exists_mem_of_ne_nil _ h
  simp only [unionKeys, List.mem_map, List.mem_filter] at hkey
  obtain ⟨p, ⟨hp, hcond⟩, _⟩ := hkey
  cases hfind : findFieldByName (schemaFields env typeId) p.1 with
  | none => simp [hfind] at hcond
  | some f =>
      simp only [hfind] at hcond
      cases hd : f.discriminantValue with
      | none => simp [hd] at hcond
      | some d => exact ⟨p, hp, f, d, hfind, hd⟩

theorem roundTripProps_of_forall (env : SchemaEnv) (typeId : Nat)
    (out : List (String × JsValue)) :
    ∀ props : List (String × JsValue),
      (∀ p ∈ props, ∃ f y, findFieldByName (schemaFields env typeId) p.1 = some f ∧
        assocGet out p.1 = some y ∧ RoundTrip env f.valueType p.2 y) →
      RoundTripProps env typeId props out
  | [], _ => .nil _ _
  | (key, js) :: rest, h => by
      obtain ⟨f, y, h1, h2, h3⟩ := h (key, js) (List.mem_cons_self _ _)
      exact .cons typeId key js rest out f y h1 h2 h3
        (roundTripProps_of_forall env typeId out rest
          (fun p hp => h p (List.mem_cons_of_mem _ hp)))

/-- The struct left by the loop of `structFromJs` on a fresh builder decodes
to an object that holds every property of the input. -/
theorem struct_decodes (H : Host) (env : SchemaEnv) (rank : Nat → Nat)
    (hwf : WellFormed env rank) (typeId : Nat) (props : List (String × JsValue))
    (fuel : Nat) (b2 : Builder) (hok : PropsOK H env (Builder.fresh typeId) props fuel b2) :
    ∃ F out, (∀ w, valueToJs env F b2.asReader w = .done (.object .plain out)) ∧
      RoundTrip env (.STRUCT typeId) (.object .plain props) (.object .plain out) := by
  obtain ⟨_, htype, hframe, hdisc, hkeys⟩ := hok
  have htype2 : b2.typeId = typeId := htype
  have hnames := hwf.names typeId
  have hsub : ∀ f ∈ emittedFields (schemaFields env typeId) b2.discriminant b2.slots,
      ∃ js, valueToJs env (max fuel (rank typeId + 1)) (readerGet b2.slots f) f.whichType =
        .done js := by
    intro f hf
    have hfmem := mem_fields_of_emitted _ _ _ f hf
    by_cases hk : f.name ∈ props.map Prod.fst
    · obtain ⟨p, hp, hpn⟩ := List.mem_map.1 hk
      obtain ⟨f2, out, hfind, _, _, hdec, _⟩ := hkeys p hp
      obtain ⟨hf2mem, hf2n⟩ := findFieldByName_some _ _ _ hfind
      have : f2 = f := List.inj_on_of_nodup_map hnames hf2mem hfmem (hf2n.trans hpn)
      subst this
      exact ⟨out, valueToJs_mono env _ _ _ _ hdec _ (le_max_left _ _)⟩
    · have hnone : assocGet b2.slots f.name = none := by
        rw [hframe f.name hk]
        rfl
      rw [readerGet_unset b2.slots f hnone]
      have hunset : f.emittedUnset := by
        rcases (mem_emittedFields _ _ _ f).1 hf with hw | ⟨hn, hhas⟩
        · have hfd := (readerWhich_some _ _ f hw).2
          by_cases hu : unionKeys env typeId props = []
          · have h0 : b2.discriminant = 0 := hdisc hu
            rw [h0] at hfd
            exact Or.inl hfd
          · obtain ⟨p, hp, g, d, hfind, hgd⟩ := mem_unionKeys env typeId props hu
            obtain ⟨g2, _, hfind2, _, hd2, _, _⟩ := hkeys p hp
            have hgg : g2 = g := by
              have h1 : findFieldByName (schemaFields env typeId) p.1 = some g2 := hfind2
              rw [hfind] at h1
              exact (Option.some.inj h1).symm
            subst hgg
            have hbd := hd2 d hgd
            rw [hbd] at hfd
            obtain ⟨hgmem, hgn⟩ := findFieldByName_some _ _ _ hfind
            have := hwf.discriminants typeId f hfmem g2 hgmem d hfd hgd
            subst this
            exact absurd (List.mem_map.2 ⟨p, hp, hgn.symm⟩) hk
        · have hfd := ((mem_getNonUnionFields _ f).1 hn).2
          refine Or.inr ⟨hfd, ?_⟩
          cases hp : f.proto with
          | GROUP g => exact Or.inl ⟨g, rfl⟩
          | SLOT t =>
              refine Or.inr ⟨t, rfl, ?_⟩
              simpa [readerHas, hfd, hp, hnone] using hhas
      obtain ⟨js, hjs⟩ := unset_field_decodes_rank env rank hwf typeId f hfmem hunset
      exact ⟨js, valueToJs_mono env _ _ _ _ hjs _ (le_max_right _ _)⟩
  refine ⟨max fuel (rank typeId + 1) + 1,
    (emittedFields (schemaFields env typeId) b2.discriminant b2.slots).map
      (emittedProperty env (max fuel (rank typeId + 1)) b2.slots), ?_, ?_⟩
  · intro w
    obtain ⟨out, h1, h2, _⟩ := struct_presence_rule env (max fuel (rank typeId + 1)) typeId
      b2.discriminant b2.slots w hnames hsub
    have : b2.asReader = .STRUCT typeId b2.discriminant b2.slots := by
      simp [Builder.asReader, htype2]
    rw [this, h1, h2]
  · obtain ⟨hn1, _⟩ := emittedFields_names (schemaFields env typeId) b2.discriminant b2.slots
      hnames
    have hkeysEq : ((emittedFields (schemaFields env typeId) b2.discriminant b2.slots).map
        (emittedProperty env (max fuel (rank typeId + 1)) b2.slots)).map Prod.fst =
        (emittedFields (schemaFields env typeId) b2.discriminant b2.slots).map Field.name := by
      simp [emittedProperty, Function.comp_def]
    refine .struct typeId props _ ?_ ?_ ?_
    · apply roundTripProps_of_forall
      intro p hp
      obtain ⟨f, out, hfind, hsome, hd, hdec, hrt⟩ := hkeys p hp
      have hfind2 : findFieldByName (schemaFields env typeId) p.1 = some f := hfind
      obtain ⟨hfmem, hfn⟩ := findFieldByName_some _ _ _ hfind2
      refine ⟨f, out, hfind2, ?_, hrt⟩
      have hem : f ∈ emittedFields (schemaFields env typeId) b2.discriminant b2.slots := by
        rw [mem_emittedFields]
        cases hfd : f.discriminantValue with
        | some d =>
            left
            rw [hd d hfd]
            exact getFieldByDiscriminant_unique _ f d hfmem hfd (hwf.discriminants typeId)
        | none =>
            right
            exact ⟨(mem_getNonUnionFields _ f).2 ⟨hfmem, hfd⟩,
              readerHas_of_written _ _ f hfd (by rw [hfn]; exact hsome)⟩
      have hget := assocGet_map_of_mem Field.name
        (fun f => (valueToJs env (max fuel (rank typeId + 1)) (readerGet b2.slots f)
          f.whichType).value) _ f hem hn1
      have hval := valueToJs_mono env _ _ _ _ hdec _ (le_max_left fuel (rank typeId + 1))
      simp only [hval, Fueled.value] at hget
      rw [← hfn]
      exact hget
    · rw [hkeysEq]
      exact hn1
    · rw [hkeysEq]
      intro key hkey
      obtain ⟨f, hf, hfn⟩ := List.mem_map.1 hkey
      exact ⟨f, mem_fields_of_emitted _ _ _ f hf, hfn⟩

/-! ## Round trip: assembling lists and structs -/

theorem listToJs_cons_done (env : SchemaEnv) (w : Which) (fuel1 fuel2 : Nat)
    (v : DynamicValue) (vs : List DynamicValue) (out1 : JsValue) (out : List JsValue)
    (h1 : valueToJs env fuel1 v w = .done out1)
    (h2 : listToJs (fun v => valueToJs env fuel2 v w) vs = .done out) :
    listToJs (fun v => valueToJs env (max fuel1 fuel2) v w) (v :: vs) = .done (out1 :: out) := by
  have h1m := valueToJs_mono env v w out1 fuel1 h1 (max fuel1 fuel2) (le_max_left _ _)
  have h2m := listToJs_mono (fun v => valueToJs env fuel2 v w)
    (fun v => valueToJs env (max fuel1 fuel2) v w)
    (fun v o hv => valueToJs_mono env v w o fuel2 hv _ (le_max_right _ _)) vs out h2
  simp only [listToJs, h1m, h2m, Fueled.bind]

theorem listOK_cons (H : Host) (env : SchemaEnv) (e : SchemaType) (js : JsValue)
    (rest : List JsValue) (hv : ValueOK H env e js) (hr : ListOK H env e rest) :
    ListOK H env e (js :: rest) := by
  obtain ⟨orphan, stored, fuel1, out1, ho, hu, hs, hd, hrt⟩ := hv
  obtain ⟨vs, fuel2, out, hl, hld, hrl⟩ := hr
  refine ⟨stored :: vs, max fuel1 fuel2, out1 :: out, ?_,
    listToJs_cons_done env _ fuel1 fuel2 stored vs out1 out hd hld, .cons _ _ _ _ _ hrt hrl⟩
  intro field thrown
  rw [listFromJs]
  simp only [ho field thrown, thenNextElement, hu, hs, hl field thrown]
  rfl

theorem structFromJs_fresh_ok (H : Host) (env : SchemaEnv) (rank : Nat → Nat)
    (hwf : WellFormed env rank) (typeId : Nat) (props : List (String × JsValue))
    (fuel : Nat) (b2 : Builder) (hok : PropsOK H env (Builder.fresh typeId) props fuel b2) :
    ∃ F out,
      (∀ thrown, structFromJs H env (Builder.fresh typeId) props thrown =
        { builder := b2, thrown := thrown, result := .ok true }) ∧
      b2.typeId = typeId ∧
      (∀ w, valueToJs env F b2.asReader w = .done (.object .plain out)) ∧
      RoundTrip env (.STRUCT typeId) (.object .plain props) (.object .plain out) := by
  obtain ⟨F, out, h1, h2⟩ := struct_decodes H env rank hwf typeId props fuel b2 hok
  exact ⟨F, out, hok.1, hok.2.1, h1, h2⟩

theorem structListOK_cons (H : Host) (env : SchemaEnv) (rank : Nat → Nat)
    (hwf : WellFormed env rank) (typeId : Nat) (props : List (String × JsValue))
    (rest : List JsValue) (fuel : Nat) (b2 : Builder)
    (hok : PropsOK H env (Builder.fresh typeId) props fuel b2)
    (hr : StructListOK H env typeId rest) :
    StructListOK H env typeId (.object .plain props :: rest) := by
  obtain ⟨F, out1, hs, _, hd, hrt⟩ := structFromJs_fresh_ok H env rank hwf typeId props fuel b2 hok
  obtain ⟨vs, fuel2, out, hl, hld, hrl⟩ := hr
  refine ⟨b2.asReader :: vs, max F fuel2, .object .plain out1 :: out, ?_,
    listToJs_cons_done env _ F fuel2 _ vs _ out (hd .STRUCT) hld, .cons _ _ _ _ _ hrt hrl⟩
  intro thrown
  rw [structListFromJs]
  simp only [hs thrown, thenNextStruct, hl thrown]

theorem orphanFromJs_list_struct (H : Host) (env : SchemaEnv) (field : Field) (typeId : Nat)
    (elems : List JsValue) (thrown : Thrown)
    (hls : listSchemaOf env (.STRUCT typeId) = .ok ()) :
    orphanFromJs H env field (.LIST (.STRUCT typeId)) (.array elems) thrown =
      orphanOfList field (.STRUCT typeId) (structListFromJs H env typeId elems thrown) := by
  have : orphanFromJs H env field (.LIST (.STRUCT typeId)) (.array elems) thrown =
      match listSchemaOf env (.STRUCT typeId) with
      | .error e => { thrown := thrown, result := .error e }
      | .ok _ =>
          orphanOfList field (.STRUCT typeId) (structListFromJs H env typeId elems thrown) := rfl
  rw [this, hls]

theorem orphanFromJs_list_other (H : Host) (env : SchemaEnv) (field : Field)
    (e : SchemaType) (elems : List JsValue) (thrown : Thrown)
    (hne : ∀ typeId, e ≠ .STRUCT typeId) (hls : listSchemaOf env e = .ok ()) :
    orphanFromJs H env field (.LIST e) (.array elems) thrown =
      orphanOfList field e (listFromJs H env field e elems thrown) := by
  have : orphanFromJs H env field (.LIST e) (.array elems) thrown =
      match listSchemaOf env e with
      | .error err => { thrown := thrown, result := .error err }
      | .ok _ => orphanOfList field e (listFromJs H env field e elems thrown) := by
    cases e <;> first | rfl | exact absurd rfl (hne _)
  rw [this, hls]

theorem valueOK_of_list (H : Host) (env : SchemaEnv) (e : SchemaType) (elems : List JsValue)
    (hne : ∀ typeId, e ≠ .STRUCT typeId) (hls : listSchemaOf env e = .ok ())
    (hl : ListOK H env e elems) : ValueOK H env (.LIST e) (.array elems) := by
  obtain ⟨vs, fuel, out, hlist, hdec, hrt⟩ := hl
  refine ⟨.LIST e vs, .LIST e vs, fuel + 1, .array out, ?_, rfl, by simp [storeValue], ?_,
    .list _ _ _ hrt⟩
  · intro field thrown
    rw [orphanFromJs_list_other H env field e elems thrown hne hls, hlist field thrown]
    rfl
  · simp only [valueToJs, hdec, Fueled.bind]

theorem valueOK_of_structList (H : Host) (env : SchemaEnv) (typeId : Nat)
    (elems : List JsValue) (hls : listSchemaOf env (.STRUCT typeId) = .ok ())
    (hl : StructListOK H env typeId elems) :
    ValueOK H env (.LIST (.STRUCT typeId)) (.array elems) := by
  obtain ⟨vs, fuel, out, hlist, hdec, hrt⟩ := hl
  refine ⟨.LIST (.STRUCT typeId) vs, .LIST (.STRUCT typeId) vs, fuel + 1, .array out, ?_, rfl,
    by simp [storeValue], ?_, .list _ _ _ hrt⟩
  · intro field thrown
    rw [orphanFromJs_list_struct H env field typeId elems thrown hls, hlist thrown]
    rfl
  · simp only [valueToJs, SchemaType.which, hdec, Fueled.bind]

theorem valueOK_of_struct (H : Host) (env : SchemaEnv) (rank : Nat → Nat)
    (hwf : WellFormed env rank) (typeId : Nat) (props : List (String × JsValue))
    (hs : (getStruct env typeId).isOk) (fuel : Nat) (b2 : Builder)
    (hok : PropsOK H env (Builder.fresh typeId) props fuel b2) :
    ValueOK H env (.STRUCT typeId) (.object .plain props) := by
  obtain ⟨F, out, hst, hty, hd, hrt⟩ :=
    structFromJs_fresh_ok H env rank hwf typeId props fuel b2 hok
  refine ⟨b2.asReader, b2.asReader, F, .object .plain out, ?_, rfl, ?_, hd _, hrt⟩
  · intro field thrown
    have : orphanFromJs H env field (.STRUCT typeId) (.object .plain props) thrown =
        match getStruct env typeId with
        | .error e => { thrown := thrown, result := .error e }
        | .ok _ => orphanOfStruct (structFromJs H env (Builder.fresh typeId) props thrown) := rfl
    rw [this]
    cases hg : getStruct env typeId with
    | error e => simp [hg, Except.isOk, Except.toBool] at hs
    | ok fields => simp only [hst thrown, orphanOfStruct]
  · simp [storeValue, Builder.asReader, hty]

/-! ## Round trip: one key of a struct -/

theorem unionKeys_cons (env : SchemaEnv) (typeId : Nat) (key : String) (js : JsValue)
    (rest : List (String × JsValue)) (field : Field)
    (hfind : findFieldByName (schemaFields env typeId) key = some field) :
    unionKeys env typeId ((key, js) :: rest) =
      if field.discriminantValue.isSome then key :: unionKeys env typeId rest
      else unionKeys env typeId rest := by
  simp only [unionKeys, List.filter_cons, hfind]
  split <;> simp

theorem readerGet_written (slots : List (String × DynamicValue)) (f : Field) (v : DynamicValue)
    (h : assocGet slots f.name = some v) : readerGet slots f = v := by
  unfold readerGet
  cases f.proto <;> simp [h]

theorem propsOK_nil (H : Host) (env : SchemaEnv) (builder : Builder) :
    PropsOK H env builder [] 0 builder := by
  refine ⟨?_, rfl, fun _ _ => rfl, fun _ => rfl, ?_⟩
  · intro thrown
    rw [structFromJs]
  · intro p hp
    simp at hp

/-- The loop of `structFromJs` over a key followed by `rest`, given what the
conversion of the key's value does and what the loop does on `rest`. -/
theorem propsOK_cons_core (H : Host) (env : SchemaEnv) (builder b1 : Builder) (key : String)
    (js : JsValue) (rest : List (String × JsValue)) (field : Field) (stored : DynamicValue)
    (fuel1 : Nat) (out1 : JsValue)
    (hfind : findFieldByName (schemaFields env builder.typeId) key = some field)
    (hnodup : (((key, js) :: rest).map Prod.fst).Nodup)
    (hunion : (unionKeys env builder.typeId ((key, js) :: rest)).length ≤ 1)
    (hunset : ∀ k ∈ ((key, js) :: rest).map Prod.fst, assocGet builder.slots k = none)
    (hdisc : unionKeys env builder.typeId ((key, js) :: rest) ≠ [] → builder.discriminant = 0)
    (ha : ∀ thrown, fieldFromJs H env builder field js thrown =
      { builder := b1, thrown := thrown, result := .ok true })
    (hb : b1.typeId = builder.typeId)
    (hc : b1.slots = assocSet builder.slots field.name stored)
    (hd1 : field.discriminantValue = none → b1.discriminant = builder.discriminant)
    (hd2 : ∀ d, field.discriminantValue = some d → b1.discriminant = d)
    (he : valueToJs env fuel1 stored field.whichType = .done out1)
    (hrt : RoundTrip env field.valueType js out1)
    (hrest : ∀ b : Builder, b.typeId = builder.typeId →
      (∀ k ∈ rest.map Prod.fst, assocGet b.slots k = none) →
      (unionKeys env builder.typeId rest ≠ [] → b.discriminant = 0) →
      ∃ fuel b2, PropsOK H env b rest fuel b2) :
    ∃ fuel b2, PropsOK H env builder ((key, js) :: rest) fuel b2 := by
  obtain ⟨_, hfn⟩ := findFieldByName_some _ _ _ hfind
  simp only [List.map_cons, List.nodup_cons] at hnodup
  obtain ⟨hkey, hnodup2⟩ := hnodup
  have huk := unionKeys_cons env builder.typeId key js rest field hfind
  have hunset1 : ∀ k ∈ rest.map Prod.fst, assocGet b1.slots k = none := by
    intro k hk
    have hne : k ≠ field.name := by
      intro e
      rw [e, hfn] at hk
      exact hkey hk
    rw [hc, assocGet_assocSet_other _ _ _ _ hne]
    exact hunset k (List.mem_cons_of_mem _ hk)
  have hrestNil : field.discriminantValue.isSome = true →
      unionKeys env builder.typeId rest = [] := by
    intro hsome
    rw [huk, if_pos hsome] at hunion
    simp only [List.length_cons] at hunion
    exact List.length_eq_zero.1 (by omega)
  have hdisc1 : unionKeys env builder.typeId rest ≠ [] → b1.discriminant = 0 := by
    intro hne
    have hnone : field.discriminantValue = none := by
      cases hfd : field.discriminantValue with
      | none => rfl
      | some d => exact absurd (hrestNil (by simp [hfd])) hne
    rw [hd1 hnone]
    apply hdisc
    rw [huk]
    simp [hnone, hne]
  obtain ⟨fuel2, b2, hs2, ht2, hfr2, hdd2, hk2⟩ := hrest b1 hb hunset1 hdisc1
  rw [hb] at hdd2 hk2
  have hheadSlot : assocGet b2.slots key = some stored := by
    rw [hfr2 key hkey, hc, ← hfn]
    exact assocGet_assocSet_same _ _ _
  refine ⟨max fuel1 fuel2, b2, ?_, ht2.trans hb, ?_, ?_, ?_⟩
  · intro thrown
    rw [structFromJs_step H env builder b1 key js rest thrown field hfind (ha thrown)]
    exact hs2 thrown
  · intro name hname
    simp only [List.map_cons, List.mem_cons, not_or] at hname
    have hne : name ≠ field.name := by
      rw [hfn]
      exact hname.1
    rw [hfr2 name hname.2, hc, assocGet_assocSet_other _ _ _ _ hne]
  · intro hnil
    rw [huk] at hnil
    cases hfd : field.discriminantValue with
    | some d => simp [hfd] at hnil
    | none =>
        simp only [hfd, Option.isSome_none, Bool.false_eq_true, if_false] at hnil
        rw [hdd2 hnil, hd1 hfd]
  · intro p hp
    rcases List.mem_cons.1 hp with hp | hp
    · subst hp
      refine ⟨field, out1, hfind, by simp [hheadSlot], ?_, ?_, hrt⟩
      · intro d hfd
        rw [hdd2 (hrestNil (by simp [hfd]))]
        exact hd2 d hfd
      · have hget : readerGet b2.slots field = stored :=
          readerGet_written _ _ _ (by rw [hfn]; exact hheadSlot)
        rw [hget]
        exact valueToJs_mono env _ _ _ _ he _ (le_max_left _ _)
    · obtain ⟨f, out, h1, h2, h3, h4, h5⟩ := hk2 p hp
      exact ⟨f, out, h1, h2, h3, valueToJs_mono env _ _ _ _ h4 _ (le_max_right _ _), h5⟩

/-- The loop of `structFromJs` over a key followed by `rest`, given the round
trip of the key's value (a slot) or of its properties (a group). -/
theorem propsOK_cons (H : Host) (env : SchemaEnv) (rank : Nat → Nat)
    (hwf : WellFormed env rank) (builder : Builder) (key : String)
    (js : JsValue) (rest : List (String × JsValue)) (field : Field)
    (hfind : findFieldByName (schemaFields env builder.typeId) key = some field)
    (hgd : ∀ groupId, field.proto = .GROUP groupId →
      field.discriminantValue = none ∨ field.discriminantValue = some 0)
    (hnodup : (((key, js) :: rest).map Prod.fst).Nodup)
    (hunion : (unionKeys env builder.typeId ((key, js) :: rest)).length ≤ 1)
    (hunset : ∀ k ∈ ((key, js) :: rest).map Prod.fst, assocGet builder.slots k = none)
    (hdisc : unionKeys env builder.typeId ((key, js) :: rest) ≠ [] → builder.discriminant = 0)
    (hvalue : ∀ type, field.proto = .SLOT type → ValueOK H env type js)
    (hgroup : ∀ groupId, field.proto = .GROUP groupId →
      ∃ gprops fuel g, js = .object .plain gprops ∧
        PropsOK H env (Builder.fresh groupId) gprops fuel g)
    (hrest : ∀ b : Builder, b.typeId = builder.typeId →
      (∀ k ∈ rest.map Prod.fst, assocGet b.slots k = none) →
      (unionKeys env builder.typeId rest ≠ [] → b.discriminant = 0) →
      ∃ fuel b2, PropsOK H env b rest fuel b2) :
    ∃ fuel b2, PropsOK H env builder ((key, js) :: rest) fuel b2 := by
  obtain ⟨_, hfn⟩ := findFieldByName_some _ _ _ hfind
  cases hp : field.proto with
  | SLOT type =>
      obtain ⟨orphan, stored, fuel1, out1, ho, hu, hs, hdec, hrt⟩ := hvalue type hp
      have hwt : field.whichType = type.which := by simp [Field.whichType, hp]
      have hvt : field.valueType = type := by simp [Field.valueType, hp]
      refine propsOK_cons_core H env builder
        { builder.setInUnion field with slots := assocSet builder.slots field.name stored }
        key js rest field stored fuel1 out1 hfind hnodup hunion hunset hdisc ?_ ?_ rfl ?_ ?_
        (by rw [hwt]; exact hdec) (by rw [hvt]; exact hrt) hrest
      · intro thrown
        exact fieldFromJs_slot H env builder field type js thrown orphan stored hp
          (ho field thrown) hu hs
      · simp only [Builder.setInUnion]
        cases field.discriminantValue <;> rfl
      · intro hnone
        simp [Builder.setInUnion, hnone]
      · intro d hfd
        simp [Builder.setInUnion, hfd]
  | GROUP groupId =>
      obtain ⟨gprops, fuel, g, hjs, hok⟩ := hgroup groupId hp
      subst hjs
      obtain ⟨F, out, hst, hty, hdec, hrt⟩ :=
        structFromJs_fresh_ok H env rank hwf groupId gprops fuel g hok
      have hwt : field.whichType = .STRUCT := by simp [Field.whichType, hp]
      have hvt : field.valueType = .STRUCT groupId := by simp [Field.valueType, hp]
      have hkeyUnset : assocGet builder.slots field.name = none := by
        rw [hfn]
        exact hunset key (by simp)
      have hgg : builder.getGroup field groupId = Builder.fresh groupId := by
        simp [Builder.getGroup, hkeyUnset]
      have hd0 : ∀ d, field.discriminantValue = some d → builder.discriminant = d := by
        intro d hfd
        rcases hgd groupId hp with h | h
        · rw [h] at hfd
          cases hfd
        · rw [h] at hfd
          cases hfd
          apply hdisc
          rw [unionKeys_cons env builder.typeId key _ rest field hfind]
          simp [h]
      have hver : verifySetInUnion builder field = .ok () := by
        unfold verifySetInUnion
        cases hfd : field.discriminantValue with
        | none => rfl
        | some d => simp [hd0 d hfd]
      refine propsOK_cons_core H env builder (builder.putGroup field g)
        key _ rest field g.asReader F (.object .plain out) hfind hnodup hunion hunset hdisc
        ?_ rfl rfl (fun _ => rfl) hd0 (by rw [hwt]; exact hdec _) (by rw [hvt]; exact hrt) hrest
      intro thrown
      exact fieldFromJs_group H env builder field groupId .plain gprops thrown g hp hver
        (by rw [hgg]; exact hst thrown)

/-! ## Round trip: the recursion over host values -/

theorem Shape_not_list (H : Host) (env : SchemaEnv) (type : SchemaType) (js : JsValue)
    (h : Shape H env type js) (hna : IsArray js = false) : ∀ e, type ≠ .LIST e := by
  intro e he
  subst he
  cases h with
  | int _ n value hne hv => simp [integerReader, SchemaType.integerKind] at hv
  | list elems h1 h2 => simp [IsArray] at hna

theorem Shape_struct_inv (H : Host) (env : SchemaEnv) (typeId : Nat) (js : JsValue)
    (h : Shape H env (.STRUCT typeId) js) :
    ∃ props, js = .object .plain props ∧ (getStruct env typeId).isOk ∧
      ShapeProps H env typeId props ∧ (props.map Prod.fst).Nodup ∧
      (unionKeys env typeId props).length ≤ 1 := by
  cases h with
  | int _ n value hne hv => simp [integerReader, SchemaType.integerKind] at hv
  | struct _ props h1 h2 h3 h4 => exact ⟨props, rfl, h1, h2, h3, h4⟩

theorem Shape_not_struct (H : Host) (env : SchemaEnv) (type : SchemaType) (js : JsValue)
    (h : Shape H env type js) (hno : ∀ props, js ≠ .object .plain props) :
    ∀ typeId, type ≠ .STRUCT typeId := by
  intro typeId he
  subst he
  obtain ⟨props, hjs, _⟩ := Shape_struct_inv H env typeId js h
  exact hno props hjs

/-- One step of the loop of `structFromJs`, with the recursive calls of the
round trip taken as hypotheses. -/
theorem propsOK_cons_shape (H : Host) (env : SchemaEnv) (rank : Nat → Nat)
    (hwf : WellFormed env rank) (builder : Builder) (key : String) (js : JsValue)
    (rest : List (String × JsValue))
    (h : ShapeProps H env builder.typeId ((key, js) :: rest))
    (hnd : (((key, js) :: rest).map Prod.fst).Nodup)
    (hun : (unionKeys env builder.typeId ((key, js) :: rest)).length ≤ 1)
    (hus : ∀ k ∈ ((key, js) :: rest).map Prod.fst, assocGet builder.slots k = none)
    (hd : unionKeys env builder.typeId ((key, js) :: rest) ≠ [] → builder.discriminant = 0)
    (hvalue : ∀ type, Shape H env type js → ValueOK H env type js)
    (hgroup : ∀ groupId, Shape H env (.STRUCT groupId) js →
      ∃ gprops fuel g, js = .object .plain gprops ∧
        PropsOK H env (Builder.fresh groupId) gprops fuel g)
    (hrest : ∀ b : Builder, ShapeProps H env b.typeId rest → (rest.map Prod.fst).Nodup →
      (unionKeys env b.typeId rest).length ≤ 1 →
      (∀ k ∈ rest.map Prod.fst, assocGet b.slots k = none) →
      (unionKeys env b.typeId rest ≠ [] → b.discriminant = 0) →
      ∃ fuel b2, PropsOK H env b rest fuel b2) :
    ∃ fuel b2, PropsOK H env builder ((key, js) :: rest) fuel b2 := by
  obtain ⟨field, hfind, hshape, hgd, hrestShape⟩ := ShapeProps_cons_inv H env _ key _ rest h
  refine propsOK_cons H env rank hwf builder key _ rest field hfind hgd hnd hun hus hd
    ?_ ?_ ?_
  · intro type hp
    have hvt : field.valueType = type := by simp [Field.valueType, hp]
    rw [hvt] at hshape
    exact hvalue type hshape
  · intro groupId hp
    have hvt : field.valueType = .STRUCT groupId := by simp [Field.valueType, hp]
    rw [hvt] at hshape
    exact hgroup groupId hshape
  · intro b hb hus1 hd1
    refine hrest b (by rw [hb]; exact hrestShape) (List.nodup_cons.1 hnd).2 ?_ hus1
      (by rw [hb]; exact hd1)
    rw [hb]
    rw [unionKeys_cons env builder.typeId key _ rest field hfind] at hun
    split at hun
    · simp only [List.length_cons] at hun
      omega
    · exact hun

mutual

/-- The round trip of one host value, by recursion over the value. -/
theorem valueOK_of_shape (H : Host) (env : SchemaEnv) (rank : Nat → Nat)
    (hwf : WellFormed env rank) :
    ∀ (js : JsValue) (type : SchemaType), Shape H env type js → ValueOK H env type js
  | .undefined, type, h =>
      valueOK_of_leaf H env type _ h (Shape_not_list H env type _ h rfl)
        (Shape_not_struct H env type _ h (fun _ => by simp))
  | .null, type, h =>
      valueOK_of_leaf H env type _ h (Shape_not_list H env type _ h rfl)
        (Shape_not_struct H env type _ h (fun _ => by simp))
  | .boolean _, type, h =>
      valueOK_of_leaf H env type _ h (Shape_not_list H env type _ h rfl)
        (Shape_not_struct H env type _ h (fun _ => by simp))
  | .number _, type, h =>
      valueOK_of_leaf H env type _ h (Shape_not_list H env type _ h rfl)
        (Shape_not_struct H env type _ h (fun _ => by simp))
  | .string _, type, h =>
      valueOK_of_leaf H env type _ h (Shape_not_list H env type _ h rfl)
        (Shape_not_struct H env type _ h (fun _ => by simp))
  | .array elems, type, h => by
      obtain ⟨e, he, hls, hsl⟩ := Shape_array_inv H env type elems h
      subst he
      by_cases hst : ∃ typeId, e = .STRUCT typeId
      · obtain ⟨typeId, he⟩ := hst
        subst he
        exact valueOK_of_structList H env typeId elems hls
          (structListOK_of_shape H env rank hwf elems typeId hsl)
      · have hne : ∀ typeId, e ≠ .STRUCT typeId := fun typeId he => hst ⟨typeId, he⟩
        exact valueOK_of_list H env e elems hne hls
          (listOK_of_shape H env rank hwf elems e hsl)
  | .object kind props, type, h => by
      rcases Shape_object_inv H env type kind props h with hd | hs
      · obtain ⟨ht, _⟩ := hd
        exact valueOK_of_leaf H env type _ h (by rw [ht]; simp) (by rw [ht]; simp)
      · obtain ⟨typeId, ht, hk, hok, hsp, hnd, hun⟩ := hs
        subst ht
        subst hk
        obtain ⟨fuel, b2, hprops⟩ := propsOK_of_shape H env rank hwf props (Builder.fresh typeId)
          hsp hnd hun (fun _ _ => rfl) (fun _ => rfl)
        exact valueOK_of_struct H env rank hwf typeId props hok fuel b2 hprops

/-- The round trip of the elements of a list that is not a struct list. -/
theorem listOK_of_shape (H : Host) (env : SchemaEnv) (rank : Nat → Nat)
    (hwf : WellFormed env rank) :
    ∀ (elems : List JsValue) (e : SchemaType), ShapeList H env e elems → ListOK H env e elems
  | [], e, _ => ⟨[], 0, [], fun _ _ => by rw [listFromJs], rfl, .nil _⟩
  | js :: rest, e, h =>
      listOK_cons H env e js rest
        (valueOK_of_shape H env rank hwf js e (ShapeList_cons_inv H env e js rest h).1)
        (listOK_of_shape H env rank hwf rest e (ShapeList_cons_inv H env e js rest h).2)

/-- The round trip of the elements of a struct list. -/
theorem structListOK_of_shape (H : Host) (env : SchemaEnv) (rank : Nat → Nat)
    (hwf : WellFormed env rank) :
    ∀ (elems : List JsValue) (typeId : Nat), ShapeList H env (.STRUCT typeId) elems →
      StructListOK H env typeId elems
  | [], typeId, _ => ⟨[], 0, [], fun _ => by rw [structListFromJs], rfl, .nil _⟩
  | .object kind props :: rest, typeId, h => by
      obtain ⟨h1, h2⟩ := ShapeList_cons_inv H env _ _ rest h
      rcases Shape_object_inv H env _ kind props h1 with hd | hs
      · obtain ⟨ht, _⟩ := hd
        cases ht
      · obtain ⟨typeId2, ht, hk, hok, hsp, hnd, hun⟩ := hs
        cases ht
        subst hk
        obtain ⟨fuel, b2, hprops⟩ := propsOK_of_shape H env rank hwf props (Builder.fresh typeId)
          hsp hnd hun (fun _ _ => rfl) (fun _ => rfl)
        exact structListOK_cons H env rank hwf typeId props rest fuel b2 hprops
          (structListOK_of_shape H env rank hwf rest typeId h2)
  | .undefined :: rest, typeId, h =>
      absurd rfl (Shape_not_struct H env _ _ (ShapeList_cons_inv H env _ _ rest h).1
        (fun _ => by simp) typeId)
  | .null :: rest, typeId, h =>
      absurd rfl (Shape_not_struct H env _ _ (ShapeList_cons_inv H env _ _ rest h).1
        (fun _ => by simp) typeId)
  | .boolean _ :: rest, typeId, h =>
      absurd rfl (Shape_not_struct H env _ _ (ShapeList_cons_inv H env _ _ rest h).1
        (fun _ => by simp) typeId)
  | .number _ :: rest, typeId, h =>
      absurd rfl (Shape_not_struct H env _ _ (ShapeList_cons_inv H env _ _ rest h).1
        (fun _ => by simp) typeId)
  | .string _ :: rest, typeId, h =>
      absurd rfl (Shape_not_struct H env _ _ (ShapeList_cons_inv H env _ _ rest h).1
        (fun _ => by simp) typeId)
  | .array _ :: rest, typeId, h =>
      absurd rfl (Shape_not_struct H env _ _ (ShapeList_cons_inv H env _ _ rest h).1
        (fun _ => by simp) typeId)

/-- The round trip of the loop of `structFromJs` over the properties of a
host object, from a builder in which none of the keys is written. -/
theorem propsOK_of_shape (H : Host) (env : SchemaEnv) (rank : Nat → Nat)
    (hwf : WellFormed env rank) :
    ∀ (props : List (String × JsValue)) (builder : Builder),
      ShapeProps H env builder.typeId props → (props.map Prod.fst).Nodup →
      (unionKeys env builder.typeId props).length ≤ 1 →
      (∀ k ∈ props.map Prod.fst, assocGet builder.slots k = none) →
      (unionKeys env builder.typeId props ≠ [] → builder.discriminant = 0) →
      ∃ fuel b2, PropsOK H env builder props fuel b2
  | [], builder, _, _, _, _, _ => ⟨0, builder, propsOK_nil H env builder⟩
  | (key, .object kind gprops) :: rest, builder, h, hnd, hun, hus, hd =>
      propsOK_cons_shape H env rank hwf builder key _ rest h hnd hun hus hd
        (fun type hs => valueOK_of_shape H env rank hwf (.object kind gprops) type hs)
        (fun groupId hs => by
          rcases Shape_object_inv H env _ kind gprops hs with hdd | hs2
          · obtain ⟨ht, _⟩ := hdd
            cases ht
          · obtain ⟨typeId2, ht, hk, _, hsp, hnd2, hun2⟩ := hs2
            cases ht
            subst hk
            obtain ⟨fuel, g, hg⟩ := propsOK_of_shape H env rank hwf gprops
              (Builder.fresh groupId) hsp hnd2 hun2 (fun _ _ => rfl) (fun _ => rfl)
            exact ⟨gprops, fuel, g, rfl, hg⟩)
        (fun b h1 h2 h3 h4 h5 => propsOK_of_shape H env rank hwf rest b h1 h2 h3 h4 h5)
  | (key, .undefined) :: rest, builder, h, hnd, hun, hus, hd =>
      propsOK_cons_shape H env rank hwf builder key _ rest h hnd hun hus hd
        (fun type hs => valueOK_of_shape H env rank hwf (.undefined) type hs)
        (fun groupId hs => absurd rfl (Shape_not_struct H env _ _ hs (fun _ => by simp) groupId))
        (fun b h1 h2 h3 h4 h5 => propsOK_of_shape H env rank hwf rest b h1 h2 h3 h4 h5)
  | (key, .null) :: rest, builder, h, hnd, hun, hus, hd =>
      propsOK_cons_shape H env rank hwf builder key _ rest h hnd hun hus hd
        (fun type hs => valueOK_of_shape H env rank hwf (.null) type hs)
        (fun groupId hs => absurd rfl (Shape_not_struct H env _ _ hs (fun _ => by simp) groupId))
        (fun b h1 h2 h3 h4 h5 => propsOK_of_shape H env rank hwf rest b h1 h2 h3 h4 h5)
  | (key, .boolean b0) :: rest, builder, h, hnd, hun, hus, hd =>
      propsOK_cons_shape H env rank hwf builder key _ rest h hnd hun hus hd
        (fun type hs => valueOK_of_shape H env rank hwf (.boolean b0) type hs)
        (fun groupId hs => absurd rfl (Shape_not_struct H env _ _ hs (fun _ => by simp) groupId))
        (fun b h1 h2 h3 h4 h5 => propsOK_of_shape H env rank hwf rest b h1 h2 h3 h4 h5)
  | (key, .number n0) :: rest, builder, h, hnd, hun, hus, hd =>
      propsOK_cons_shape H env rank hwf builder key _ rest h hnd hun hus hd
        (fun type hs => valueOK_of_shape H env rank hwf (.number n0) type hs)
        (fun groupId hs => absurd rfl (Shape_not_struct H env _ _ hs (fun _ => by simp) groupId))
        (fun b h1 h2 h3 h4 h5 => propsOK_of_shape H env rank hwf rest b h1 h2 h3 h4 h5)
  | (key, .string s0) :: rest, builder, h, hnd, hun, hus, hd =>
      propsOK_cons_shape H env rank hwf builder key _ rest h hnd hun hus hd
        (fun type hs => valueOK_of_shape H env rank hwf (.string s0) type hs)
        (fun groupId hs => absurd rfl (Shape_not_struct H env _ _ hs (fun _ => by simp) groupId))
        (fun b h1 h2 h3 h4 h5 => propsOK_of_shape H env rank hwf rest b h1 h2 h3 h4 h5)
  | (key, .array elems0) :: rest, builder, h, hnd, hun, hus, hd =>
      propsOK_cons_shape H env rank hwf builder key _ rest h hnd hun hus hd
        (fun type hs => valueOK_of_shape H env rank hwf (.array elems0) type hs)
        (fun groupId hs => absurd rfl (Shape_not_struct H env _ _ hs (fun _ => by simp) groupId))
        (fun b h1 h2 h3 h4 h5 => propsOK_of_shape H env rank hwf rest b h1 h2 h3 h4 h5)
end

/-! ## Round trip: `toJs(fromJs(newBuilder(S), V))` -/

theorem newBuilder_of_struct (env : SchemaEnv) (typeId : Nat)
    (h : (getStruct env typeId).isOk) : newBuilder env typeId = .ok (Builder.fresh typeId) := by
  unfold getStruct at h
  unfold newBuilder
  cases hn : env typeId with
  | none => simp [hn, Except.isOk, Except.toBool] at h
  | some node => cases node <;> simp_all [Except.isOk, Except.toBool]

theorem sampleEnv_large (n : Nat) : schemaFields sampleEnv (n + 6) = [] := rfl

theorem sampleEnv_wellFormed : WellFormed sampleEnv (fun _ => 0) := by
  have key : ∀ typeId, 6 ≤ typeId → schemaFields sampleEnv typeId = [] := by
    intro typeId h
    obtain ⟨n, rfl⟩ := Nat.exists_eq_add_of_le h
    rw [Nat.add_comm]
    exact sampleEnv_large n
  have small : ∀ (P : Nat → Prop), P 0 → P 1 → P 2 → P 3 → P 4 → P 5 →
      (∀ typeId, 6 ≤ typeId → P typeId) → ∀ typeId, P typeId := by
    intro P h0 h1 h2 h3 h4 h5 h6 typeId
    by_cases h : 6 ≤ typeId
    · exact h6 typeId h
    · have : typeId = 0 ∨ typeId = 1 ∨ typeId = 2 ∨ typeId = 3 ∨ typeId = 4 ∨ typeId = 5 := by
        omega
      rcases this with h | h | h | h | h | h <;> subst h <;> assumption
  refine ⟨?_, ?_, ?_, ?_⟩
  · refine small _ ?_ ?_ ?_ ?_ ?_ ?_ ?_
    all_goals first
      | decide
      | (intro typeId h; rw [key typeId h]; exact List.nodup_nil)
  · refine small _ ?_ ?_ ?_ ?_ ?_ ?_ ?_
    all_goals first
      | (intro typeId h; rw [key typeId h]; intro f hf; cases hf)
      | (intro f hf g hg d h1 h2
         clear small key
         simp only [schemaFields, sampleEnv, List.mem_cons, List.mem_singleton,
           List.not_mem_nil, or_false] at hf hg
         rcases hf with hf | hf | hf | hf <;> rcases hg with hg | hg | hg | hg <;>
           subst hf <;> subst hg <;>
           first | rfl | (simp at h1 h2; omega) | simp at h1 h2)
      | (intro f hf g hg d h1 h2
         clear small key
         simp only [schemaFields, sampleEnv, List.mem_cons, List.mem_singleton,
           List.not_mem_nil, or_false] at hf hg
         rcases hf with hf | hf | hf <;> rcases hg with hg | hg | hg <;>
           subst hf <;> subst hg <;>
           first | rfl | simp at h1)
      | (intro f hf g hg d h1 h2
         simp only [schemaFields, sampleEnv, List.mem_cons, List.mem_singleton,
           List.not_mem_nil, or_false] at hf hg
         subst hf; subst hg; rfl)
      | (intro f hf; simp [schemaFields, sampleEnv] at hf)
  · refine small _ ?_ ?_ ?_ ?_ ?_ ?_ ?_
    all_goals first
      | (intro typeId h; rw [key typeId h]; intro f hf; cases hf)
      | (intro f hf groupId hp
         simp only [schemaFields, sampleEnv, List.mem_cons, List.mem_singleton,
           List.not_mem_nil, or_false] at hf
         rcases hf with hf | hf | hf | hf <;> subst hf <;> simp at hp)
      | (intro f hf groupId hp
         simp only [schemaFields, sampleEnv, List.mem_cons, List.mem_singleton,
           List.not_mem_nil, or_false] at hf
         rcases hf with hf | hf | hf <;> subst hf <;> simp at hp)
      | (intro f hf groupId hp
         simp only [schemaFields, sampleEnv, List.mem_cons, List.mem_singleton,
           List.not_mem_nil, or_false] at hf
         subst hf; simp at hp)
      | (intro f hf; simp [schemaFields, sampleEnv] at hf)
  · refine small _ ?_ ?_ ?_ ?_ ?_ ?_ ?_
    all_goals first
      | (intro typeId h; rw [key typeId h]; intro f hf; cases hf)
      | (intro f hf structId hp
         simp only [schemaFields, sampleEnv, List.mem_cons, List.mem_singleton,
           List.not_mem_nil, or_false] at hf
         rcases hf with hf | hf | hf | hf <;> subst hf <;> simp at hp)
      | (intro f hf structId hp
         simp only [schemaFields, sampleEnv, List.mem_cons, List.mem_singleton,
           List.not_mem_nil, or_false] at hf
         rcases hf with hf | hf | hf <;> subst hf <;> simp at hp)
      | (intro f hf structId hp
         simp only [schemaFields, sampleEnv, List.mem_cons, List.mem_singleton,
           List.not_mem_nil, or_false] at hf
         subst hf; simp at hp)
      | (intro f hf; simp [schemaFields, sampleEnv] at hf)

/-- The host object `{square: 4, label: "hi", color: "green"}` matches the
sample struct `Shape`. -/
theorem sampleShape_matches :
    Shape Host.sample sampleEnv (.STRUCT 5)
      (.object .plain [("square", .number (.finite 4 0)), ("label", .string "hi"),
        ("color", .string "green")]) := by
  refine Shape.struct 5 _ rfl ?_ (by decide) (by decide)
  refine ShapeProps.cons 5 "square" _ _
    { name := "square", proto := .SLOT .INT32, discriminantValue := some 1 } rfl
    (Shape.int .INT32 4 (.INT 4) (by decide) rfl) (fun _ h => by cases h) ?_
  refine ShapeProps.cons 5 "label" _ _
    { name := "label", proto := .SLOT .TEXT, discriminantValue := none } rfl
    (Shape.text "hi") (fun _ h => by cases h) ?_
  exact ShapeProps.cons 5 "color" _ _
    { name := "color", proto := .SLOT (.ENUM 2), discriminantValue := none } rfl
    (Shape.enum 2 ["red", "green"] "green" rfl (by decide)) (fun _ h => by cases h)
    (ShapeProps.nil 5)

/-- The round trip of `{square: 4, label: "hi", color: "green"}` through the
sample struct `Shape`, evaluated: the active union member comes first. -/
theorem sampleShape_evaluated :
    toJs sampleEnv 1 (fromJs Host.sample sampleEnv (Builder.fresh 5)
      (.object .plain [("square", .number (.finite 4 0)), ("label", .string "hi"),
        ("color", .string "green")])).builder.asReader =
      .done (.object .plain [("square", .number (.finite 4 0)), ("label", .string "hi"),
        ("color", .string "green")]) := rfl

/-- The round trip of `{a: 7, x: 5}` through the sample struct `Point`,
evaluated: the 64-bit field comes back as a string, the absent data field is
omitted. -/
theorem samplePoint_evaluated :
    toJs sampleEnv 1 (fromJs Host.sample sampleEnv (Builder.fresh 1)
      (.object .plain [("a", .number (.finite 7 0)),
        ("x", .number (.finite 5 0))])).builder.asReader =
      .done (.object .plain [("a", .number (.finite 7 0)), ("x", .string "5")]) := rfl

/-- C1 (amended): for schemas with distinct field names and discriminants, a
struct schema `typeId` and a plain host object whose keys are distinct names
of fields of the struct, at most one of them a member of the union, and whose
values have the host shape of the field's declared type, for the types the
encoder supports (no capability and no AnyPointer type, UInt64 values below
2^63): `newBuilder` gives a fresh builder, `fromJs` raises nothing, and `toJs`
of the builder returns, for every large enough recursion bound, an object
related to the input by `RoundTrip`: every property of the input is in the
output, with an equal value, except that 64-bit integers come back as decimal
strings and that arrays and nested objects are related in the same way; the
keys of the output are distinct field names (fields present under the
presence rule that the input did not mention may be added). -/
theorem fromJs_toJs_round_trip (H : Host) (env : SchemaEnv) (rank : Nat → Nat)
    (hwf : WellFormed env rank) (typeId : Nat) (props : List (String × JsValue))
    (hshape : Shape H env (.STRUCT typeId) (.object .plain props)) :
    newBuilder env typeId = .ok (Builder.fresh typeId) ∧
    (fromJs H env (Builder.fresh typeId) (.object .plain props)).thrown = [] ∧
    ∃ fuel out,
      (∀ fuel2, fuel ≤ fuel2 →
        toJs env fuel2 (fromJs H env (Builder.fresh typeId) (.object .plain props)).builder.asReader
          = .done (.object .plain out)) ∧
      RoundTrip env (.STRUCT typeId) (.object .plain props) (.object .plain out) := by
  obtain ⟨props2, hjs, hok, hsp, hnd, hun⟩ := Shape_struct_inv H env typeId _ hshape
  cases hjs
  obtain ⟨fuel, b2, hprops⟩ := propsOK_of_shape H env rank hwf props (Builder.fresh typeId)
    hsp hnd hun (fun _ _ => rfl) (fun _ => rfl)
  obtain ⟨F, out, hst, _, hd, hrt⟩ :=
    structFromJs_fresh_ok H env rank hwf typeId props fuel b2 hprops
  have hfrom : fromJs H env (Builder.fresh typeId) (.object .plain props) =
      { builder := b2, thrown := [] } := by
    simp only [fromJs, hst [], liftKjStruct]
  refine ⟨newBuilder_of_struct env typeId hok, by rw [hfrom], F, out, ?_, hrt⟩
  intro fuel2 hle
  rw [hfrom]
  exact valueToJs_mono env b2.asReader .STRUCT _ F (hd .STRUCT) fuel2 hle

theorem fromJs_toJs_round_trip_witness :
    WellFormed sampleEnv (fun _ => 0) ∧
    Shape Host.sample sampleEnv (.STRUCT 5)
      (.object .plain [("square", .number (.finite 4 0)), ("label", .string "hi"),
        ("color", .string "green")]) ∧
    newBuilder sampleEnv 5 = .ok (Builder.fresh 5) ∧
    (fromJs Host.sample sampleEnv (Builder.fresh 5)
      (.object .plain [("square", .number (.finite 4 0)), ("label", .string "hi"),
        ("color", .string "green")])).thrown = [] ∧
    ∃ fuel out,
      (∀ fuel2, fuel ≤ fuel2 →
        toJs sampleEnv fuel2 (fromJs Host.sample sampleEnv (Builder.fresh 5)
          (.object .plain [("square", .number (.finite 4 0)), ("label", .string "hi"),
            ("color", .string "green")])).builder.asReader
          = .done (.object .plain out)) ∧
      RoundTrip sampleEnv (.STRUCT 5)
        (.object .plain [("square", .number (.finite 4 0)), ("label", .string "hi"),
          ("color", .string "green")]) (.object .plain out) :=
  ⟨sampleEnv_wellFormed, sampleShape_matches,
    fromJs_toJs_round_trip Host.sample sampleEnv (fun _ => 0) sampleEnv_wellFormed 5 _
      sampleShape_matches⟩

/-- C1 fails as stated: the host object `{c: <capability handle>}` matches the
struct `Holder`, whose field `c` has an interface type; `fromJs` raises a type
error and leaves the builder empty, and `toJs` returns the empty object for
every recursion bound, not the input. -/
theorem capability_not_round_tripped :
    newBuilder sampleEnv 4 = .ok (Builder.fresh 4) ∧
    (fromJs Host.sample sampleEnv (Builder.fresh 4)
      (.object .plain [("c", .object (.wrappedClient (some 1) 3) [])])).thrown =
      [.TypeError "Type error in field: c"] ∧
    (∀ fuel, toJs sampleEnv (fuel + 1) (fromJs Host.sample sampleEnv (Builder.fresh 4)
      (.object .plain [("c", .object (.wrappedClient (some 1) 3) [])])).builder.asReader =
      .done (.object .plain [])) ∧
    ¬ ∃ fuel, toJs sampleEnv fuel (fromJs Host.sample sampleEnv (Builder.fresh 4)
      (.object .plain [("c", .object (.wrappedClient (some 1) 3) [])])).builder.asReader =
      .done (.object .plain [("c", .object (.wrappedClient (some 1) 3) [])]) := by
  refine ⟨rfl, rfl, fun _ => rfl, ?_⟩
  rintro ⟨fuel, h⟩
  cases fuel with
  | zero => cases h
  | succ n =>
      have h2 : toJs sampleEnv (n + 1) (fromJs Host.sample sampleEnv (Builder.fresh 4)
          (.object .plain [("c", .object (.wrappedClient (some 1) 3) [])])).builder.asReader =
          .done (.object .plain []) := rfl
      rw [h2] at h
      cases h

/-! ## `dup2`: what changes and what does not -/

theorem CapTable.ext_fields (a b : CapTable) (h1 : a.slots = b.slots)
    (h2 : ∀ o, a.refs o = b.refs o) (h3 : a.released = b.released) : a = b := by
  cases a
  cases b
  simp only [CapTable.mk.injEq]
  exact ⟨h1, funext h2, h3⟩

theorem consistent_refs_pos (t : CapTable) (hcons : t.Consistent) (cap : Nat) (c : Client)
    (o : Nat) (h : t.slots[cap]? = some c) (ho : c.hook = .object o) : 0 < t.refs o :=
  Nat.lt_of_lt_of_le (holders_pos t cap c o h ho) (hcons o).1

/-- The reference counts after `dup2`: one more for the object of the source,
then one less for the object the destination held. -/
theorem dup2Cap_refs (t : CapTable) (srcCap dstCap : Nat) (s d : Client)
    (hs : t.slots[srcCap]? = some s) (hd : t.slots[dstCap]? = some d) (o : Nat) :
    (dup2Cap t srcCap dstCap).refs o =
      (t.refs o + (if s.hook = .object o then 1 else 0)) -
        (if d.hook = .object o then 1 else 0) := by
  rw [dup2Cap_eq t srcCap dstCap s d hs hd]
  cases hsh : s.hook with
  | null =>
      cases hdh : d.hook with
      | null => simp [CapTable.addRef, CapTable.release]
      | broken r => simp [CapTable.addRef, CapTable.release]
      | object b =>
          by_cases h2 : o = b
          · subst h2
            simp [CapTable.addRef, CapTable.release]
          · have h2b : ¬ b = o := fun e => h2 e.symm
            simp [CapTable.addRef, CapTable.release, h2, h2b]
  | broken r =>
      cases hdh : d.hook with
      | null => simp [CapTable.addRef, CapTable.release]
      | broken r => simp [CapTable.addRef, CapTable.release]
      | object b =>
          by_cases h2 : o = b
          · subst h2
            simp [CapTable.addRef, CapTable.release]
          · have h2b : ¬ b = o := fun e => h2 e.symm
            simp [CapTable.addRef, CapTable.release, h2, h2b]
  | object a =>
      cases hdh : d.hook with
      | null =>
          by_cases h1 : o = a
          · subst h1
            simp [CapTable.addRef, CapTable.release]
          · have h1b : ¬ a = o := fun e => h1 e.symm
            simp [CapTable.addRef, CapTable.release, h1, h1b]
      | broken r =>
          by_cases h1 : o = a
          · subst h1
            simp [CapTable.addRef, CapTable.release]
          · have h1b : ¬ a = o := fun e => h1 e.symm
            simp [CapTable.addRef, CapTable.release, h1, h1b]
      | object b =>
          by_cases h1 : o = a <;> by_cases h2 : o = b
          · subst h1
            subst h2
            simp [CapTable.addRef, CapTable.release]
          · subst h1
            have h2b : ¬ b = o := fun e => h2 e.symm
            simp [CapTable.addRef, CapTable.release, h2, h2b]
          · subst h2
            have h1b : ¬ a = o := fun e => h1 e.symm
            simp [CapTable.addRef, CapTable.release, h1, h1b]
          · have h1b : ¬ a = o := fun e => h1 e.symm
            have h2b : ¬ b = o := fun e => h2 e.symm
            simp [CapTable.addRef, CapTable.release, h1, h2, h1b, h2b]

theorem dup2Cap_released_self (t : CapTable) (cap : Nat) (c : Client)
    (hcons : t.Consistent) (h : t.slots[cap]? = some c) :
    (dup2Cap t cap cap).released = t.released := by
  rw [dup2Cap_eq t cap cap c c h h]
  cases hc : c.hook with
  | null => simp [CapTable.addRef, CapTable.release]
  | broken r => simp [CapTable.addRef, CapTable.release]
  | object o =>
      have hpos := consistent_refs_pos t hcons cap c o h hc
      simp [CapTable.addRef, CapTable.release]
      omega

/-- C11 (amended): for wrapped clients `src` and `dst` of a table with
consistent reference counts, after `dup2(src, dst)` the slot `dst` holds the
object and interface schema of `src`, `src` and every slot other than `dst` are
unchanged, and the object `dst` referred to before has one reference less
provided `src` does not refer to that same object; if it does, the count of
the object is unchanged.  The object of `src` gains one reference when `dst`
did not already refer to it, every other count is unchanged, and `dup2(c, c)`
changes nothing. -/
theorem dup2Cap_frame (t : CapTable) (srcCap dstCap : Nat) (s d : Client)
    (hcons : t.Consistent)
    (hs : t.slots[srcCap]? = some s) (hd : t.slots[dstCap]? = some d) :
    (dup2Cap t srcCap dstCap).slots[dstCap]? = some s ∧
    (dup2Cap t srcCap dstCap).slots[srcCap]? = some s ∧
    (∀ i, i ≠ dstCap → (dup2Cap t srcCap dstCap).slots[i]? = t.slots[i]?) ∧
    (∀ o, d.hook = .object o → s.hook ≠ .object o →
      (dup2Cap t srcCap dstCap).refs o + 1 = t.refs o) ∧
    (∀ o, d.hook = .object o → s.hook = .object o →
      (dup2Cap t srcCap dstCap).refs o = t.refs o) ∧
    (∀ o, d.hook ≠ .object o → s.hook = .object o →
      (dup2Cap t srcCap dstCap).refs o = t.refs o + 1) ∧
    (∀ o, d.hook ≠ .object o → s.hook ≠ .object o →
      (dup2Cap t srcCap dstCap).refs o = t.refs o) ∧
    (srcCap = dstCap → dup2Cap t srcCap dstCap = t) := by
  have hlt : dstCap < t.slots.length := (List.getElem?_eq_some_iff.1 hd).1
  have hslots : (dup2Cap t srcCap dstCap).slots = t.slots.set dstCap s := by
    rw [dup2Cap_eq t srcCap dstCap s d hs hd]
  have hother : ∀ i, i ≠ dstCap → (dup2Cap t srcCap dstCap).slots[i]? = t.slots[i]? := by
    intro i hi
    rw [hslots, List.getElem?_set_ne (fun e => hi e.symm)]
  have hdst : (dup2Cap t srcCap dstCap).slots[dstCap]? = some s := by
    rw [hslots]
    simp [hlt]
  refine ⟨hdst, ?_, hother, ?_, ?_, ?_, ?_, ?_⟩
  · by_cases h : srcCap = dstCap
    · subst h
      exact hdst
    · rw [hother srcCap h]
      exact hs
  · intro o hdo hso
    have hpos := consistent_refs_pos t hcons dstCap d o hd hdo
    rw [dup2Cap_refs t srcCap dstCap s d hs hd o]
    simp only [hdo, hso, if_true, if_false]
    omega
  · intro o hdo hso
    rw [dup2Cap_refs t srcCap dstCap s d hs hd o]
    simp [hdo, hso]
  · intro o hdo hso
    rw [dup2Cap_refs t srcCap dstCap s d hs hd o]
    simp [hdo, hso]
  · intro o hdo hso
    rw [dup2Cap_refs t srcCap dstCap s d hs hd o]
    simp [hdo, hso]
  · intro h
    subst h
    have hsd : s = d := by
      rw [hs] at hd
      exact Option.some.inj hd
    subst hsd
    apply CapTable.ext_fields
    · rw [hslots]
      apply List.ext_getElem?
      intro i
      by_cases hi : i = srcCap
      · subst hi
        simp [hlt, hs]
      · rw [List.getElem?_set_ne (fun e => hi e.symm)]
    · intro o
      rw [dup2Cap_refs t srcCap srcCap s s hs hs o]
      split <;> simp
    · exact dup2Cap_released_self t srcCap s hcons hs

/-- Witness of C11 on the sample table after `dup`: both slots refer to object 7. -/
theorem dup2Cap_frame_witness :
    (dupCap CapTable.sample 0).1.Consistent ∧
    (dupCap CapTable.sample 0).1.slots[0]? = some { hook := .object 7, schema := 3 } ∧
    (dupCap CapTable.sample 0).1.slots[1]? = some { hook := .object 7, schema := 3 } ∧
    (dup2Cap (dupCap CapTable.sample 0).1 0 1).slots[1]? =
      some { hook := .object 7, schema := 3 } ∧
    (dup2Cap (dupCap CapTable.sample 0).1 0 1).refs 7 = (dupCap CapTable.sample 0).1.refs 7 :=
  ⟨dupCap_consistent CapTable.sample 0 sample_consistent, rfl, rfl,
    (dup2Cap_frame (dupCap CapTable.sample 0).1 0 1 _ _
      (dupCap_consistent CapTable.sample 0 sample_consistent) rfl rfl).1,
    (dup2Cap_frame (dupCap CapTable.sample 0).1 0 1 _ _
      (dupCap_consistent CapTable.sample 0 sample_consistent) rfl rfl).2.2.2.2.1 7 rfl rfl⟩

/-- C11 fails as stated: when `src` and `dst` are distinct wrappers of the same
object (here after `dup`), `dup2(src, dst)` leaves the reference count of the
object `dst` referred to at 2: it has not lost a reference. -/
theorem dup2_same_object_keeps_count :
    (dupCap CapTable.sample 0).1.slots[0]? = some { hook := .object 7, schema := 3 } ∧
    (dupCap CapTable.sample 0).1.slots[1]? = some { hook := .object 7, schema := 3 } ∧
    (dupCap CapTable.sample 0).1.refs 7 = 2 ∧
    (dup2Cap (dupCap CapTable.sample 0).1 0 1).refs 7 = 2 ∧
    ¬ ((dup2Cap (dupCap CapTable.sample 0).1 0 1).refs 7 + 1 =
        (dupCap CapTable.sample 0).1.refs 7) := by
  refine ⟨rfl, rfl, rfl, rfl, ?_⟩
  decide

/-! ## The reactor bridge: theorems -/

theorem setRunnable_inv (port : UvEventPort) (runnable : Bool) (h : port.Inv) :
    (port.setRunnable runnable).Inv := by
  obtain ⟨h1, h2, h3⟩ := h
  unfold UvEventPort.setRunnable
  cases runnable <;> cases hr : port.runnable <;> cases hs : port.scheduled <;>
    simp_all [UvEventPort.Inv, UvEventPort.schedule]

/-- While `scheduled` is set, `setRunnable` changes only `runnable`. -/
theorem setRunnable_scheduled (port : UvEventPort) (runnable : Bool)
    (h : port.scheduled = true) :
    port.setRunnable runnable = { port with runnable := runnable } := by
  unfold UvEventPort.setRunnable
  cases runnable <;> cases hr : port.runnable <;> simp_all
  all_goals
    cases port
    simp_all

theorem foldl_setRunnable_scheduled (calls : List Bool) (port : UvEventPort)
    (h : port.scheduled = true) :
    (calls.foldl UvEventPort.setRunnable port).scheduled = true ∧
    (calls.foldl UvEventPort.setRunnable port).timerActive = port.timerActive ∧
    (calls.foldl UvEventPort.setRunnable port).scheduleEntries = port.scheduleEntries ∧
    (calls.foldl UvEventPort.setRunnable port).loopRuns = port.loopRuns ∧
    (calls.foldl UvEventPort.setRunnable port).runnable = (calls.getLast?).getD port.runnable := by
  induction calls generalizing port with
  | nil => simp [h]
  | cons b rest ih =>
      simp only [List.foldl_cons]
      rw [setRunnable_scheduled port b h]
      have := ih { port with runnable := b } h
      obtain ⟨a1, a2, a3, a4, a5⟩ := this
      refine ⟨a1, a2, a3, a4, ?_⟩
      rw [a5]
      cases rest with
      | nil => simp
      | cons c rest2 =>
          cases hl : (c :: rest2).getLast? with
          | none => simp at hl
          | some x => simp [List.getLast?_cons_cons, hl]

/-- What `run()` does to a scheduled port. -/
theorem run_scheduled (port : UvEventPort) (calls : List Bool) (h : port.scheduled = true) :
    ∃ next, port.run calls = .ok next ∧
      next.runnable = (if port.runnable then (calls.getLast?).getD true else false) ∧
      next.scheduled = next.runnable ∧
      next.timerActive = next.runnable ∧
      next.loopRuns = (if port.runnable then port.loopRuns + 1 else port.loopRuns) ∧
      next.scheduleEntries =
        (if next.runnable then false :: port.scheduleEntries else port.scheduleEntries) := by
  obtain ⟨r, s, t, e, l⟩ := port
  simp only at h
  subst h
  cases r with
  | false => simp [UvEventPort.run]
  | true =>
      obtain ⟨a1, a2, a3, a4, a5⟩ := foldl_setRunnable_scheduled calls
        { runnable := true, scheduled := true, timerActive := false, scheduleEntries := e,
          loopRuns := l + 1 } rfl
      simp only at a2 a3 a4 a5
      simp only [UvEventPort.run, UvEventPort.kjLoopRun, Bool.not_true, Bool.false_eq_true,
        if_false, if_true]
      generalize List.foldl UvEventPort.setRunnable
        { runnable := true, scheduled := true, timerActive := false, scheduleEntries := e,
          loopRuns := l + 1 } calls = ran at a1 a2 a3 a4 a5
      obtain ⟨r2, s2, t2, e2, l2⟩ := ran
      simp only at a1 a2 a3 a4 a5
      subst a1 a2 a3 a4
      rw [← a5]
      cases r2 <;> simp [UvEventPort.schedule]

theorem step_port_inv (port : UvEventPort) (event : PortEvent) (h : port.Inv) :
    ∃ next, port.step event = .ok next ∧ next.Inv := by
  cases event with
  | setRunnable runnable => exact ⟨_, rfl, setRunnable_inv port runnable h⟩
  | timer status calls =>
      obtain ⟨h1, h2, h3⟩ := h
      unfold UvEventPort.step
      by_cases ht : port.timerActive = true
      · simp only [ht, if_true, UvEventPort.doRun]
        by_cases hs : status = 0
        · simp only [hs, if_true]
          obtain ⟨next, hn, b1, b2, b3, _, b5⟩ :=
            run_scheduled { port with timerActive := false } calls (h2 ht)
          refine ⟨next, hn, fun hr => by rw [b2, hr], fun ha => by rw [b2, ← b3, ha], ?_⟩
          rw [b5]
          intro entry he
          split at he
          · rcases List.mem_cons.1 he with he | he
            · exact he
            · exact h3 entry he
          · exact h3 entry he
        · simp only [hs, if_false]
          exact ⟨_, rfl, h1, fun ha => by simp at ha, h3⟩
      · simp only [ht, if_false]
        exact ⟨_, rfl, h1, h2, h3⟩

theorem runEvents_inv (events : List PortEvent) (port : UvEventPort) (h : port.Inv) :
    ∃ final, port.runEvents events = .ok final ∧ final.Inv := by
  induction events generalizing port with
  | nil => exact ⟨port, rfl, h⟩
  | cons event rest ih =>
      obtain ⟨next, hn, hi⟩ := step_port_inv port event h
      obtain ⟨final, hf, hfi⟩ := ih next hi
      refine ⟨final, ?_, hfi⟩
      simp only [UvEventPort.runEvents, hn]
      exact hf

theorem new_inv : UvEventPort.new.Inv := by
  simp [UvEventPort.Inv, UvEventPort.new]

/-- C17: every sequence of `setRunnable` calls and timer wake-ups, started on
a new port, runs without a failed assertion and ends in a state in which
runnable implies scheduled and every entry of `schedule()` found `scheduled`
unset; the same holds in the states inside a wake-up, while the reactor loop
calls `setRunnable`; and `setRunnable(true)` on a port that is neither
runnable nor scheduled schedules a wake-up. -/
theorem reactor_bridge_invariant (events : List PortEvent) :
    ∃ port, UvEventPort.new.runEvents events = .ok port ∧
      (port.runnable = true → port.scheduled = true) ∧
      (∀ entry ∈ port.scheduleEntries, entry = false) ∧
      (∀ calls : List Bool, port.timerActive = true →
        (UvEventPort.kjLoopRun { port with timerActive := false } calls).scheduled = true ∧
        (UvEventPort.kjLoopRun { port with timerActive := false } calls).scheduleEntries =
          port.scheduleEntries) ∧
      (port.runnable = false → port.scheduled = false →
        (port.setRunnable true).runnable = true ∧
        (port.setRunnable true).scheduled = true ∧
        (port.setRunnable true).timerActive = true ∧
        (port.setRunnable true).scheduleEntries = false :: port.scheduleEntries) := by
  obtain ⟨port, hrun, h1, h2, h3⟩ := runEvents_inv events UvEventPort.new new_inv
  refine ⟨port, hrun, h1, h3, ?_, ?_⟩
  · intro calls ht
    obtain ⟨a1, _, a3, _, _⟩ := foldl_setRunnable_scheduled calls
      { port with timerActive := false, loopRuns := port.loopRuns + 1 } (h2 ht)
    exact ⟨a1, a3⟩
  · intro hr hs
    simp [UvEventPort.setRunnable, UvEventPort.schedule, hr, hs]

/-- C18: `setRunnable(false)` leaves the scheduled wake-up as it is; a wake-up
that fires on a scheduled port that is not runnable does not run the reactor
loop and leaves nothing scheduled; and after `run()` a wake-up is scheduled if
and only if the port is runnable. -/
theorem wakeup_after_unrunnable (port : UvEventPort) (calls : List Bool)
    (h : port.scheduled = true) :
    (port.setRunnable false).scheduled = port.scheduled ∧
    (port.setRunnable false).timerActive = port.timerActive ∧
    (port.setRunnable false).scheduleEntries = port.scheduleEntries ∧
    (∃ next, port.run calls = .ok next ∧
      (next.scheduled = true ↔ next.runnable = true) ∧
      (next.timerActive = true ↔ next.runnable = true)) ∧
    (port.runnable = false →
      ∃ next, port.run calls = .ok next ∧ next.loopRuns = port.loopRuns ∧
        next.runnable = false ∧ next.scheduled = false ∧ next.timerActive = false ∧
        next.scheduleEntries = port.scheduleEntries) := by
  obtain ⟨next, hn, b1, b2, b3, b4, b5⟩ := run_scheduled port calls h
  refine ⟨?_, ?_, ?_, ⟨next, hn, by rw [b2], by rw [b3]⟩, ?_⟩
  · rw [setRunnable_scheduled port false h]
  · rw [setRunnable_scheduled port false h]
  · rw [setRunnable_scheduled port false h]
  · intro hr
    simp only [hr, Bool.false_eq_true, if_false] at b1 b4
    refine ⟨next, hn, b4, b1, by rw [b2, b1], by rw [b3, b1], ?_⟩
    rw [b5, b1]
    simp

/-- Witness of C18: a port made runnable and then not runnable again still has
its wake-up, which fires without running the loop. -/
theorem wakeup_after_unrunnable_witness :
    ((UvEventPort.new.setRunnable true).setRunnable false).scheduled = true ∧
    ∃ next, ((UvEventPort.new.setRunnable true).setRunnable false).run [true] = .ok next ∧
      next.loopRuns = 0 ∧ next.runnable = false ∧ next.scheduled = false ∧
      next.timerActive = false ∧ next.scheduleEntries = [false] :=
  ⟨rfl, (wakeup_after_unrunnable ((UvEventPort.new.setRunnable true).setRunnable false)
    [true] rfl).2.2.2.2 rfl⟩

/-! ## Vector write: theorems -/

/-- The loop that discards the written data, for a count within the total
length: it ends in completion exactly when everything was written, and
otherwise in a retry with the unwritten rest, which is a piece with some of
its front dropped followed by the pieces after it, unchanged. -/
theorem discardWritten_spec (morePieces : List (List Nat)) (firstPiece : List Nat) (n : Nat)
    (h : n ≤ (firstPiece :: morePieces).flatten.length) :
    (n = (firstPiece :: morePieces).flatten.length →
      discardWritten n firstPiece morePieces = .done) ∧
    (n < (firstPiece :: morePieces).flatten.length →
      ∃ index piece dropped,
        (firstPiece :: morePieces)[index]? = some piece ∧
        discardWritten n firstPiece morePieces =
          .retry (piece.drop dropped) ((firstPiece :: morePieces).drop (index + 1)) ∧
        piece.drop dropped ++ ((firstPiece :: morePieces).drop (index + 1)).flatten =
          (firstPiece :: morePieces).flatten.drop n) := by
  induction morePieces generalizing firstPiece n with
  | nil =>
      simp only [List.flatten_cons, List.flatten_nil, List.append_nil] at h ⊢
      constructor
      · intro hn
        simp [discardWritten, hn]
      · intro hn
        refine ⟨0, firstPiece, n, rfl, ?_, ?_⟩
        · simp [discardWritten, hn]
        · simp
  | cons next rest ih =>
      simp only [List.flatten_cons, List.length_append] at h ih ⊢
      by_cases hlt : n < firstPiece.length
      · constructor
        · intro hn
          omega
        · intro _
          refine ⟨0, firstPiece, n, rfl, ?_, ?_⟩
          · simp [discardWritten, hlt]
          · simp only [Nat.zero_add, List.drop_one, List.tail_cons, List.flatten_cons]
            rw [List.drop_append_eq_append_drop]
            have : n - firstPiece.length = 0 := by omega
            rw [this, List.drop_zero]
      · have hrest := ih next (n - firstPiece.length) (by omega)
        have hd : discardWritten n firstPiece (next :: rest) =
            discardWritten (n - firstPiece.length) next rest := by
          simp [discardWritten, hlt]
        rw [hd]
        constructor
        · intro hn
          exact hrest.1 (by omega)
        · intro hn
          obtain ⟨index, piece, dropped, h1, h2, h3⟩ := hrest.2 (by omega)
          refine ⟨index + 1, piece, dropped, ?_, ?_, ?_⟩
          · simpa using h1
          · rw [h2]
            simp
          · have hnil : List.drop n firstPiece = [] := List.drop_eq_nil_of_le (by omega)
            have e2 : List.drop n (firstPiece ++ (next ++ rest.flatten)) =
                List.drop (n - firstPiece.length) (next ++ rest.flatten) := by
              rw [List.drop_append_eq_append_drop, hnil, List.nil_append]
            rw [show List.drop (index + 1 + 1) (firstPiece :: next :: rest) =
                List.drop (index + 1) (next :: rest) from rfl, h3, e2]

theorem written_le (outcome : WriteOutcome) (size : Nat) : outcome.written size ≤ size := by
  cases outcome <;> simp [WriteOutcome.written]

theorem bytesWritten_after_writev (iov : List (List Nat)) (outcome : WriteOutcome)
    (run : IoRun Unit) :
    bytesWritten (IoRun.after [.writev iov outcome, .onWritable] run).trace =
      iov.flatten.take (outcome.written iov.flatten.length) ++ bytesWritten run.trace := by
  simp [IoRun.after, bytesWritten]

/-- One call of `writeInternal` whose system call does not fail. -/
theorem writeInternal_step (script : List (WriteOutcome × Notification))
    (outcome : WriteOutcome) (wake : Notification) (firstPiece : List Nat)
    (morePieces : List (List Nat)) (he : outcome.error = none) :
    UvIoStream.writeInternal ((outcome, wake) :: script) firstPiece morePieces =
      match discardWritten (outcome.written (firstPiece :: morePieces).flatten.length)
          firstPiece morePieces with
      | .done =>
          { result := .ready (), trace := [.writev (firstPiece :: morePieces) outcome] }
      | .assertFailed n =>
          { result := .failed (.require ("n == firstPiece.size(); n = " ++ toString n)),
            trace := [.writev (firstPiece :: morePieces) outcome] }
      | .retry firstPiece1 morePieces1 =>
          IoRun.after [.writev (firstPiece :: morePieces) outcome, .onWritable]
            (thenAfter wake (UvIoStream.writeInternal script firstPiece1 morePieces1)) := by
  rw [UvIoStream.writeInternal]
  simp only [he]

/-- Over any script, the bytes the kernel took are the front of the
concatenation of the pieces, and all of it once the write completes; the debug
assertion never fails. -/
theorem writeInternal_bytes (script : List (WriteOutcome × Notification))
    (firstPiece : List Nat) (morePieces : List (List Nat)) :
    bytesWritten (UvIoStream.writeInternal script firstPiece morePieces).trace <+:
      (firstPiece :: morePieces).flatten ∧
    ((UvIoStream.writeInternal script firstPiece morePieces).result = .ready () →
      bytesWritten (UvIoStream.writeInternal script firstPiece morePieces).trace =
        (firstPiece :: morePieces).flatten) ∧
    (∀ description, (UvIoStream.writeInternal script firstPiece morePieces).result ≠
      .failed (.require description)) := by
  induction script generalizing firstPiece morePieces with
  | nil =>
      rw [UvIoStream.writeInternal]
      refine ⟨by simp [bytesWritten], fun h => by simp at h, fun _ h => by simp at h⟩
  | cons round rest ih =>
      obtain ⟨outcome, wake⟩ := round
      cases he : outcome.error with
      | some errno =>
          rw [UvIoStream.writeInternal]
          simp only [he]
          have hw : outcome.written (firstPiece :: morePieces).flatten.length = 0 := by
            cases outcome <;> simp_all [WriteOutcome.error, WriteOutcome.written]
          refine ⟨?_, fun h => by simp at h, fun _ h => by simp at h⟩
          simp only [bytesWritten, List.append_nil]
          exact List.take_prefix _ _
      | none =>
          rw [writeInternal_step rest outcome wake firstPiece morePieces he]
          have hle := written_le outcome (firstPiece :: morePieces).flatten.length
          have hspec := discardWritten_spec morePieces firstPiece _ hle
          rcases Nat.lt_or_ge (outcome.written (firstPiece :: morePieces).flatten.length)
              (firstPiece :: morePieces).flatten.length with hlt | hge
          · obtain ⟨index, piece, dropped, _, h2, h3⟩ := hspec.2 hlt
            rw [h2]
            simp only
            rw [bytesWritten_after_writev]
            cases wake with
            | failed description =>
                simp only [thenAfter, IoRun.after, bytesWritten, List.append_nil]
                refine ⟨List.take_prefix _ _, fun h => by simp at h, fun _ h => by simp at h⟩
            | fired =>
                simp only [thenAfter, IoRun.after]
                obtain ⟨i1, i2, i3⟩ := ih (piece.drop dropped)
                  ((firstPiece :: morePieces).drop (index + 1))
                rw [List.flatten_cons, h3] at i1 i2
                refine ⟨?_, ?_, i3⟩
                · obtain ⟨tail, ht⟩ := i1
                  refine ⟨tail, ?_⟩
                  rw [List.append_assoc, ht, List.take_append_drop]
                · intro hr
                  rw [i2 hr, List.take_append_drop]
          · have heq : outcome.written (firstPiece :: morePieces).flatten.length =
                (firstPiece :: morePieces).flatten.length := Nat.le_antisymm hle hge
            rw [hspec.1 heq]
            simp only [bytesWritten, heq, List.take_length, List.append_nil]
            exact ⟨List.prefix_refl _, fun _ => trivial, fun _ h => by simp at h⟩

/-- C12: for pieces `firstPiece :: morePieces` and a count `n` within the
total length taken by `writev`, `writeInternal` completes at once exactly when
`n` is the total length; otherwise it waits for writability and calls itself
with the unwritten rest: a piece with its written front dropped, followed by
the later pieces unchanged, whose concatenation is the original concatenation
without its first `n` bytes.  Over any script the bytes taken by the kernel
are a front part of the concatenation of the pieces, and all of it when the
write completes. -/
theorem writeInternal_partial_writes (script : List (WriteOutcome × Notification))
    (wake : Notification) (firstPiece : List Nat) (morePieces : List (List Nat)) (n : Nat)
    (h : n ≤ (firstPiece :: morePieces).flatten.length) :
    UvIoStream.writePieces ((.space n, wake) :: script) (firstPiece :: morePieces) =
      UvIoStream.writeInternal ((.space n, wake) :: script) firstPiece morePieces ∧
    (UvIoStream.writeInternal ((.space n, wake) :: script) firstPiece morePieces =
        { result := .ready (), trace := [.writev (firstPiece :: morePieces) (.space n)] } ↔
      n = (firstPiece :: morePieces).flatten.length) ∧
    (n < (firstPiece :: morePieces).flatten.length →
      ∃ index piece dropped,
        (firstPiece :: morePieces)[index]? = some piece ∧
        piece.drop dropped ++ ((firstPiece :: morePieces).drop (index + 1)).flatten =
          (firstPiece :: morePieces).flatten.drop n ∧
        UvIoStream.writeInternal ((.space n, wake) :: script) firstPiece morePieces =
          IoRun.after [.writev (firstPiece :: morePieces) (.space n), .onWritable]
            (thenAfter wake (UvIoStream.writeInternal script (piece.drop dropped)
              ((firstPiece :: morePieces).drop (index + 1))))) ∧
    (∀ partialWrites : List (WriteOutcome × Notification),
      bytesWritten (UvIoStream.writeInternal partialWrites firstPiece morePieces).trace <+:
        (firstPiece :: morePieces).flatten ∧
      ((UvIoStream.writeInternal partialWrites firstPiece morePieces).result = .ready () →
        bytesWritten (UvIoStream.writeInternal partialWrites firstPiece morePieces).trace =
          (firstPiece :: morePieces).flatten)) := by
  have hw : (WriteOutcome.space n).written (firstPiece :: morePieces).flatten.length = n := by
    simp only [WriteOutcome.written]
    omega
  have hstep := writeInternal_step script (.space n) wake firstPiece morePieces rfl
  rw [hw] at hstep
  have hspec := discardWritten_spec morePieces firstPiece n h
  have hretry : n < (firstPiece :: morePieces).flatten.length →
      ∃ index piece dropped,
        (firstPiece :: morePieces)[index]? = some piece ∧
        piece.drop dropped ++ ((firstPiece :: morePieces).drop (index + 1)).flatten =
          (firstPiece :: morePieces).flatten.drop n ∧
        UvIoStream.writeInternal ((.space n, wake) :: script) firstPiece morePieces =
          IoRun.after [.writev (firstPiece :: morePieces) (.space n), .onWritable]
            (thenAfter wake (UvIoStream.writeInternal script (piece.drop dropped)
              ((firstPiece :: morePieces).drop (index + 1)))) := by
    intro hlt
    obtain ⟨index, piece, dropped, h1, h2, h3⟩ := hspec.2 hlt
    refine ⟨index, piece, dropped, h1, h3, ?_⟩
    rw [hstep, h2]
  refine ⟨rfl, ⟨?_, ?_⟩, hretry, ?_⟩
  · intro hready
    by_contra hne
    obtain ⟨index, piece, dropped, _, _, h3⟩ := hretry (by omega)
    rw [h3] at hready
    have := congrArg (fun r => r.trace.length) hready
    simp [IoRun.after] at this
  · intro hn
    rw [hstep, hspec.1 hn]
  · intro partialWrites
    exact ⟨(writeInternal_bytes partialWrites firstPiece morePieces).1,
      (writeInternal_bytes partialWrites firstPiece morePieces).2.1⟩

/-- Witness of C12: three pieces, of which the kernel first takes three bytes. -/
theorem writeInternal_partial_writes_witness :
    3 ≤ ([1, 2] :: [[], [3, 4, 5]]).flatten.length ∧
    ∃ index piece dropped,
      ([1, 2] :: [[], [3, 4, 5]])[index]? = some piece ∧
      piece.drop dropped ++ (([1, 2] :: [[], [3, 4, 5]]).drop (index + 1)).flatten =
        ([1, 2] :: [[], [3, 4, 5]]).flatten.drop 3 ∧
      UvIoStream.writeInternal ((.space 3, .fired) :: [(.space 9, .fired)]) [1, 2]
          [[], [3, 4, 5]] =
        IoRun.after [.writev ([1, 2] :: [[], [3, 4, 5]]) (.space 3), .onWritable]
          (thenAfter .fired (UvIoStream.writeInternal [(.space 9, .fired)] (piece.drop dropped)
            (([1, 2] :: [[], [3, 4, 5]]).drop (index + 1)))) :=
  ⟨by decide,
    (writeInternal_partial_writes [(.space 9, .fired)] .fired [1, 2] [[], [3, 4, 5]] 3
      (by decide)).2.2.1 (by decide)⟩

/-! ## Single-buffer write: theorems -/

/-- One call of `write(buffer, size)` of which the kernel takes `k` bytes,
fewer than offered: the rest of the buffer, from offset `k` on, is written by
a second call, made when a wait registered with `onReadable()` fires. -/
theorem write_resumes_at_offset (script : List (WriteOutcome × Notification))
    (wake : Notification) (buffer : List Nat) (k : Nat) (h : k < buffer.length) :
    UvIoStream.write ((.space k, wake) :: script) buffer =
      IoRun.after [.write buffer (.space k), .onReadable]
        (thenAfter wake (UvIoStream.write script (buffer.drop k))) := by
  have hw : (WriteOutcome.space k).written buffer.length = k := by
    simp only [WriteOutcome.written]
    omega
  rw [UvIoStream.write]
  simp only [WriteOutcome.error, hw]
  rw [if_neg (by omega)]

/-- No call of `write(buffer, size)` registers a wait for writability. -/
theorem write_never_waits_writable (script : List (WriteOutcome × Notification))
    (buffer : List Nat) : IoEvent.onWritable ∉ (UvIoStream.write script buffer).trace := by
  induction script generalizing buffer with
  | nil => simp [UvIoStream.write]
  | cons round rest ih =>
      obtain ⟨outcome, wake⟩ := round
      rw [UvIoStream.write]
      cases outcome.error with
      | some errno => simp
      | none =>
          simp only
          split
          · simp
          · cases wake with
            | failed description => simp [thenAfter, IoRun.after]
            | fired =>
                simp only [thenAfter, IoRun.after, List.cons_append, List.nil_append,
                  List.mem_cons, reduceCtorEq, false_or]
                exact ih _

/-- C13 on the code: `write` of the two bytes `[10, 20]`, of which the kernel
takes one, registers its wait with `onReadable()`, not `onWritable()`; the
second byte is written from offset 1 once that wait fires. -/
theorem write_partial_waits_for_readable :
    UvIoStream.write [(.space 1, .fired), (.space 1, .fired)] [10, 20] =
      { result := .ready (),
        trace := [.write [10, 20] (.space 1), .onReadable, .write [20] (.space 1)] } ∧
    IoEvent.onWritable ∉
      (UvIoStream.write [(.space 1, .fired), (.space 1, .fired)] [10, 20]).trace := by
  decide

/-! ## Reads: theorems -/

theorem storeBytes_below (memory : Nat → Nat) (buffer : Nat) (bytes : List Nat) (address : Nat)
    (h : address < buffer) : storeBytes memory buffer bytes address = memory address := by
  simp [storeBytes, Nat.not_le.2 h]

theorem storeBytes_at (memory : Nat → Nat) (buffer : Nat) (bytes : List Nat) (i : Nat)
    (byte : Nat) (h : bytes[i]? = some byte) :
    storeBytes memory buffer bytes (buffer + i) = byte := by
  simp [storeBytes, h]

theorem take_length_le (bytes : List Nat) (maxBytes : Nat) :
    (bytes.take maxBytes).length ≤ maxBytes := by
  rw [List.length_take]
  exact Nat.min_le_left _ _

theorem after_result (events : List IoEvent) (run : ReadRun) :
    (ReadRun.after events run).result = run.result := rfl

theorem after_memory (events : List IoEvent) (run : ReadRun) :
    (ReadRun.after events run).memory = run.memory := rfl

theorem bytesRead_after_data (buffer minBytes maxBytes alreadyRead : Nat) (bytes : List Nat)
    (run : ReadRun) :
    bytesRead (ReadRun.after
      [.read buffer minBytes maxBytes alreadyRead (.data bytes), .onReadable] run).trace =
      bytes.take maxBytes ++ bytesRead run.trace := rfl

theorem bytesRead_after_wouldBlock (buffer minBytes maxBytes alreadyRead : Nat)
    (run : ReadRun) :
    bytesRead (ReadRun.after
      [.read buffer minBytes maxBytes alreadyRead .wouldBlock, .onReadable] run).trace =
      bytesRead run.trace := rfl

/-- One call of `tryReadInternal` whose read delivers some bytes, but fewer
than `minBytes`: it waits for readability and calls itself with the buffer
position, `minBytes` and `maxBytes` advanced by the bytes just read. -/
theorem tryReadInternal_short (rest : List (ReadOutcome × Notification)) (wake : Notification)
    (memory : Nat → Nat) (buffer minBytes maxBytes alreadyRead : Nat) (bytes : List Nat)
    (hpos : 0 < (bytes.take maxBytes).length) (hlt : (bytes.take maxBytes).length < minBytes) :
    UvIoStream.tryReadInternal ((.data bytes, wake) :: rest) memory buffer minBytes maxBytes
        alreadyRead =
      ReadRun.after [.read buffer minBytes maxBytes alreadyRead (.data bytes), .onReadable]
        (thenRead wake (storeBytes memory buffer (bytes.take maxBytes))
          (UvIoStream.tryReadInternal rest (storeBytes memory buffer (bytes.take maxBytes))
            (buffer + (bytes.take maxBytes).length) (minBytes - (bytes.take maxBytes).length)
            (maxBytes - (bytes.take maxBytes).length)
            (alreadyRead + (bytes.take maxBytes).length))) := by
  rw [UvIoStream.tryReadInternal, if_neg (by omega), if_pos hlt]

/-- What `tryReadInternal` returns and leaves in memory, for any script. -/
theorem tryReadInternal_spec (script : List (ReadOutcome × Notification)) :
    ∀ (memory : Nat → Nat) (buffer minBytes maxBytes alreadyRead : Nat),
      (∀ total,
        (UvIoStream.tryReadInternal script memory buffer minBytes maxBytes alreadyRead).result =
          .ready total →
        total = alreadyRead + (bytesRead (UvIoStream.tryReadInternal script memory buffer
          minBytes maxBytes alreadyRead).trace).length) ∧
      (bytesRead (UvIoStream.tryReadInternal script memory buffer minBytes maxBytes
        alreadyRead).trace).length ≤ maxBytes ∧
      (∀ address, address < buffer →
        (UvIoStream.tryReadInternal script memory buffer minBytes maxBytes alreadyRead).memory
          address = memory address) ∧
      (∀ i byte,
        (bytesRead (UvIoStream.tryReadInternal script memory buffer minBytes maxBytes
          alreadyRead).trace)[i]? = some byte →
        (UvIoStream.tryReadInternal script memory buffer minBytes maxBytes alreadyRead).memory
          (buffer + i) = byte) := by
  induction script with
  | nil =>
      intro memory buffer minBytes maxBytes alreadyRead
      rw [UvIoStream.tryReadInternal]
      refine ⟨fun _ h => by simp at h, by simp [bytesRead], fun _ _ => rfl, ?_⟩
      intro i byte h
      simp [bytesRead] at h
  | cons round rest ih =>
      intro memory buffer minBytes maxBytes alreadyRead
      obtain ⟨outcome, wake⟩ := round
      cases outcome with
      | failed errno =>
          rw [UvIoStream.tryReadInternal]
          refine ⟨fun _ h => by simp at h, by simp [bytesRead], fun _ _ => rfl, ?_⟩
          intro i byte h
          simp [bytesRead] at h
      | wouldBlock =>
          rw [UvIoStream.tryReadInternal, after_result, after_memory,
            bytesRead_after_wouldBlock]
          cases wake with
          | failed description =>
              refine ⟨fun _ h => by simp [thenRead] at h, by simp [thenRead, bytesRead],
                fun _ _ => rfl, ?_⟩
              intro i byte h
              simp [thenRead, bytesRead] at h
          | fired => exact ih memory buffer minBytes maxBytes alreadyRead
      | data bytes =>
          have hle := take_length_le bytes maxBytes
          by_cases h0 : (bytes.take maxBytes).length = 0
          · rw [UvIoStream.tryReadInternal]
            simp only [h0, if_true]
            have hnil : bytes.take maxBytes = [] := List.length_eq_zero.1 h0
            refine ⟨?_, by simp [bytesRead, hnil], ?_, ?_⟩
            · intro total h
              simp only [IoResult.ready.injEq] at h
              simp [bytesRead, hnil, h]
            · intro address ha
              exact storeBytes_below _ _ _ _ ha
            · intro i byte h
              simp [bytesRead, hnil] at h
          · by_cases hlt : (bytes.take maxBytes).length < minBytes
            · rw [tryReadInternal_short rest wake memory buffer minBytes maxBytes alreadyRead
                bytes (by omega) hlt]
              rw [after_result, after_memory, bytesRead_after_data]
              cases wake with
              | failed description =>
                  refine ⟨fun _ h => by simp [thenRead] at h, ?_, ?_, ?_⟩
                  · simp [thenRead, bytesRead]
                  · intro address ha
                    exact storeBytes_below _ _ _ _ ha
                  · intro i byte h
                    simp only [thenRead, bytesRead, List.append_nil] at h
                    exact storeBytes_at _ _ _ _ _ h
              | fired =>
                  simp only [thenRead]
                  obtain ⟨i1, i2, i3, i4⟩ := ih (storeBytes memory buffer (bytes.take maxBytes))
                    (buffer + (bytes.take maxBytes).length)
                    (minBytes - (bytes.take maxBytes).length)
                    (maxBytes - (bytes.take maxBytes).length)
                    (alreadyRead + (bytes.take maxBytes).length)
                  refine ⟨?_, ?_, ?_, ?_⟩
                  · intro total h
                    rw [i1 total h, List.length_append]
                    omega
                  · rw [List.length_append]
                    omega
                  · intro address ha
                    rw [i3 address (by omega)]
                    exact storeBytes_below _ _ _ _ ha
                  · intro i byte h
                    by_cases hi : i < (bytes.take maxBytes).length
                    · rw [List.getElem?_append_left hi] at h
                      rw [i3 (buffer + i) (by omega)]
                      exact storeBytes_at _ _ _ _ _ h
                    · rw [List.getElem?_append_right (by omega)] at h
                      have := i4 (i - (bytes.take maxBytes).length) byte h
                      rw [← this]
                      congr 1
                      omega
            · rw [UvIoStream.tryReadInternal]
              simp only [h0, hlt, if_false]
              refine ⟨?_, by simp [bytesRead], ?_, ?_⟩
              · intro total h
                simp only [IoResult.ready.injEq] at h
                simp [bytesRead, ← h]
              · intro address ha
                exact storeBytes_below _ _ _ _ ha
              · intro i byte h
                simp only [bytesRead, List.append_nil] at h
                exact storeBytes_at _ _ _ _ _ h

theorem mem_after_read_wait (event first : IoEvent) (run : ReadRun)
    (h : event ∈ (ReadRun.after [first, .onReadable] run).trace) :
    event = first ∨ event = .onReadable ∨ event ∈ run.trace := by
  simpa [ReadRun.after] using h

/-- The arguments of the reads of `tryReadInternal`: buffer position, minimum
and maximum move together with the count of bytes already read. -/
theorem tryReadInternal_arguments (script : List (ReadOutcome × Notification)) :
    ∀ (memory : Nat → Nat) (buffer minBytes maxBytes alreadyRead : Nat)
      (b m x a : Nat) (outcome : ReadOutcome),
      IoEvent.read b m x a outcome ∈
        (UvIoStream.tryReadInternal script memory buffer minBytes maxBytes alreadyRead).trace →
      b + alreadyRead = buffer + a ∧ a + m = alreadyRead + minBytes ∧
        a + x = alreadyRead + maxBytes := by
  induction script with
  | nil =>
      intro memory buffer minBytes maxBytes alreadyRead b m x a outcome h
      simp [UvIoStream.tryReadInternal] at h
  | cons round rest ih =>
      intro memory buffer minBytes maxBytes alreadyRead b m x a outcome h
      obtain ⟨o, wake⟩ := round
      cases o with
      | failed errno =>
          rw [UvIoStream.tryReadInternal] at h
          simp only [List.mem_singleton, IoEvent.read.injEq] at h
          obtain ⟨rfl, rfl, rfl, rfl, _⟩ := h
          omega
      | wouldBlock =>
          rw [UvIoStream.tryReadInternal] at h
          rcases mem_after_read_wait _ _ _ h with h | h | h
          · simp only [IoEvent.read.injEq] at h
            obtain ⟨rfl, rfl, rfl, rfl, _⟩ := h
            omega
          · cases h
          · cases wake with
            | failed description => simp [thenRead] at h
            | fired => exact ih _ _ _ _ _ _ _ _ _ _ h
      | data bytes =>
          have hle := take_length_le bytes maxBytes
          by_cases h0 : (bytes.take maxBytes).length = 0
          · rw [UvIoStream.tryReadInternal, if_pos h0] at h
            simp only [List.mem_singleton, IoEvent.read.injEq] at h
            obtain ⟨rfl, rfl, rfl, rfl, _⟩ := h
            omega
          · by_cases hlt : (bytes.take maxBytes).length < minBytes
            · rw [tryReadInternal_short rest wake memory buffer minBytes maxBytes alreadyRead
                bytes (by omega) hlt] at h
              rcases mem_after_read_wait _ _ _ h with h | h | h
              · simp only [IoEvent.read.injEq] at h
                obtain ⟨rfl, rfl, rfl, rfl, _⟩ := h
                omega
              · cases h
              · cases wake with
                | failed description => simp [thenRead] at h
                | fired =>
                    have := ih _ _ _ _ _ _ _ _ _ _ h
                    omega
            · rw [UvIoStream.tryReadInternal, if_neg h0, if_neg hlt] at h
              simp only [List.mem_singleton, IoEvent.read.injEq] at h
              obtain ⟨rfl, rfl, rfl, rfl, _⟩ := h
              omega

/-- C14: for every script of read outcomes, the total `tryRead` returns is the
number of bytes its reads delivered and is at most `maxBytes`; those bytes lie
in the buffer from its start on, in the order of arrival; every read is made
at the buffer position of the running total, with the minimum and the maximum
reduced by it; and a read that delivers some bytes but leaves the total below
the minimum is followed by a wait for readability and a retry with position,
minimum and maximum advanced by the bytes just read. -/
theorem tryRead_accumulates (script : List (ReadOutcome × Notification)) (memory : Nat → Nat)
    (minBytes maxBytes : Nat) :
    (∀ total, (UvIoStream.tryRead script memory minBytes maxBytes).result = .ready total →
      total = (bytesRead (UvIoStream.tryRead script memory minBytes maxBytes).trace).length ∧
      total ≤ maxBytes) ∧
    (∀ i byte,
      (bytesRead (UvIoStream.tryRead script memory minBytes maxBytes).trace)[i]? = some byte →
      (UvIoStream.tryRead script memory minBytes maxBytes).memory i = byte) ∧
    (∀ buffer minLeft maxLeft alreadyRead outcome,
      IoEvent.read buffer minLeft maxLeft alreadyRead outcome ∈
        (UvIoStream.tryRead script memory minBytes maxBytes).trace →
      buffer = alreadyRead ∧ alreadyRead + minLeft = minBytes ∧
        alreadyRead + maxLeft = maxBytes) ∧
    (∀ (rest : List (ReadOutcome × Notification)) (wake : Notification) (memory2 : Nat → Nat)
      (buffer minLeft maxLeft alreadyRead : Nat) (bytes : List Nat),
      0 < (bytes.take maxLeft).length → (bytes.take maxLeft).length < minLeft →
      UvIoStream.tryReadInternal ((.data bytes, wake) :: rest) memory2 buffer minLeft maxLeft
          alreadyRead =
        ReadRun.after [.read buffer minLeft maxLeft alreadyRead (.data bytes), .onReadable]
          (thenRead wake (storeBytes memory2 buffer (bytes.take maxLeft))
            (UvIoStream.tryReadInternal rest (storeBytes memory2 buffer (bytes.take maxLeft))
              (buffer + (bytes.take maxLeft).length) (minLeft - (bytes.take maxLeft).length)
              (maxLeft - (bytes.take maxLeft).length)
              (alreadyRead + (bytes.take maxLeft).length)))) := by
  obtain ⟨h1, h2, _, h4⟩ := tryReadInternal_spec script memory 0 minBytes maxBytes 0
  refine ⟨?_, ?_, ?_, ?_⟩
  · intro total h
    have := h1 total h
    simp only [UvIoStream.tryRead]
    omega
  · intro i byte h
    have := h4 i byte h
    simpa [UvIoStream.tryRead] using this
  · intro buffer minLeft maxLeft alreadyRead outcome h
    have := tryReadInternal_arguments script memory 0 minBytes maxBytes 0 _ _ _ _ _ h
    omega
  · intro rest wake memory2 buffer minLeft maxLeft alreadyRead bytes hpos hlt
    exact tryReadInternal_short rest wake memory2 buffer minLeft maxLeft alreadyRead bytes
      hpos hlt

/-! ## End of stream: theorems -/

/-- A total below the minimum comes from a last read that delivered no bytes. -/
theorem tryReadInternal_short_total (script : List (ReadOutcome × Notification)) :
    ∀ (memory : Nat → Nat) (buffer minBytes maxBytes alreadyRead total : Nat),
      (UvIoStream.tryReadInternal script memory buffer minBytes maxBytes alreadyRead).result =
        .ready total →
      total < alreadyRead + minBytes →
      ∃ front b m x a bytes,
        (UvIoStream.tryReadInternal script memory buffer minBytes maxBytes alreadyRead).trace =
          front ++ [.read b m x a (.data bytes)] ∧ bytes.take x = [] ∧ total = a := by
  induction script with
  | nil =>
      intro memory buffer minBytes maxBytes alreadyRead total h
      simp [UvIoStream.tryReadInternal] at h
  | cons round rest ih =>
      intro memory buffer minBytes maxBytes alreadyRead total h hshort
      obtain ⟨o, wake⟩ := round
      cases o with
      | failed errno => simp [UvIoStream.tryReadInternal] at h
      | wouldBlock =>
          rw [UvIoStream.tryReadInternal] at h ⊢
          rw [after_result] at h
          cases wake with
          | failed description => simp [thenRead] at h
          | fired =>
              obtain ⟨front, b, m, x, a, bytes, ht, hb⟩ := ih _ _ _ _ _ _ h hshort
              refine ⟨[.read buffer minBytes maxBytes alreadyRead .wouldBlock, .onReadable]
                ++ front, b, m, x, a, bytes, ?_, hb⟩
              simp only [thenRead, ReadRun.after, ht, List.append_assoc]
      | data bytes =>
          by_cases h0 : (bytes.take maxBytes).length = 0
          · rw [UvIoStream.tryReadInternal, if_pos h0] at h ⊢
            simp only [IoResult.ready.injEq] at h
            exact ⟨[], buffer, minBytes, maxBytes, alreadyRead, bytes, rfl,
              List.length_eq_zero.1 h0, h.symm⟩
          · by_cases hlt : (bytes.take maxBytes).length < minBytes
            · rw [tryReadInternal_short rest wake memory buffer minBytes maxBytes alreadyRead
                bytes (by omega) hlt] at h ⊢
              rw [after_result] at h
              cases wake with
              | failed description => simp [thenRead] at h
              | fired =>
                  obtain ⟨front, b, m, x, a, bytes2, ht, hb⟩ := ih _ _ _ _ _ _ h (by omega)
                  refine ⟨[.read buffer minBytes maxBytes alreadyRead (.data bytes), .onReadable]
                    ++ front, b, m, x, a, bytes2, ?_, hb⟩
                  simp only [thenRead, ReadRun.after, ht, List.append_assoc]
            · rw [UvIoStream.tryReadInternal, if_neg h0, if_neg hlt] at h
              simp only [IoResult.ready.injEq] at h
              omega

/-- C15 (amended): `tryRead` returns a total smaller than `minBytes` only if
the last read it made delivered zero bytes, whether that read was the first
one, made at once, or one made after a wait for readability; a read that
delivered bytes never ends the operation below the minimum. -/
theorem tryRead_short_only_after_empty_read (script : List (ReadOutcome × Notification))
    (memory : Nat → Nat) (minBytes maxBytes total : Nat)
    (h : (UvIoStream.tryRead script memory minBytes maxBytes).result = .ready total)
    (hshort : total < minBytes) :
    ∃ front buffer minLeft maxLeft alreadyRead bytes,
      (UvIoStream.tryRead script memory minBytes maxBytes).trace =
        front ++ [.read buffer minLeft maxLeft alreadyRead (.data bytes)] ∧
      bytes.take maxLeft = [] ∧ total = alreadyRead := by
  obtain ⟨front, b, m, x, a, bytes, ht, hb⟩ :=
    tryReadInternal_short_total script memory 0 minBytes maxBytes 0 total h (by omega)
  exact ⟨front, b, m, x, a, bytes, ht, hb⟩

/-- Witness of C15: two bytes arrive, then the stream ends; four were asked for. -/
theorem tryRead_short_only_after_empty_read_witness :
    (UvIoStream.tryRead [(.data [1, 2], .fired), (.data [], .fired)] (fun _ => 0) 4 6).result =
      .ready 2 ∧
    ∃ front buffer minLeft maxLeft alreadyRead bytes,
      (UvIoStream.tryRead [(.data [1, 2], .fired), (.data [], .fired)] (fun _ => 0) 4 6).trace =
        front ++ [.read buffer minLeft maxLeft alreadyRead (.data bytes)] ∧
      bytes.take maxLeft = [] ∧ 2 = alreadyRead :=
  ⟨rfl, tryRead_short_only_after_empty_read [(.data [1, 2], .fired), (.data [], .fired)]
    (fun _ => 0) 4 6 2 rfl (by decide)⟩

/-- C15 fails as stated: when the first read, which `tryRead` makes at once,
delivers zero bytes, `tryRead` returns 0 although one byte was asked for; no
wait for readability was registered, and `read` reports "Premature EOF". -/
theorem eof_on_first_read :
    (UvIoStream.tryRead [(.data [], .fired)] (fun _ => 0) 1 1).result = .ready 0 ∧
    (UvIoStream.tryRead [(.data [], .fired)] (fun _ => 0) 1 1).trace =
      [.read 0 1 1 0 (.data [])] ∧
    IoEvent.onReadable ∉ (UvIoStream.tryRead [(.data [], .fired)] (fun _ => 0) 1 1).trace ∧
    (UvIoStream.read [(.data [], .fired)] (fun _ => 0) 1 1).result =
      .failed (.require "Premature EOF") := by
  decide

/-! ## `accept`: theorems -/

theorem accept_skipped_step (outcome : AcceptOutcome) (wake : Notification)
    (rest : List (AcceptOutcome × Notification)) (h : outcome.skipped = true)
    (hw : wake = .fired) :
    UvConnectionReceiver.accept ((outcome, wake) :: rest) =
      IoRun.after (skippedEvents [(outcome, wake)]) (UvConnectionReceiver.accept rest) := by
  subst hw
  simp only [AcceptOutcome.skipped, Bool.and_eq_true, decide_eq_true_eq, Bool.or_eq_true] at h
  obtain ⟨hneg, herr⟩ := h
  rw [UvConnectionReceiver.accept, if_neg (by omega)]
  by_cases hag : outcome.errno = EAGAIN ∨ outcome.errno = EWOULDBLOCK
  · rw [if_pos hag]
    simp [skippedEvents, hag, thenAfter]
  · rw [if_neg hag]
    have hr : acceptRetriesAtOnce outcome.errno = true := by
      rcases herr with (h1 | h1) | h1
      · exact absurd (Or.inl h1) hag
      · exact absurd (Or.inr h1) hag
      · exact h1
    rw [if_pos hr]
    simp [skippedEvents, hag]

theorem accept_first_kept (outcome : AcceptOutcome) (wake : Notification)
    (rest : List (AcceptOutcome × Notification)) (h : outcome.skipped = false) :
    UvConnectionReceiver.accept ((outcome, wake) :: rest) =
      { result :=
          if 0 ≤ outcome.newFd then .ready { fd := outcome.newFd, flags := NEW_FD_FLAGS }
          else .failed (.syscall "accept" outcome.errno),
        trace := [.accept outcome] } := by
  rw [UvConnectionReceiver.accept]
  by_cases hfd : 0 ≤ outcome.newFd
  · simp [hfd]
  · have hneg : outcome.newFd < 0 := by omega
    simp only [AcceptOutcome.skipped, hneg, decide_True, Bool.true_and, Bool.or_eq_false_iff,
      decide_eq_false_iff_not] at h
    obtain ⟨⟨h1, h2⟩, h3⟩ := h
    have h12 : ¬ (outcome.errno = EAGAIN ∨ outcome.errno = EWOULDBLOCK) := by
      rintro (e | e)
      · exact h1 e
      · exact h2 e
    simp [hfd, h12, h3]

/-- C16: for a script that begins with skipped outcomes (errors retried at
once, and `EAGAIN` / `EWOULDBLOCK`, whose wait for readability fires) followed
by an outcome that is not skipped, `accept` makes the skipped calls, waiting
for readability after each `EAGAIN` / `EWOULDBLOCK` only, and ends at the
first outcome not skipped: with a stream wrapping its descriptor if that is
not negative, and otherwise with the failure of `accept` reporting its error
number; so it fails if and only if that outcome is an error.  While only
skipped outcomes have occurred it has neither returned nor failed. -/
theorem accept_skips_transient_errors (front rest : List (AcceptOutcome × Notification))
    (outcome : AcceptOutcome) (wake : Notification)
    (hfront : ∀ round ∈ front, round.1.skipped = true ∧ round.2 = .fired)
    (hkept : outcome.skipped = false) :
    UvConnectionReceiver.accept (front ++ (outcome, wake) :: rest) =
      { result :=
          if 0 ≤ outcome.newFd then .ready { fd := outcome.newFd, flags := NEW_FD_FLAGS }
          else .failed (.syscall "accept" outcome.errno),
        trace := skippedEvents front ++ [.accept outcome] } ∧
    ((∃ error, (UvConnectionReceiver.accept (front ++ (outcome, wake) :: rest)).result =
        .failed error) ↔ outcome.newFd < 0) ∧
    (UvConnectionReceiver.accept front).result = .pending := by
  have hmain : UvConnectionReceiver.accept (front ++ (outcome, wake) :: rest) =
      { result :=
          if 0 ≤ outcome.newFd then .ready { fd := outcome.newFd, flags := NEW_FD_FLAGS }
          else .failed (.syscall "accept" outcome.errno),
        trace := skippedEvents front ++ [.accept outcome] } := by
    induction front with
    | nil => exact accept_first_kept outcome wake rest hkept
    | cons round more ih =>
        obtain ⟨o, w⟩ := round
        have hr := hfront (o, w) (List.mem_cons_self _ _)
        rw [List.cons_append, accept_skipped_step o w _ hr.1 hr.2,
          ih (fun r hm => hfront r (List.mem_cons_of_mem _ hm))]
        by_cases hag : o.errno = EAGAIN ∨ o.errno = EWOULDBLOCK <;>
          simp [IoRun.after, skippedEvents, hag]
  have hpending : (UvConnectionReceiver.accept front).result = .pending := by
    clear hmain
    induction front with
    | nil => rfl
    | cons round more ih =>
        obtain ⟨o, w⟩ := round
        have hr := hfront (o, w) (List.mem_cons_self _ _)
        rw [accept_skipped_step o w _ hr.1 hr.2]
        exact ih (fun r hm => hfront r (List.mem_cons_of_mem _ hm))
  refine ⟨hmain, ?_, hpending⟩
  rw [hmain]
  constructor
  · rintro ⟨error, he⟩
    by_contra hfd
    rw [if_pos (by omega)] at he
    cases he
  · intro hneg
    exact ⟨_, by rw [if_neg (by omega)]⟩

/-- Witness of C16: an interrupted call, a call that would block, an aborted
connection, and then a failure with `EMFILE` (24). -/
theorem accept_skips_transient_errors_witness :
    UvConnectionReceiver.accept
        ([({ newFd := -1, errno := EINTR }, .fired), ({ newFd := -1, errno := EAGAIN }, .fired),
          ({ newFd := -1, errno := ECONNABORTED }, .fired)] ++
          ({ newFd := -1, errno := 24 }, .fired) :: [({ newFd := 9, errno := 0 }, .fired)]) =
      { result := .failed (.syscall "accept" 24),
        trace := [.accept { newFd := -1, errno := EINTR }, .accept { newFd := -1, errno := EAGAIN },
          .onReadable, .accept { newFd := -1, errno := ECONNABORTED },
          .accept { newFd := -1, errno := 24 }] } :=
  (accept_skips_transient_errors
    [({ newFd := -1, errno := EINTR }, .fired), ({ newFd := -1, errno := EAGAIN }, .fired),
      ({ newFd := -1, errno := ECONNABORTED }, .fired)]
    [({ newFd := 9, errno := 0 }, .fired)] { newFd := -1, errno := 24 } .fired
    (by decide) (by decide)).1

/-! ## Enums: theorems -/

/-- The ENUM case of `orphanFromJs`. -/
theorem orphanFromJs_enum_eq (H : Host) (env : SchemaEnv) (field : Field) (typeId : Nat)
    (js : JsValue) (thrown : Thrown) :
    orphanFromJs H env field (.ENUM typeId) js thrown =
      match getEnum env typeId with
      | .error e => { thrown := thrown, result := .error e }
      | .ok enumerants =>
          match findEnumerantByName enumerants (ToString H js) with
          | some ordinal => { thrown := thrown, result := .ok (.ENUM typeId ordinal) }
          | none =>
              if IsUint32 js then
                { thrown := thrown, result := .ok (.ENUM typeId (Uint32Value H js % 2 ^ 16)) }
              else typeErrorInField field thrown := by
  cases js <;> rfl

theorem findEnumerantByName_some :
    ∀ (enumerants : List String) (name : String) (ordinal : Nat),
      findEnumerantByName enumerants name = some ordinal → enumerants[ordinal]? = some name
  | [], _, _, h => by simp [findEnumerantByName] at h
  | e :: rest, name, ordinal, h => by
      by_cases he : e = name
      · simp only [findEnumerantByName, he, if_true, Option.some.injEq] at h
        subst h
        simp [he]
      · cases hr : findEnumerantByName rest name with
        | none => simp [findEnumerantByName, he, hr] at h
        | some i =>
            simp only [findEnumerantByName, he, if_false, hr] at h
            have h2 : i + 1 = ordinal := Option.some.inj h
            subst h2
            simpa using findEnumerantByName_some rest name i hr

theorem findEnumerantByName_none :
    ∀ (enumerants : List String) (name : String),
      findEnumerantByName enumerants name = none ↔ name ∉ enumerants
  | [], _ => by simp [findEnumerantByName]
  | e :: rest, name => by
      by_cases he : e = name
      · simp [findEnumerantByName, he]
      · have hne : ¬ name = e := fun h => he h.symm
        simp [findEnumerantByName, he, hne, findEnumerantByName_none rest name]

theorem Uint32Value_nat (H : Host) (k : Nat) (h : k < 2 ^ 32) :
    Uint32Value H (.number (.finite k 0)) = k := by
  have h1 : ((k : Int) % (2 ^ 32 : Int)).toNat = k := by
    rw [Int.emod_eq_of_lt (by omega) (by omega)]
    simp
  simpa [Uint32Value, ToNumber, ToInteger, JsNumber.trunc] using h1

theorem IsUint32_nat (k : Nat) (h : k < 2 ^ 32) : IsUint32 (.number (.finite k 0)) = true := by
  simp [IsUint32, JsNumber.trunc]
  omega

theorem ToString_integer (H : Host) (m : Int) (h : -(10 ^ 21 : Int) < m ∧ m < 10 ^ 21) :
    ToString H (.number (.finite m 0)) = toString m := by
  simp only [ToString, h, and_self, if_true]

theorem ToString_nat (H : Host) (k : Nat) (hlt : k < 2 ^ 32) :
    ToString H (.number (.finite k 0)) = toString k := by
  have hpow : (10 : Int) ^ 21 = 1000000000000000000000 := by norm_num
  have h21 : -(10 ^ 21 : Int) < (k : Int) ∧ (k : Int) < 10 ^ 21 := by
    rw [hpow]
    constructor <;> omega
  rw [ToString_integer H k h21]
  rfl

/-- The ENUM case of `orphanFromJs` for a host value that names no enumerant
and is an unsigned integer below 2^16. -/
theorem orphanFromJs_enum_ordinal (H : Host) (env : SchemaEnv) (field : Field) (typeId : Nat)
    (enumerants : List String) (js : JsValue) (thrown : Thrown)
    (henum : getEnum env typeId = .ok enumerants) (hnone : ToString H js ∉ enumerants)
    (hu : IsUint32 js = true) (hlt : Uint32Value H js < 2 ^ 16) :
    orphanFromJs H env field (.ENUM typeId) js thrown =
      { thrown := thrown, result := .ok (.ENUM typeId (Uint32Value H js)) } := by
  rw [orphanFromJs_enum_eq, henum]
  simp only [(findEnumerantByName_none enumerants _).2 hnone, hu, if_true,
    Nat.mod_eq_of_lt hlt]

/-- The ENUM case of `orphanFromJs` for a host number below 2^16 whose decimal
form names no enumerant. -/
theorem orphanFromJs_enum_number (H : Host) (env : SchemaEnv) (field : Field) (typeId : Nat)
    (enumerants : List String) (k : Nat) (thrown : Thrown)
    (henum : getEnum env typeId = .ok enumerants) (hnone : toString k ∉ enumerants)
    (hlt : k < 2 ^ 16) :
    orphanFromJs H env field (.ENUM typeId) (.number (.finite k 0)) thrown =
      { thrown := thrown, result := .ok (.ENUM typeId k) } := by
  have hk32 : k < 2 ^ 32 := by omega
  have hts := ToString_nat H k hk32
  have := orphanFromJs_enum_ordinal H env field typeId enumerants (.number (.finite k 0))
    thrown henum (by rw [hts]; exact hnone) (IsUint32_nat k hk32)
    (by rw [Uint32Value_nat H k hk32]; exact hlt)
  rw [this, Uint32Value_nat H k hk32]

/-- C19 (amended): for an enum-typed field whose type id names an enum schema,
`orphanFromJs` looks the string form of the host value up among the names of
the enumerants and, when it is found, yields that enumerant; when no name
matches and the host value is an unsigned integer below 2^16 it yields that
number as the raw ordinal; and when no name matches and the host value is not
an unsigned 32-bit integer it raises the type error naming the field and
returns a null orphan. -/
theorem enum_encoding_by_name_or_ordinal (H : Host) (env : SchemaEnv) (field : Field)
    (typeId : Nat) (enumerants : List String) (js : JsValue) (thrown : Thrown)
    (henum : getEnum env typeId = .ok enumerants) :
    (∀ ordinal, findEnumerantByName enumerants (ToString H js) = some ordinal →
      orphanFromJs H env field (.ENUM typeId) js thrown =
        { thrown := thrown, result := .ok (.ENUM typeId ordinal) } ∧
      enumerants[ordinal]? = some (ToString H js)) ∧
    (ToString H js ∉ enumerants → IsUint32 js = true → Uint32Value H js < 2 ^ 16 →
      orphanFromJs H env field (.ENUM typeId) js thrown =
        { thrown := thrown, result := .ok (.ENUM typeId (Uint32Value H js)) }) ∧
    (∀ k : Nat, js = .number (.finite k 0) → toString k ∉ enumerants → k < 2 ^ 16 →
      orphanFromJs H env field (.ENUM typeId) js thrown =
        { thrown := thrown, result := .ok (.ENUM typeId k) }) ∧
    (ToString H js ∉ enumerants → IsUint32 js = false →
      orphanFromJs H env field (.ENUM typeId) js thrown =
        { thrown := thrown ++ [.TypeError ("Type error in field: " ++ field.name)],
          result := .ok .UNKNOWN }) := by
  refine ⟨?_, ?_, ?_, ?_⟩
  · intro ordinal hfind
    refine ⟨?_, findEnumerantByName_some enumerants _ ordinal hfind⟩
    rw [orphanFromJs_enum_eq, henum]
    simp only [hfind]
  · intro hnone hu hlt
    exact orphanFromJs_enum_ordinal H env field typeId enumerants js thrown henum hnone hu hlt
  · intro k hjs hnone hlt
    subst hjs
    exact orphanFromJs_enum_number H env field typeId enumerants k thrown henum hnone hlt
  · intro hnone hu
    rw [orphanFromJs_enum_eq, henum]
    simp only [(findEnumerantByName_none enumerants _).2 hnone, hu, Bool.false_eq_true,
      if_false, typeErrorInField]

/-- Witness of C19 on the sample enum `Color`: the name `green`. -/
theorem enum_encoding_by_name_or_ordinal_witness :
    getEnum sampleEnv 2 = .ok ["red", "green"] ∧
    orphanFromJs Host.sample sampleEnv
        { name := "color", proto := .SLOT (.ENUM 2), discriminantValue := none } (.ENUM 2)
        (.string "green") [] =
      { thrown := [], result := .ok (.ENUM 2 1) } ∧
    ["red", "green"][1]? = some (ToString Host.sample (.string "green")) :=
  ⟨rfl, (enum_encoding_by_name_or_ordinal Host.sample sampleEnv
    { name := "color", proto := .SLOT (.ENUM 2), discriminantValue := none } 2
    ["red", "green"] (.string "green") [] rfl).1 1 rfl⟩

/-- C19 fails as stated: the host number 65537 is an unsigned 32-bit integer
and names no enumerant of `Color`, yet the raw ordinal `orphanFromJs` yields
is 1, not 65537, and it decodes to the name `green`. -/
theorem enum_ordinal_not_the_number :
    getEnum sampleEnv 2 = .ok ["red", "green"] ∧
    findEnumerantByName ["red", "green"]
      (ToString Host.sample (.number (.finite 65537 0))) = none ∧
    IsUint32 (.number (.finite 65537 0)) = true ∧
    orphanFromJs Host.sample sampleEnv
        { name := "color", proto := .SLOT (.ENUM 2), discriminantValue := none } (.ENUM 2)
        (.number (.finite 65537 0)) [] =
      { thrown := [], result := .ok (.ENUM 2 1) } ∧
    valueToJs sampleEnv 0 (.ENUM 2 1) .ENUM = .done (.string "green") := by
  refine ⟨rfl, ?_, ?_, ?_, rfl⟩
  · decide
  · decide
  · rfl

theorem digitChar_isDigit (d : Nat) (h : d < 10) : (Nat.digitChar d).isDigit = true := by
  interval_cases d <;> rfl

theorem toDigitsCore_head (fuel : Nat) :
    ∀ (n : Nat) (ds : List Char), (∃ c rest, ds = c :: rest ∧ c.isDigit = true) →
      ∃ c rest, Nat.toDigitsCore 10 fuel n ds = c :: rest ∧ c.isDigit = true := by
  induction fuel with
  | zero =>
      intro n ds h
      simpa [Nat.toDigitsCore] using h
  | succ fuel ih =>
      intro n ds _
      have hd := digitChar_isDigit (n % 10) (Nat.mod_lt _ (by decide))
      simp only [Nat.toDigitsCore]
      split
      · exact ⟨_, _, rfl, hd⟩
      · exact ih _ _ ⟨_, _, rfl, hd⟩

/-- The decimal form of a number starts with a digit. -/
theorem toString_head_digit (k : Nat) :
    ∃ c rest, (toString k).data = c :: rest ∧ c.isDigit = true := by
  have h : (toString k).data = Nat.toDigitsCore 10 (k + 1) k [] := rfl
  rw [h]
  have hd := digitChar_isDigit (k % 10) (Nat.mod_lt _ (by decide))
  simp only [Nat.toDigitsCore]
  split
  · exact ⟨_, _, rfl, hd⟩
  · exact toDigitsCore_head _ _ _ ⟨_, _, rfl, hd⟩

theorem toString_not_identifier (enumerants : List String) (h : identifierNames enumerants)
    (k : Nat) : toString k ∉ enumerants := by
  intro hmem
  obtain ⟨c, rest, hdata, hdigit⟩ := toString_head_digit k
  have := h (toString k) hmem c (by simp [hdata])
  rw [hdigit] at this
  cases this

theorem sampleColor_identifiers : identifierNames ["red", "green"] := by
  intro name hmem c hc
  simp only [List.mem_cons, List.mem_singleton, List.not_mem_nil, or_false] at hmem
  rcases hmem with rfl | rfl
  · simp at hc
    subst hc
    rfl
  · simp at hc
    subst hc
    rfl

/-- C20: `valueToJs` of an enum value returns the name of the enumerant at the
raw ordinal when there is one, and the raw ordinal as a number otherwise; so
for an enum schema (whose names are identifiers) the encoding of a name of an
enumerant decodes to that name, and the encoding of a number below 2^16 that
is the ordinal of no enumerant decodes to that number. -/
theorem enum_decode_round_trip (H : Host) (env : SchemaEnv) (field : Field) (typeId : Nat)
    (enumerants : List String) (thrown : Thrown) (fuel : Nat) (whichType : Which)
    (henum : getEnum env typeId = .ok enumerants) (hid : identifierNames enumerants) :
    (∀ raw name, enumerants[raw]? = some name →
      valueToJs env fuel (.ENUM typeId raw) whichType = .done (.string name)) ∧
    (∀ raw, enumerants[raw]? = none →
      valueToJs env fuel (.ENUM typeId raw) whichType = .done (.number (.finite raw 0))) ∧
    (∀ name ∈ enumerants, ∃ ordinal,
      orphanFromJs H env field (.ENUM typeId) (.string name) thrown =
        { thrown := thrown, result := .ok (.ENUM typeId ordinal) } ∧
      storeValue H (.ENUM typeId) (.ENUM typeId ordinal) = .ok (.ENUM typeId ordinal) ∧
      valueToJs env fuel (.ENUM typeId ordinal) whichType = .done (.string name)) ∧
    (∀ k : Nat, k < 2 ^ 16 → enumerants[k]? = none →
      orphanFromJs H env field (.ENUM typeId) (.number (.finite k 0)) thrown =
        { thrown := thrown, result := .ok (.ENUM typeId k) } ∧
      storeValue H (.ENUM typeId) (.ENUM typeId k) = .ok (.ENUM typeId k) ∧
      valueToJs env fuel (.ENUM typeId k) whichType = .done (.number (.finite k 0))) := by
  have hof := getEnum_enumerantsOf env typeId enumerants henum
  have hsome : ∀ raw name, enumerants[raw]? = some name →
      valueToJs env fuel (.ENUM typeId raw) whichType = .done (.string name) := by
    intro raw name h
    cases fuel <;> simp [valueToJs, getEnumerant, hof, h]
  have hnone : ∀ raw, enumerants[raw]? = none →
      valueToJs env fuel (.ENUM typeId raw) whichType = .done (.number (.finite raw 0)) := by
    intro raw h
    cases fuel <;> simp [valueToJs, getEnumerant, hof, h]
  refine ⟨hsome, hnone, ?_, ?_⟩
  · intro name hmem
    obtain ⟨i, hi, hget⟩ := findEnumerantByName_mem enumerants name hmem
    exact ⟨i, orphanFromJs_enum_name H env field typeId enumerants name i thrown henum hi,
      by simp [storeValue], hsome i name hget⟩
  · intro k hk hno
    have horphan := orphanFromJs_enum_number H env field typeId enumerants k thrown henum
      (toString_not_identifier enumerants hid k) hk
    exact ⟨horphan, by simp [storeValue], hnone k hno⟩

/-- Witness of C20 on the sample enum `Color`: the name `green` and the number 5. -/
theorem enum_decode_round_trip_witness :
    getEnum sampleEnv 2 = .ok ["red", "green"] ∧ identifierNames ["red", "green"] ∧
    (∃ ordinal,
      orphanFromJs Host.sample sampleEnv
          { name := "color", proto := .SLOT (.ENUM 2), discriminantValue := none } (.ENUM 2)
          (.string "green") [] =
        { thrown := [], result := .ok (.ENUM 2 ordinal) } ∧
      storeValue Host.sample (.ENUM 2) (.ENUM 2 ordinal) = .ok (.ENUM 2 ordinal) ∧
      valueToJs sampleEnv 0 (.ENUM 2 ordinal) .ENUM = .done (.string "green")) ∧
    valueToJs sampleEnv 0 (.ENUM 2 5) .ENUM = .done (.number (.finite 5 0)) :=
  ⟨rfl, sampleColor_identifiers,
    (enum_decode_round_trip Host.sample sampleEnv
      { name := "color", proto := .SLOT (.ENUM 2), discriminantValue := none } 2
      ["red", "green"] [] 0 .ENUM rfl sampleColor_identifiers).2.2.1 "green" (by decide),
    ((enum_decode_round_trip Host.sample sampleEnv
      { name := "color", proto := .SLOT (.ENUM 2), discriminantValue := none } 2
      ["red", "green"] [] 0 .ENUM rfl sampleColor_identifiers).2.2.2 5 (by decide) rfl).2.2⟩

/-! ## `toJsException`: theorems -/

/-- C27: `toJsException` gives the natures PRECONDITION, LOCAL_BUG, OS_ERROR,
NETWORK_FAILURE and OTHER the names `precondition`, `localBug`, `osError`,
`networkFailure` and `other`, and the durabilities PERMANENT, TEMPORARY and
OVERLOADED the names `permanent`, `temporary` and `overloaded`; the names are
never `unknown`, different natures and different durabilities get different
names, and the description, the file and the line are those of the
exception. -/
theorem toJsException_names (exception : Exception) :
    ∃ nature durability,
      toJsException exception =
        .fromKj exception.description exception.file exception.line nature durability ∧
      (exception.nature = .PRECONDITION → nature = "precondition") ∧
      (exception.nature = .LOCAL_BUG → nature = "localBug") ∧
      (exception.nature = .OS_ERROR → nature = "osError") ∧
      (exception.nature = .NETWORK_FAILURE → nature = "networkFailure") ∧
      (exception.nature = .OTHER → nature = "other") ∧
      (exception.durability = .PERMANENT → durability = "permanent") ∧
      (exception.durability = .TEMPORARY → durability = "temporary") ∧
      (exception.durability = .OVERLOADED → durability = "overloaded") ∧
      nature ≠ "unknown" ∧ durability ≠ "unknown" ∧
      ∀ (other : Exception) (nature2 durability2 : String),
        toJsException other =
          .fromKj other.description other.file other.line nature2 durability2 →
        (nature2 = nature → other.nature = exception.nature) ∧
        (durability2 = durability → other.durability = exception.durability) := by
  have key : ∀ (other : Exception) (nature2 durability2 : String),
      toJsException other =
        .fromKj other.description other.file other.line nature2 durability2 →
      ∀ e2 : Exception, ∀ n d,
        toJsException e2 = .fromKj e2.description e2.file e2.line n d →
        (nature2 = n → other.nature = e2.nature) ∧
        (durability2 = d → other.durability = e2.durability) := by
    rintro ⟨n1, d1, f1, l1, desc1⟩ nature2 durability2 h ⟨n2, d2, f2, l2, desc2⟩ n d h2
    simp only [toJsException, JsException.fromKj.injEq, true_and] at h h2
    obtain ⟨h1a, h1b⟩ := h
    obtain ⟨h2a, h2b⟩ := h2
    subst h1a h1b h2a h2b
    constructor
    · cases n1 <;> cases n2 <;> simp
    · cases d1 <;> cases d2 <;> simp
  obtain ⟨nature, durability, file, line, description⟩ := exception
  cases nature <;> cases durability <;>
    exact ⟨_, _, rfl, by simp, by simp, by simp, by simp, by simp, by simp, by simp, by simp,
      by simp, by simp, fun other nature2 durability2 h => key other nature2 durability2 h _ _ _ rfl⟩

/-! ## Shape mismatch: theorems -/

theorem setInUnion_typeId (b : Builder) (field : Field) :
    (b.setInUnion field).typeId = b.typeId := by
  unfold Builder.setInUnion
  cases field.discriminantValue <;> rfl

theorem adopt_typeId (H : Host) (b : Builder) (field : Field) (orphan : DynamicValue) :
    (b.adopt H field orphan).1.typeId = b.typeId := by
  unfold Builder.adopt
  cases field.proto with
  | SLOT type =>
      simp only
      cases storeValue H type orphan <;> simp [setInUnion_typeId]
  | GROUP groupId => simp [setInUnion_typeId]

theorem adoptOrphan_typeId (H : Host) (builder : Builder) (field : Field) (r : OrphanResult) :
    (adoptOrphan H builder field r).builder.typeId = builder.typeId := by
  unfold adoptOrphan
  cases r.result with
  | error e => rfl
  | ok orphan =>
      simp only
      split
      · rfl
      · have := adopt_typeId H builder field orphan
        split <;> simp_all

/-- A builder keeps its schema through `fieldFromJs`. -/
theorem fieldFromJs_typeId (H : Host) (env : SchemaEnv) (builder : Builder) (field : Field)
    (js : JsValue) (thrown : Thrown) :
    (fieldFromJs H env builder field js thrown).builder.typeId = builder.typeId := by
  unfold fieldFromJs
  cases field.proto with
  | SLOT type => exact adoptOrphan_typeId H builder field _
  | GROUP groupId =>
      cases js <;> simp only [groupTypeError]
      all_goals
        cases verifySetInUnion builder field <;> simp [groupResult, Builder.putGroup]

/-- The loop of `structFromJs` over `front ++ more`: the keys of `more` are
processed after those of `front`, unless the loop ended among the keys of
`front`. -/
theorem structFromJs_append (H : Host) (env : SchemaEnv) (more : List (String × JsValue)) :
    ∀ (front : List (String × JsValue)) (builder : Builder) (thrown : Thrown),
      structFromJs H env builder (front ++ more) thrown =
        match (structFromJs H env builder front thrown).result with
        | .ok true =>
            structFromJs H env (structFromJs H env builder front thrown).builder more
              (structFromJs H env builder front thrown).thrown
        | _ => structFromJs H env builder front thrown
  | [], builder, thrown => by
      rw [List.nil_append]
      have h : structFromJs H env builder [] thrown =
          { builder := builder, thrown := thrown, result := .ok true } := by
        rw [structFromJs]
      rw [h]
  | (key, value) :: rest, builder, thrown => by
      rw [List.cons_append, structFromJs_cons, structFromJs_cons]
      cases hfind : findFieldByName (schemaFields env builder.typeId) key with
      | none => simp [noFieldNamed]
      | some field =>
          simp only [thenNextKey]
          cases hr : (fieldFromJs H env builder field value thrown).result with
          | error e => simp [hr]
          | ok flag =>
              simp only
              exact structFromJs_append H env more rest _ _

/-- A builder keeps its schema through `structFromJs`. -/
theorem structFromJs_typeId (H : Host) (env : SchemaEnv) :
    ∀ (props : List (String × JsValue)) (builder : Builder) (thrown : Thrown),
      (structFromJs H env builder props thrown).builder.typeId = builder.typeId
  | [], builder, thrown => by rw [structFromJs]
  | (key, value) :: rest, builder, thrown => by
      rw [structFromJs_cons]
      cases hfind : findFieldByName (schemaFields env builder.typeId) key with
      | none => rfl
      | some field =>
          simp only [thenNextKey]
          cases hr : (fieldFromJs H env builder field value thrown).result with
          | error e => exact fieldFromJs_typeId H env builder field value thrown
          | ok flag =>
              simp only
              rw [structFromJs_typeId H env rest _ _]
              exact fieldFromJs_typeId H env builder field value thrown

/-- C24: `fromJs` on a host value that is neither an array nor an object
raises the type error "fromJs() requires an array or an object." and leaves
the builder as it was; `structFromJs`, on a key that names no field of the
schema, raises "No field named: " followed by the key, returns false and
leaves the builder as the earlier keys left it, whatever keys follow. -/
theorem shape_mismatch_reported (H : Host) (env : SchemaEnv) (builder : Builder)
    (key : String) (value : JsValue) (rest : List (String × JsValue))
    (hfind : findFieldByName (schemaFields env builder.typeId) key = none) :
    (∀ js, IsArray js = false → IsObject js = false →
      fromJs H env builder js =
        { builder := builder,
          thrown := [.TypeError "fromJs() requires an array or an object."] }) ∧
    (∀ thrown, structFromJs H env builder ((key, value) :: rest) thrown =
      { builder := builder, thrown := thrown ++ [.TypeError ("No field named: " ++ key)],
        result := .ok false }) ∧
    (∀ (front : List (String × JsValue)) (thrown : Thrown),
      (structFromJs H env builder front thrown).result = .ok true →
      structFromJs H env builder (front ++ (key, value) :: rest) thrown =
        { builder := (structFromJs H env builder front thrown).builder,
          thrown := (structFromJs H env builder front thrown).thrown ++
            [.TypeError ("No field named: " ++ key)],
          result := .ok false }) := by
  refine ⟨?_, ?_, ?_⟩
  · intro js ha ho
    cases js <;> simp [IsArray, IsObject] at ha ho <;> rfl
  · intro thrown
    rw [structFromJs_cons, hfind]
    rfl
  · intro front thrown hok
    rw [structFromJs_append, hok]
    simp only
    rw [structFromJs_cons, structFromJs_typeId, hfind]
    rfl

/-- Witness of C24: the `Point` schema has no field `z`. -/
theorem shape_mismatch_reported_witness :
    findFieldByName (schemaFields sampleEnv (Builder.fresh 1).typeId) "z" = none ∧
    structFromJs Host.sample sampleEnv (Builder.fresh 1)
        ([("a", .number (.finite 7 0))] ++ ("z", .null) :: [("x", .number (.finite 1 0))]) [] =
      { builder := { typeId := 1, discriminant := 0, slots := [("a", .INT 7)] },
        thrown := [] ++ [.TypeError ("No field named: " ++ "z")],
        result := .ok false } :=
  ⟨rfl, (shape_mismatch_reported Host.sample sampleEnv (Builder.fresh 1) "z" .null
    [("x", .number (.finite 1 0))] rfl).2.2 [("a", .number (.finite 7 0))] [] rfl⟩

/-! ## Argument-list mode: theorems -/

theorem fromJsArguments_cons (H : Host) (env : SchemaEnv) (builder : Builder) (field : Field)
    (fields : List Field) (js : JsValue) (rest : List JsValue) (thrown : Thrown) :
    fromJsArguments H env builder (field :: fields) (js :: rest) thrown =
      match (fieldFromJs H env builder field js thrown).result with
      | .ok true =>
          fromJsArguments H env (fieldFromJs H env builder field js thrown).builder fields rest
            (fieldFromJs H env builder field js thrown).thrown
      | _ => fieldFromJs H env builder field js thrown := by
  rw [fromJsArguments]

theorem fromJsArguments_nil_fields (H : Host) (env : SchemaEnv) (builder : Builder)
    (elems : List JsValue) (thrown : Thrown) :
    fromJsArguments H env builder [] elems thrown =
      { builder := builder, thrown := thrown, result := .ok true } := by
  rw [fromJsArguments]
  intro field fields js rest h
  cases h

theorem fromJsArguments_nil_elems (H : Host) (env : SchemaEnv) (builder : Builder)
    (fields : List Field) (thrown : Thrown) :
    fromJsArguments H env builder fields [] thrown =
      { builder := builder, thrown := thrown, result := .ok true } := by
  rw [fromJsArguments]
  intro field fields js rest _ h
  cases h

/-- The loop of `fromJs` over `k` fields and `k` elements followed by more of
each: the later pairs are processed after the first `k`, unless one of those
ended the loop. -/
theorem fromJsArguments_append (H : Host) (env : SchemaEnv) (fields : List Field)
    (elems : List JsValue) :
    ∀ (fieldsFront : List Field) (elemsFront : List JsValue) (builder : Builder)
      (thrown : Thrown), fieldsFront.length = elemsFront.length →
      fromJsArguments H env builder (fieldsFront ++ fields) (elemsFront ++ elems) thrown =
        match (fromJsArguments H env builder fieldsFront elemsFront thrown).result with
        | .ok true =>
            fromJsArguments H env
              (fromJsArguments H env builder fieldsFront elemsFront thrown).builder fields elems
              (fromJsArguments H env builder fieldsFront elemsFront thrown).thrown
        | _ => fromJsArguments H env builder fieldsFront elemsFront thrown
  | [], [], builder, thrown, _ => by
      rw [fromJsArguments_nil_fields H env builder [] thrown]
      rfl
  | [], _ :: _, _, _, h => by simp at h
  | _ :: _, [], _, _, h => by simp at h
  | field :: fieldsFront, js :: elemsFront, builder, thrown, h => by
      rw [List.cons_append, List.cons_append, fromJsArguments_cons, fromJsArguments_cons]
      cases hr : (fieldFromJs H env builder field js thrown).result with
      | error e => simp [hr]
      | ok flag =>
          cases flag with
          | false => simp [hr]
          | true =>
              simp only
              exact fromJsArguments_append H env fields elems fieldsFront elemsFront _ _
                (by simpa using h)

/-- Only the first `min n m` fields and elements matter to the loop. -/
theorem fromJsArguments_take (H : Host) (env : SchemaEnv) :
    ∀ (fields : List Field) (elems : List JsValue) (builder : Builder) (thrown : Thrown),
      fromJsArguments H env builder fields elems thrown =
        fromJsArguments H env builder (fields.take elems.length) (elems.take fields.length)
          thrown
  | [], elems, builder, thrown => by
      rw [fromJsArguments_nil_fields, List.take_nil, fromJsArguments_nil_fields]
  | field :: fields, [], builder, thrown => by
      rw [fromJsArguments_nil_elems, List.take_nil, fromJsArguments_nil_elems]
  | field :: fields, js :: rest, builder, thrown => by
      simp only [List.length_cons, List.take_succ_cons]
      rw [fromJsArguments_cons, fromJsArguments_cons]
      cases hr : (fieldFromJs H env builder field js thrown).result with
      | error e => rfl
      | ok flag =>
          cases flag with
          | false => rfl
          | true =>
              simp only
              exact fromJsArguments_take H env fields rest _ _

/-- C23: `fromJs` on a host array runs the loop over the fields of the
builder's schema and the elements; only the first `min n m` of each matter, so
elements beyond the fields are ignored and fields beyond the elements are not
touched, and the loop returns true when it runs to its end; element `i` is
converted into field `i` in the state the earlier elements left (when all of
them succeeded), and if that conversion does not return true the loop ends
with what it left, nothing after it being converted. -/
theorem argument_list_mode (H : Host) (env : SchemaEnv) (builder : Builder)
    (fields : List Field) (elems : List JsValue) (thrown : Thrown) :
    fromJs H env builder (.array elems) =
      liftKjStruct (fromJsArguments H env builder (schemaFields env builder.typeId) elems []) ∧
    fromJsArguments H env builder fields elems thrown =
      fromJsArguments H env builder (fields.take (min elems.length fields.length))
        (elems.take (min elems.length fields.length)) thrown ∧
    fromJsArguments H env builder [] elems thrown =
      { builder := builder, thrown := thrown, result := .ok true } ∧
    fromJsArguments H env builder fields [] thrown =
      { builder := builder, thrown := thrown, result := .ok true } ∧
    (∀ i field js, fields[i]? = some field → elems[i]? = some js →
      (fromJsArguments H env builder (fields.take i) (elems.take i) thrown).result = .ok true →
      ((fieldFromJs H env
          (fromJsArguments H env builder (fields.take i) (elems.take i) thrown).builder field js
          (fromJsArguments H env builder (fields.take i) (elems.take i) thrown).thrown).result =
          .ok true →
        fromJsArguments H env builder (fields.take (i + 1)) (elems.take (i + 1)) thrown =
          fieldFromJs H env
            (fromJsArguments H env builder (fields.take i) (elems.take i) thrown).builder field
            js (fromJsArguments H env builder (fields.take i) (elems.take i) thrown).thrown) ∧
      ((fieldFromJs H env
          (fromJsArguments H env builder (fields.take i) (elems.take i) thrown).builder field js
          (fromJsArguments H env builder (fields.take i) (elems.take i) thrown).thrown).result ≠
          .ok true →
        fromJsArguments H env builder fields elems thrown =
          fieldFromJs H env
            (fromJsArguments H env builder (fields.take i) (elems.take i) thrown).builder field
            js (fromJsArguments H env builder (fields.take i) (elems.take i) thrown).thrown)) := by
  refine ⟨rfl, ?_, fromJsArguments_nil_fields H env builder elems thrown,
    fromJsArguments_nil_elems H env builder fields thrown, ?_⟩
  · rw [fromJsArguments_take H env fields elems builder thrown]
    congr 1
    · rw [List.take_eq_take]
      simp only [Nat.min_self, Nat.min_assoc]
    · rw [List.take_eq_take]
      simp only [Nat.min_self, Nat.min_assoc]
      omega
  · intro i field js hf he hok
    have hfl : i < fields.length := (List.getElem?_eq_some_iff.1 hf).1
    have hel : i < elems.length := (List.getElem?_eq_some_iff.1 he).1
    have hlen : (fields.take i).length = (elems.take i).length := by
      simp only [List.length_take]
      omega
    have hfd : fields = fields.take i ++ field :: fields.drop (i + 1) := by
      have := List.getElem_cons_drop fields i hfl
      rw [(List.getElem?_eq_some_iff.1 hf).2] at this
      rw [this, List.take_append_drop]
    have hed : elems = elems.take i ++ js :: elems.drop (i + 1) := by
      have := List.getElem_cons_drop elems i hel
      rw [(List.getElem?_eq_some_iff.1 he).2] at this
      rw [this, List.take_append_drop]
    have hft : fields.take (i + 1) = fields.take i ++ [field] := by
      rw [List.take_succ, hf]
      rfl
    have het : elems.take (i + 1) = elems.take i ++ [js] := by
      rw [List.take_succ, he]
      rfl
    constructor
    · intro hstep
      rw [hft, het, fromJsArguments_append H env [field] [js] _ _ builder thrown hlen, hok]
      simp only
      rw [fromJsArguments_cons, hstep]
      simp only
      rw [fromJsArguments_nil_fields]
      revert hstep
      generalize fieldFromJs H env
        (fromJsArguments H env builder (fields.take i) (elems.take i) thrown).builder field js
        (fromJsArguments H env builder (fields.take i) (elems.take i) thrown).thrown = r
      intro hstep
      cases r
      simp only at hstep
      rw [hstep]
    · intro hstep
      conv_lhs => rw [hfd, hed]
      rw [fromJsArguments_append H env _ _ _ _ builder thrown hlen, hok]
      simp only
      rw [fromJsArguments_cons]
      cases hr : (fieldFromJs H env
          (fromJsArguments H env builder (fields.take i) (elems.take i) thrown).builder field js
          (fromJsArguments H env builder (fields.take i) (elems.take i) thrown).thrown).result with
      | error e => rfl
      | ok flag =>
          cases flag with
          | false => rfl
          | true => exact absurd hr hstep

/-- Argument-list mode on the sample struct `Point`, evaluated: four elements
for three fields fill the three fields and the fourth is ignored; when the
first element does not convert, the loop stops and the second field stays
unwritten. -/
theorem argument_list_evaluated :
    fromJs Host.sample sampleEnv (Builder.fresh 1)
        (.array [.object (.externalArray .kExternalUnsignedByteArray [1, 2]) [],
          .number (.finite 7 0), .number (.finite 5 0), .string "extra"]) =
      { builder := { typeId := 1, discriminant := 0,
                     slots := [("d", .DATA [1, 2]), ("a", .INT 7), ("x", .UINT 5)] },
        thrown := [] } ∧
    fromJs Host.sample sampleEnv (Builder.fresh 1)
        (.array [.number (.finite 5 0), .number (.finite 7 0)]) =
      { builder := { typeId := 1, discriminant := 0, slots := [] },
        thrown := [.TypeError "Type error in field: d"] } :=
  ⟨rfl, rfl⟩

/-! ## Scalars: theorems -/

theorem storeValue_out_of_range (H : Host) (type : SchemaType) (n : Int)
    (hk : type.integerKind.isSome = true) (h : integerReader type n = none) :
    storeValue H type (.INT n) =
      .error (requireFailed "Value out-of-range for requested type.") := by
  cases type <;> simp [SchemaType.integerKind] at hk <;>
    simp [integerReader, SchemaType.integerKind] at h <;>
    simp only [storeValue, asSigned, asUnsigned] <;>
    rw [if_neg (by omega)] <;> rfl

theorem fieldFromJs_slot_error (H : Host) (env : SchemaEnv) (builder : Builder) (field : Field)
    (type : SchemaType) (js : JsValue) (thrown : Thrown) (orphan : DynamicValue) (e : Exception)
    (hp : field.proto = .SLOT type)
    (ho : orphanFromJs H env field type js thrown = { thrown := thrown, result := .ok orphan })
    (hu : orphan.isUnknown = false) (hs : storeValue H type orphan = .error e) :
    fieldFromJs H env builder field js thrown =
      { builder := builder.setInUnion field, thrown := thrown, result := .error e } := by
  simp only [fieldFromJs, hp, ho, adoptOrphan, hu, Builder.adopt, hs]
  rfl

/-- The orphan `orphanFromJs` makes for a Bool, an integer or a float type. -/
theorem orphanFromJs_scalar (H : Host) (env : SchemaEnv) (field : Field) (type : SchemaType)
    (js : JsValue) (thrown : Thrown)
    (ht : type = .BOOL ∨ type.integerKind.isSome = true ∨ type = .FLOAT32 ∨ type = .FLOAT64) :
    orphanFromJs H env field type js thrown =
      { thrown := thrown,
        result := .ok
          (if type = .BOOL then .BOOL (BooleanValue js)
           else if type = .FLOAT32 ∨ type = .FLOAT64 then .FLOAT (NumberValue H js)
           else .INT (IntegerValue H js)) } := by
  rcases ht with h | h | h | h
  · subst h
    cases js <;> rfl
  · rw [orphanFromJs_integer H env field type js thrown h]
    cases type <;> simp [SchemaType.integerKind] at h <;> simp
  · subst h
    cases js <;> rfl
  · subst h
    cases js <;> rfl

/-- C22 (amended): for a field whose declared type is Bool, an integer type or
a float type, and for every host value, `orphanFromJs` returns a value and
`fieldFromJs` raises no type error.  A Bool and a float are always written.
A host value whose integer reading is within the range of the declared
integer type is written exactly; one whose integer reading is outside that
range is rejected: `adopt` raises "Value out-of-range for requested type." and
the slot is left unwritten. -/
theorem scalar_encoding (H : Host) (env : SchemaEnv) (builder : Builder) (field : Field)
    (type : SchemaType) (js : JsValue) (thrown : Thrown) (hp : field.proto = .SLOT type)
    (ht : type = .BOOL ∨ type.integerKind.isSome = true ∨ type = .FLOAT32 ∨ type = .FLOAT64) :
    (∃ orphan, orphanFromJs H env field type js thrown =
        { thrown := thrown, result := .ok orphan } ∧ orphan.isUnknown = false) ∧
    (fieldFromJs H env builder field js thrown).thrown = thrown ∧
    (fieldFromJs H env builder field js thrown).result ≠ .ok false ∧
    (type = .BOOL →
      fieldFromJs H env builder field js thrown =
        { builder := { builder.setInUnion field with
                       slots := assocSet builder.slots field.name (.BOOL (BooleanValue js)) },
          thrown := thrown, result := .ok true }) ∧
    (type = .FLOAT64 →
      fieldFromJs H env builder field js thrown =
        { builder := { builder.setInUnion field with
                       slots := assocSet builder.slots field.name (.FLOAT (NumberValue H js)) },
          thrown := thrown, result := .ok true }) ∧
    (type = .FLOAT32 →
      fieldFromJs H env builder field js thrown =
        { builder := { builder.setInUnion field with
                       slots := assocSet builder.slots field.name
                         (.FLOAT (H.toFloat32 (NumberValue H js))) },
          thrown := thrown, result := .ok true }) ∧
    (∀ stored, integerReader type (IntegerValue H js) = some stored →
      fieldFromJs H env builder field js thrown =
        { builder := { builder.setInUnion field with
                       slots := assocSet builder.slots field.name stored },
          thrown := thrown, result := .ok true }) ∧
    (type.integerKind.isSome = true → integerReader type (IntegerValue H js) = none →
      fieldFromJs H env builder field js thrown =
        { builder := builder.setInUnion field, thrown := thrown,
          result := .error (requireFailed "Value out-of-range for requested type.") }) := by
  have horphan := orphanFromJs_scalar H env field type js thrown ht
  have hbool : type = .BOOL →
      fieldFromJs H env builder field js thrown =
        { builder := { builder.setInUnion field with
                       slots := assocSet builder.slots field.name (.BOOL (BooleanValue js)) },
          thrown := thrown, result := .ok true } := by
    intro h
    subst h
    exact fieldFromJs_slot H env builder field .BOOL js thrown _ _ hp horphan rfl rfl
  have hf64 : type = .FLOAT64 →
      fieldFromJs H env builder field js thrown =
        { builder := { builder.setInUnion field with
                       slots := assocSet builder.slots field.name (.FLOAT (NumberValue H js)) },
          thrown := thrown, result := .ok true } := by
    intro h
    subst h
    exact fieldFromJs_slot H env builder field .FLOAT64 js thrown _ _ hp horphan rfl rfl
  have hf32 : type = .FLOAT32 →
      fieldFromJs H env builder field js thrown =
        { builder := { builder.setInUnion field with
                       slots := assocSet builder.slots field.name
                         (.FLOAT (H.toFloat32 (NumberValue H js))) },
          thrown := thrown, result := .ok true } := by
    intro h
    subst h
    exact fieldFromJs_slot H env builder field .FLOAT32 js thrown _ _ hp horphan rfl rfl
  have hin : ∀ stored, integerReader type (IntegerValue H js) = some stored →
      fieldFromJs H env builder field js thrown =
        { builder := { builder.setInUnion field with
                       slots := assocSet builder.slots field.name stored },
          thrown := thrown, result := .ok true } := by
    intro stored hs
    have hk : type.integerKind.isSome = true := by
      cases type <;> simp [integerReader, SchemaType.integerKind] at hs ⊢
    exact fieldFromJs_slot H env builder field type js thrown _ stored hp
      (orphanFromJs_integer H env field type js thrown hk) rfl
      (storeValue_integer H type _ stored hs)
  have hout : type.integerKind.isSome = true →
      integerReader type (IntegerValue H js) = none →
      fieldFromJs H env builder field js thrown =
        { builder := builder.setInUnion field, thrown := thrown,
          result := .error (requireFailed "Value out-of-range for requested type.") } := by
    intro hk hs
    exact fieldFromJs_slot_error H env builder field type js thrown _ _ hp
      (orphanFromJs_integer H env field type js thrown hk) rfl
      (storeValue_out_of_range H type _ hk hs)
  have hcases : (fieldFromJs H env builder field js thrown).thrown = thrown ∧
      (fieldFromJs H env builder field js thrown).result ≠ .ok false := by
    rcases ht with h | h | h | h
    · rw [hbool h]
      exact ⟨rfl, by simp⟩
    · cases hr : integerReader type (IntegerValue H js) with
      | none =>
          rw [hout h hr]
          exact ⟨rfl, by simp⟩
      | some stored =>
          rw [hin stored hr]
          exact ⟨rfl, by simp⟩
    · rw [hf32 h]
      exact ⟨rfl, by simp⟩
    · rw [hf64 h]
      exact ⟨rfl, by simp⟩
  refine ⟨⟨_, horphan, ?_⟩, hcases.1, hcases.2, hbool, hf64, hf32, hin, hout⟩
  split
  · rfl
  · split <;> rfl

/-- Witness of C22: the number 7 for the Int32 field `a` of `Point`. -/
theorem scalar_encoding_witness :
    integerReader .INT32 (IntegerValue Host.sample (.number (.finite 7 0))) = some (.INT 7) ∧
    fieldFromJs Host.sample sampleEnv (Builder.fresh 1)
        { name := "a", proto := .SLOT .INT32, discriminantValue := none }
        (.number (.finite 7 0)) [] =
      { builder := { (Builder.fresh 1).setInUnion
                       { name := "a", proto := .SLOT .INT32, discriminantValue := none } with
                     slots := assocSet (Builder.fresh 1).slots "a" (.INT 7) },
        thrown := [], result := .ok true } :=
  ⟨rfl, (scalar_encoding Host.sample sampleEnv (Builder.fresh 1)
    { name := "a", proto := .SLOT .INT32, discriminantValue := none } .INT32
    (.number (.finite 7 0)) [] rfl (Or.inr (Or.inl rfl))).2.2.2.2.2.2.1 (.INT 7) rfl⟩

/-- C22 fails as stated: the host number 2^32 + 7 given for the Int32 field
`a` of `Point` is not stored as 7; it is rejected with "Value out-of-range for
requested type." and the field stays unwritten. -/
theorem out_of_range_rejected :
    fromJs Host.sample sampleEnv (Builder.fresh 1)
        (.object .plain [("a", .number (.finite 4294967303 0))]) =
      { builder := { typeId := 1, discriminant := 0, slots := [] },
        thrown := [toJsException (requireFailed "Value out-of-range for requested type.")] } ∧
    assocGet (fromJs Host.sample sampleEnv (Builder.fresh 1)
        (.object .plain [("a", .number (.finite 4294967303 0))])).builder.slots "a" ≠
      some (.INT 7) := by
  have h : fromJs Host.sample sampleEnv (Builder.fresh 1)
        (.object .plain [("a", .number (.finite 4294967303 0))]) =
      { builder := { typeId := 1, discriminant := 0, slots := [] },
        thrown := [toJsException (requireFailed "Value out-of-range for requested type.")] } :=
    rfl
  refine ⟨h, ?_⟩
  rw [h]
  simp [assocGet]

/-! ## Lists: theorems -/

theorem listFromJs_nil (H : Host) (env : SchemaEnv) (field : Field) (elementType : SchemaType)
    (thrown : Thrown) :
    listFromJs H env field elementType [] thrown =
      { thrown := thrown, result := .ok (.built []) } := by
  rw [listFromJs]

theorem listFromJs_cons (H : Host) (env : SchemaEnv) (field : Field) (elementType : SchemaType)
    (js : JsValue) (rest : List JsValue) (thrown : Thrown) :
    listFromJs H env field elementType (js :: rest) thrown =
      thenNextElement H elementType (orphanFromJs H env field elementType js thrown)
        (fun t => listFromJs H env field elementType rest t) := by
  rw [listFromJs]

/-- The loop over `front ++ more`: the elements of `more` are converted after
those of `front`, unless the loop ended among the elements of `front`. -/
theorem listFromJs_append (H : Host) (env : SchemaEnv) (field : Field)
    (elementType : SchemaType) (more : List JsValue) :
    ∀ (front : List JsValue) (thrown : Thrown),
      listFromJs H env field elementType (front ++ more) thrown =
        match (listFromJs H env field elementType front thrown).result with
        | .ok (.built vs1) =>
            match (listFromJs H env field elementType more
              (listFromJs H env field elementType front thrown).thrown).result with
            | .ok (.built vs2) =>
                { thrown := (listFromJs H env field elementType more
                    (listFromJs H env field elementType front thrown).thrown).thrown,
                  result := .ok (.built (vs1 ++ vs2)) }
            | _ => listFromJs H env field elementType more
                (listFromJs H env field elementType front thrown).thrown
        | _ => listFromJs H env field elementType front thrown
  | [], thrown => by
      rw [List.nil_append, listFromJs_nil]
      simp only [List.nil_append]
      cases hr : listFromJs H env field elementType more thrown with
      | mk t r =>
          cases r with
          | error e => rfl
          | ok o => cases o <;> rfl
  | js :: front, thrown => by
      rw [List.cons_append, listFromJs_cons, listFromJs_cons]
      unfold thenNextElement
      cases hr : (orphanFromJs H env field elementType js thrown).result with
      | error e => rfl
      | ok element =>
          simp only
          by_cases hu : element.isUnknown = true
          · simp [hu]
          · simp only [hu, Bool.false_eq_true, if_false]
            cases hs : storeValue H elementType element with
            | error e => rfl
            | ok stored =>
                simp only
                rw [listFromJs_append H env field elementType more front _]
                generalize listFromJs H env field elementType front
                  (orphanFromJs H env field elementType js thrown).thrown = rf
                obtain ⟨tf, resf⟩ := rf
                cases resf with
                | error e => rfl
                | ok o =>
                    cases o with
                    | null => rfl
                    | typeError => rfl
                    | built vs1 =>
                        simp only
                        generalize listFromJs H env field elementType more tf = rm
                        obtain ⟨tm, resm⟩ := rm
                        cases resm with
                        | error e => rfl
                        | ok o2 => cases o2 <;> rfl

/-- After a first element that was adopted, the host exceptions of the loop are
those of the loop over the rest. -/
theorem listFromJs_cons_adopted (H : Host) (env : SchemaEnv) (field : Field)
    (elementType : SchemaType) (js : JsValue) (rest : List JsValue) (thrown : Thrown)
    (stored : DynamicValue)
    (h : adoptedElement H elementType (orphanFromJs H env field elementType js thrown) =
      some stored) :
    (listFromJs H env field elementType (js :: rest) thrown).thrown =
        (listFromJs H env field elementType rest
          (orphanFromJs H env field elementType js thrown).thrown).thrown ∧
    (listFromJs H env field elementType (js :: rest) thrown).result =
      match (listFromJs H env field elementType rest
          (orphanFromJs H env field elementType js thrown).thrown).result with
      | .ok (.built vs) => .ok (.built (stored :: vs))
      | other => other := by
  rw [listFromJs_cons]
  unfold adoptedElement at h
  unfold thenNextElement
  cases hr : (orphanFromJs H env field elementType js thrown).result with
  | error e => simp [hr] at h
  | ok orphan =>
      simp only [hr] at h
      by_cases hu : orphan.isUnknown = true
      · simp [hu] at h
      · simp only [hu, Bool.false_eq_true, if_false] at h ⊢
        cases hs : storeValue H elementType orphan with
        | error e => simp [hs] at h
        | ok stored2 =>
            simp only [hs, Option.some.injEq] at h
            subst h
            simp only
            generalize listFromJs H env field elementType rest
              (orphanFromJs H env field elementType js thrown).thrown = rr
            obtain ⟨tr, resr⟩ := rr
            cases resr with
            | error e => exact ⟨rfl, rfl⟩
            | ok o => cases o <;> exact ⟨rfl, rfl⟩

/-- A first element that was not adopted ends the loop without a list. -/
theorem listFromJs_cons_failed (H : Host) (env : SchemaEnv) (field : Field)
    (elementType : SchemaType) (js : JsValue) (rest : List JsValue) (thrown : Thrown)
    (h : adoptedElement H elementType (orphanFromJs H env field elementType js thrown) = none) :
    ∀ vs, (listFromJs H env field elementType (js :: rest) thrown).result ≠
      .ok (.built vs) := by
  intro vs
  rw [listFromJs_cons]
  unfold adoptedElement at h
  unfold thenNextElement
  cases hr : (orphanFromJs H env field elementType js thrown).result with
  | error e => simp
  | ok orphan =>
      simp only [hr] at h
      by_cases hu : orphan.isUnknown = true
      · simp [hu]
      · simp only [hu, Bool.false_eq_true, if_false] at h ⊢
        cases hs : storeValue H elementType orphan with
        | error e => simp
        | ok stored2 => simp [hs] at h

/-- A list that was built has one element for each host element: the one
adopted from the orphan built for it, in the state the earlier elements left. -/
theorem listFromJs_built (H : Host) (env : SchemaEnv) (field : Field)
    (elementType : SchemaType) :
    ∀ (elems : List JsValue) (thrown : Thrown) (vs : List DynamicValue),
      (listFromJs H env field elementType elems thrown).result = .ok (.built vs) →
      vs.length = elems.length ∧
      ∀ i js, elems[i]? = some js →
        adoptedElement H elementType (orphanFromJs H env field elementType js
          (listFromJs H env field elementType (elems.take i) thrown).thrown) = vs[i]?
  | [], thrown, vs, h => by
      rw [listFromJs_nil] at h
      simp only [Except.ok.injEq, ListOutcome.built.injEq] at h
      subst h
      exact ⟨rfl, fun i js hi => by simp at hi⟩
  | js0 :: rest, thrown, vs, h => by
      cases ha : adoptedElement H elementType
          (orphanFromJs H env field elementType js0 thrown) with
      | none => exact absurd h (listFromJs_cons_failed H env field elementType js0 rest thrown ha vs)
      | some stored =>
          have hc := listFromJs_cons_adopted H env field elementType js0 rest thrown stored ha
          rw [hc.2] at h
          cases hrest : (listFromJs H env field elementType rest
              (orphanFromJs H env field elementType js0 thrown).thrown).result with
          | error e => simp [hrest] at h
          | ok o =>
              cases o with
              | null => simp [hrest] at h
              | typeError => simp [hrest] at h
              | built vs2 =>
                  simp only [hrest, Except.ok.injEq, ListOutcome.built.injEq] at h
                  subst h
                  obtain ⟨hlen, hall⟩ := listFromJs_built H env field elementType rest _ vs2 hrest
                  refine ⟨by simp [hlen], ?_⟩
                  intro i js hi
                  cases i with
                  | zero =>
                      simp only [List.getElem?_cons_zero, Option.some.injEq] at hi
                      subst hi
                      simp only [List.take_zero, listFromJs_nil, List.getElem?_cons_zero]
                      exact ha
                  | succ k =>
                      simp only [List.getElem?_cons_succ] at hi
                      simp only [List.take_succ_cons, List.getElem?_cons_succ]
                      rw [(listFromJs_cons_adopted H env field elementType js0 (rest.take k)
                        thrown stored ha).1]
                      exact hall k js hi

theorem structListFromJs_nil (H : Host) (env : SchemaEnv) (typeId : Nat) (thrown : Thrown) :
    structListFromJs H env typeId [] thrown =
      { thrown := thrown, result := .ok (.built []) } := by
  rw [structListFromJs]

/-- One step of the loop over a struct list. -/
theorem structListFromJs_cons (H : Host) (env : SchemaEnv) (typeId : Nat) (js : JsValue)
    (rest : List JsValue) (thrown : Thrown) :
    structListFromJs H env typeId (js :: rest) thrown =
      match fillElement H env typeId js thrown with
      | some r => thenNextStruct r (fun t => structListFromJs H env typeId rest t)
      | none => { thrown := thrown, result := .ok .typeError } := by
  cases js <;> rfl

theorem isObject_fillElement (H : Host) (env : SchemaEnv) (typeId : Nat) (js : JsValue)
    (thrown : Thrown) : IsObject js = false ↔ fillElement H env typeId js thrown = none := by
  cases js <;> simp [IsObject, fillElement]

theorem structListFromJs_cons_filled (H : Host) (env : SchemaEnv) (typeId : Nat)
    (js : JsValue) (rest : List JsValue) (thrown : Thrown) (r : StructResult)
    (stored : DynamicValue) (hf : fillElement H env typeId js thrown = some r)
    (h : filledStruct r = some stored) :
    (structListFromJs H env typeId (js :: rest) thrown).thrown =
        (structListFromJs H env typeId rest r.thrown).thrown ∧
    (structListFromJs H env typeId (js :: rest) thrown).result =
      match (structListFromJs H env typeId rest r.thrown).result with
      | .ok (.built vs) => .ok (.built (stored :: vs))
      | other => other := by
  rw [structListFromJs_cons, hf]
  unfold filledStruct at h
  unfold thenNextStruct
  cases hr : r.result with
  | error e => simp [hr] at h
  | ok flag =>
      cases flag with
      | false => simp [hr] at h
      | true =>
          simp only [hr, Option.some.injEq] at h
          subst h
          simp only [hr]
          generalize structListFromJs H env typeId rest r.thrown = rr
          obtain ⟨tr, resr⟩ := rr
          cases resr with
          | error e => exact ⟨rfl, rfl⟩
          | ok o => cases o <;> exact ⟨rfl, rfl⟩

theorem structListFromJs_cons_failed (H : Host) (env : SchemaEnv) (typeId : Nat)
    (js : JsValue) (rest : List JsValue) (thrown : Thrown)
    (h : filledElement H env typeId js thrown = none) :
    ∀ vs, (structListFromJs H env typeId (js :: rest) thrown).result ≠ .ok (.built vs) := by
  intro vs
  rw [structListFromJs_cons]
  unfold filledElement at h
  cases hf : fillElement H env typeId js thrown with
  | none => simp
  | some r =>
      simp only [hf, filledStruct] at h
      unfold thenNextStruct
      cases hr : r.result with
      | error e => simp [hr]
      | ok flag =>
          cases flag with
          | false => simp [hr]
          | true => simp [hr] at h

/-- The host exceptions after the first `i` elements of a struct list. -/
theorem structListFromJs_built (H : Host) (env : SchemaEnv) (typeId : Nat) :
    ∀ (elems : List JsValue) (thrown : Thrown) (vs : List DynamicValue),
      (structListFromJs H env typeId elems thrown).result = .ok (.built vs) →
      vs.length = elems.length ∧
      ∀ i js, elems[i]? = some js →
        filledElement H env typeId js
          (structListFromJs H env typeId (elems.take i) thrown).thrown = vs[i]?
  | [], thrown, vs, h => by
      rw [structListFromJs_nil] at h
      simp only [Except.ok.injEq, ListOutcome.built.injEq] at h
      subst h
      exact ⟨rfl, fun i js hi => by simp at hi⟩
  | js0 :: rest, thrown, vs, h => by
      cases ha : filledElement H env typeId js0 thrown with
      | none => exact absurd h (structListFromJs_cons_failed H env typeId js0 rest thrown ha vs)
      | some stored =>
          have ha2 := ha
          unfold filledElement at ha2
          cases hf : fillElement H env typeId js0 thrown with
          | none => simp [hf] at ha2
          | some r =>
              simp only [hf] at ha2
              have hc := structListFromJs_cons_filled H env typeId js0 rest thrown r stored hf ha2
              rw [hc.2] at h
              cases hrest : (structListFromJs H env typeId rest r.thrown).result with
              | error e => simp [hrest] at h
              | ok o =>
                  cases o with
                  | null => simp [hrest] at h
                  | typeError => simp [hrest] at h
                  | built vs2 =>
                      simp only [hrest, Except.ok.injEq, ListOutcome.built.injEq] at h
                      subst h
                      obtain ⟨hlen, hall⟩ := structListFromJs_built H env typeId rest _ vs2 hrest
                      refine ⟨by simp [hlen], ?_⟩
                      intro i js hi
                      cases i with
                      | zero =>
                          simp only [List.getElem?_cons_zero, Option.some.injEq] at hi
                          subst hi
                          simp only [List.take_zero, structListFromJs_nil,
                            List.getElem?_cons_zero]
                          exact ha
                      | succ k =>
                          simp only [List.getElem?_cons_succ] at hi
                          simp only [List.take_succ_cons, List.getElem?_cons_succ]
                          rw [(structListFromJs_cons_filled H env typeId js0 (rest.take k)
                            thrown r stored hf ha2).1]
                          exact hall k js hi

/-- A host element of a struct list that is not an object, met after elements
that were filled, ends the loop with the error flag set. -/
theorem structListFromJs_not_object (H : Host) (env : SchemaEnv) (typeId : Nat) :
    ∀ (elems : List JsValue) (thrown : Thrown) (i : Nat) (js : JsValue)
      (front : List DynamicValue),
      elems[i]? = some js → IsObject js = false →
      (structListFromJs H env typeId (elems.take i) thrown).result = .ok (.built front) →
      structListFromJs H env typeId elems thrown =
        { thrown := (structListFromJs H env typeId (elems.take i) thrown).thrown,
          result := .ok .typeError }
  | [], thrown, i, js, front, hi, _, _ => by simp at hi
  | js0 :: rest, thrown, 0, js, front, hi, hobj, _ => by
      simp only [List.getElem?_cons_zero, Option.some.injEq] at hi
      subst hi
      rw [structListFromJs_cons, (isObject_fillElement H env typeId js0 thrown).1 hobj,
        List.take_zero, structListFromJs_nil]
  | js0 :: rest, thrown, k + 1, js, front, hi, hobj, hfront => by
      simp only [List.getElem?_cons_succ] at hi
      simp only [List.take_succ_cons] at hfront ⊢
      cases ha : filledElement H env typeId js0 thrown with
      | none =>
          exact absurd hfront
            (structListFromJs_cons_failed H env typeId js0 (rest.take k) thrown ha front)
      | some stored =>
          have ha2 := ha
          unfold filledElement at ha2
          cases hf : fillElement H env typeId js0 thrown with
          | none => simp [hf] at ha2
          | some r =>
              simp only [hf] at ha2
              have hc1 := structListFromJs_cons_filled H env typeId js0 (rest.take k) thrown r
                stored hf ha2
              have hc2 := structListFromJs_cons_filled H env typeId js0 rest thrown r
                stored hf ha2
              rw [hc1.2] at hfront
              cases hrest : (structListFromJs H env typeId (rest.take k) r.thrown).result with
              | error e => simp [hrest] at hfront
              | ok o =>
                  cases o with
                  | null => simp [hrest] at hfront
                  | typeError => simp [hrest] at hfront
                  | built vs2 =>
                      have ih := structListFromJs_not_object H env typeId rest r.thrown k js vs2
                        hi hobj hrest
                      rw [ih] at hc2
                      rw [hc1.1]
                      generalize structListFromJs H env typeId (js0 :: rest) thrown = whole at hc2
                      obtain ⟨tw, rw2⟩ := whole
                      simp only at hc2
                      rw [hc2.1, hc2.2]

/-- What the end of the LIST case makes of the outcome of a loop: a list
exactly when the loop built one. -/
theorem orphanOfList_value (field : Field) (elementType : SchemaType) (r : ListResult)
    (value : DynamicValue) (h : (orphanOfList field elementType r).result = .ok value)
    (hu : value.isUnknown = false) :
    ∃ vs, value = .LIST elementType vs ∧ r.result = .ok (.built vs) := by
  unfold orphanOfList at h
  cases hr : r.result with
  | error e => simp [hr] at h
  | ok o =>
      cases o with
      | built vs =>
          simp only [hr, Except.ok.injEq] at h
          exact ⟨vs, h.symm, rfl⟩
      | null =>
          simp only [hr, Except.ok.injEq] at h
          subst h
          simp [DynamicValue.isUnknown] at hu
      | typeError =>
          simp only [hr, typeErrorInField, Except.ok.injEq] at h
          subst h
          simp [DynamicValue.isUnknown] at hu

/-- C21: `orphanFromJs` for a list type raises the type error naming the field
for a host value that is not an array.  For a host array, a value that is
returned and not null is a list with exactly one element per host element,
element `i` being the conversion of host element `i` in the state the elements
before it left: adopted from the orphan built for it, or, in a struct list,
filled in place by `structFromJs`.  If the conversion of an element fails, no
list is returned; and a host element of a struct list that is not an object,
met after elements that were filled, leads to the type error naming the
field. -/
theorem list_conversion (H : Host) (env : SchemaEnv) (field : Field)
    (elementType : SchemaType) (elems : List JsValue) (thrown : Thrown)
    (hschema : listSchemaOf env elementType = .ok ()) :
    (∀ js, IsArray js = false →
      orphanFromJs H env field (.LIST elementType) js thrown =
        { thrown := thrown ++ [.TypeError ("Type error in field: " ++ field.name)],
          result := .ok .UNKNOWN }) ∧
    ((∀ typeId, elementType ≠ .STRUCT typeId) →
      (∀ value,
        (orphanFromJs H env field (.LIST elementType) (.array elems) thrown).result =
          .ok value → value.isUnknown = false →
        ∃ vs, value = .LIST elementType vs ∧ vs.length = elems.length ∧
          ∀ i js, elems[i]? = some js →
            adoptedElement H elementType (orphanFromJs H env field elementType js
              (listFromJs H env field elementType (elems.take i) thrown).thrown) = vs[i]?) ∧
      (∀ i js, elems[i]? = some js →
        adoptedElement H elementType (orphanFromJs H env field elementType js
          (listFromJs H env field elementType (elems.take i) thrown).thrown) = none →
        ∀ value,
          (orphanFromJs H env field (.LIST elementType) (.array elems) thrown).result =
            .ok value → value.isUnknown = true)) ∧
    (∀ typeId, elementType = .STRUCT typeId →
      (∀ value,
        (orphanFromJs H env field (.LIST elementType) (.array elems) thrown).result =
          .ok value → value.isUnknown = false →
        ∃ vs, value = .LIST elementType vs ∧ vs.length = elems.length ∧
          ∀ i js, elems[i]? = some js →
            filledElement H env typeId js
              (structListFromJs H env typeId (elems.take i) thrown).thrown = vs[i]?) ∧
      (∀ i js, elems[i]? = some js →
        filledElement H env typeId js
          (structListFromJs H env typeId (elems.take i) thrown).thrown = none →
        ∀ value,
          (orphanFromJs H env field (.LIST elementType) (.array elems) thrown).result =
            .ok value → value.isUnknown = true) ∧
      (∀ i js front, elems[i]? = some js → IsObject js = false →
        (structListFromJs H env typeId (elems.take i) thrown).result = .ok (.built front) →
        orphanFromJs H env field (.LIST elementType) (.array elems) thrown =
          { thrown := (structListFromJs H env typeId (elems.take i) thrown).thrown ++
              [.TypeError ("Type error in field: " ++ field.name)],
            result := .ok .UNKNOWN })) := by
  refine ⟨?_, ?_, ?_⟩
  · intro js ha
    cases js <;> simp [IsArray] at ha <;> rfl
  · intro hne
    have hsucc : ∀ value,
        (orphanFromJs H env field (.LIST elementType) (.array elems) thrown).result =
          .ok value → value.isUnknown = false →
        ∃ vs, value = .LIST elementType vs ∧ vs.length = elems.length ∧
          ∀ i js, elems[i]? = some js →
            adoptedElement H elementType (orphanFromJs H env field elementType js
              (listFromJs H env field elementType (elems.take i) thrown).thrown) = vs[i]? := by
      intro value hv hu
      rw [orphanFromJs_list_other H env field elementType elems thrown hne hschema] at hv
      obtain ⟨vs, hval, hbuilt⟩ := orphanOfList_value field elementType _ value hv hu
      obtain ⟨hlen, hall⟩ := listFromJs_built H env field elementType elems thrown vs hbuilt
      exact ⟨vs, hval, hlen, hall⟩
    refine ⟨hsucc, ?_⟩
    intro i js hi hnone value hv
    by_contra hu
    obtain ⟨vs, _, hlen, hall⟩ := hsucc value hv (by simpa using hu)
    have := hall i js hi
    rw [hnone] at this
    have hlt : i < vs.length := by
      rw [hlen]
      exact (List.getElem?_eq_some_iff.1 hi).1
    rw [List.getElem?_eq_getElem hlt] at this
    cases this
  · intro typeId ht
    subst ht
    have hsucc : ∀ value,
        (orphanFromJs H env field (.LIST (.STRUCT typeId)) (.array elems) thrown).result =
          .ok value → value.isUnknown = false →
        ∃ vs, value = .LIST (.STRUCT typeId) vs ∧ vs.length = elems.length ∧
          ∀ i js, elems[i]? = some js →
            filledElement H env typeId js
              (structListFromJs H env typeId (elems.take i) thrown).thrown = vs[i]? := by
      intro value hv hu
      rw [orphanFromJs_list_struct H env field typeId elems thrown hschema] at hv
      obtain ⟨vs, hval, hbuilt⟩ := orphanOfList_value field _ _ value hv hu
      obtain ⟨hlen, hall⟩ := structListFromJs_built H env typeId elems thrown vs hbuilt
      exact ⟨vs, hval, hlen, hall⟩
    refine ⟨hsucc, ?_, ?_⟩
    · intro i js hi hnone value hv
      by_contra hu
      obtain ⟨vs, _, hlen, hall⟩ := hsucc value hv (by simpa using hu)
      have := hall i js hi
      rw [hnone] at this
      have hlt : i < vs.length := by
        rw [hlen]
        exact (List.getElem?_eq_some_iff.1 hi).1
      rw [List.getElem?_eq_getElem hlt] at this
      cases this
    · intro i js front hi hobj hfront
      rw [orphanFromJs_list_struct H env field typeId elems thrown hschema,
        structListFromJs_not_object H env typeId elems thrown i js front hi hobj hfront]
      rfl

/-- Witness of C21: a list of Int32 built from two host numbers. -/
theorem list_conversion_witness :
    listSchemaOf sampleEnv .INT32 = .ok () ∧
    ∃ vs,
      DynamicValue.LIST .INT32 [.INT 7, .INT 9] = .LIST .INT32 vs ∧ vs.length = 2 ∧
      ∀ i js, [JsValue.number (.finite 7 0), .number (.finite 9 0)][i]? = some js →
        adoptedElement Host.sample .INT32
          (orphanFromJs Host.sample sampleEnv
            { name := "a", proto := .SLOT .INT32, discriminantValue := none } .INT32 js
            (listFromJs Host.sample sampleEnv
              { name := "a", proto := .SLOT .INT32, discriminantValue := none } .INT32
              ([JsValue.number (.finite 7 0), .number (.finite 9 0)].take i) []).thrown) =
          vs[i]? :=
  ⟨rfl, ((list_conversion Host.sample sampleEnv
    { name := "a", proto := .SLOT .INT32, discriminantValue := none } .INT32
    [.number (.finite 7 0), .number (.finite 9 0)] [] rfl).2.1
    (fun _ h => by cases h)).1 (.LIST .INT32 [.INT 7, .INT 9]) rfl rfl⟩


/-- C25: kind checks.  `newBuilder` returns a builder exactly for a struct
schema, and the builder is fresh; `methods`, `restore` and `castAs` return a
result only for an interface schema, in which case `restore` and `castAs` wrap
one new client.  For any other schema each raises the error that names the
schema and leaves the host heap and the table of clients as they were. -/
theorem kind_checks (env : SchemaEnv) (typeId : Nat) (node : Node)
    (hnode : env typeId = some node)
    (context : CapnpContext) (heap : JsHeap) (t : CapTable)
    (connection : String → ClientHook) (ref : String) (cap : Client) :
    ((∃ b, newBuilder env typeId = .ok b) ↔ node.isStruct = true) ∧
    (∀ b, newBuilder env typeId = .ok b → b = Builder.fresh typeId) ∧
    (node.isStruct = false →
      newBuilder env typeId = .error (.Error ("Not a struct type: " ++ node.displayName))) ∧
    (∀ h, (methods env context heap typeId).result = .ok h → node.isInterface = true) ∧
    (∀ h, (restore env t connection ref typeId).result = .ok h → node.isInterface = true) ∧
    (∀ h, (castAs env t cap typeId).result = .ok h → node.isInterface = true) ∧
    (node.isInterface = true →
      (restore env t connection ref typeId).result = .ok t.slots.length ∧
      (restore env t connection ref typeId).table.slots =
        t.slots ++ [{ hook := connection ref, schema := typeId }] ∧
      (castAs env t cap typeId).result = .ok t.slots.length ∧
      (castAs env t cap typeId).table.slots =
        t.slots ++ [{ hook := cap.hook, schema := typeId }]) ∧
    (node.isInterface = false →
      methods env context heap typeId =
        { context := context, heap := heap,
          result := .error (.Error ("Not an interface type: " ++ node.displayName)) } ∧
      restore env t connection ref typeId =
        { table := t,
          result := .error (.Error ("Not an interface type: " ++ node.displayName)) } ∧
      castAs env t cap typeId =
        { table := t,
          result := .error (.Error ("Not an interface type: " ++ node.displayName)) }) := by
  cases node with
  | STRUCT displayName fields =>
      simp [newBuilder, methods, restore, castAs, hnode, Node.isStruct, Node.isInterface,
        Node.displayName]
  | ENUM displayName enumerants =>
      simp [newBuilder, methods, restore, castAs, hnode, Node.isStruct, Node.isInterface,
        Node.displayName]
  | INTERFACE displayName names =>
      have hslots : ∀ h : ClientHook, (t.addRef h).slots = t.slots := by
        intro h
        cases h <;> rfl
      simp [newBuilder, methods, restore, castAs, hnode, Node.isStruct, Node.isInterface,
        Node.displayName, wrapCopyClient, hslots]
  | OTHER displayName =>
      simp [newBuilder, methods, restore, castAs, hnode, Node.isStruct, Node.isInterface,
        Node.displayName]

/-- Witness of C25: the enum schema of the sample is neither a struct nor an
interface. -/
theorem kind_checks_witness :
    sampleEnv 2 = some (.ENUM "Color" ["red", "green"]) ∧
    newBuilder sampleEnv 2 = .error (.Error "Not a struct type: Color") :=
  ⟨rfl, (kind_checks sampleEnv 2 (.ENUM "Color" ["red", "green"]) rfl CapnpContext.new []
    CapTable.sample (fun _ => .object 7) "ref" { hook := .object 7, schema := 3 }).2.2.1 rfl⟩

/-- The function `methods` leaves the context as it was, whatever the schema,
and a handle it returns is that of an object it has just made. -/
theorem methods_context (env : SchemaEnv) (context : CapnpContext) (heap : JsHeap)
    (typeId : Nat) :
    (methods env context heap typeId).context = context ∧
    ∀ h, (methods env context heap typeId).result = .ok h →
      h = heap.length ∧ (methods env context heap typeId).heap.length = heap.length + 1 := by
  unfold methods
  cases env typeId with
  | none => simp
  | some node =>
      cases node <;> simp

/-- C26: two calls of `methods` with the same interface schema make two host
objects, and the table `methodSets` is neither read nor written: it is still
empty after both. -/
theorem methods_not_memoized :
    (methods sampleEnv CapnpContext.new [] 3).result = .ok 0 ∧
    (methods sampleEnv (methods sampleEnv CapnpContext.new [] 3).context
      (methods sampleEnv CapnpContext.new [] 3).heap 3).result = .ok 1 ∧
    (methods sampleEnv (methods sampleEnv CapnpContext.new [] 3).context
      (methods sampleEnv CapnpContext.new [] 3).heap 3).context.methodSets = [] ∧
    (methods sampleEnv (methods sampleEnv CapnpContext.new [] 3).context
      (methods sampleEnv CapnpContext.new [] 3).heap 3).heap =
      [[("ping", { interfaceId := 3, ordinal := 0, name := "ping" })],
       [("ping", { interfaceId := 3, ordinal := 0, name := "ping" })]] :=
  ⟨rfl, rfl, rfl, rfl⟩


/-- C29: as written, with the logical operator, `NEW_FD_FLAGS` is 1, which is
`TAKE_OWNERSHIP` alone, whereas the bitwise OR of the three flags is 7.  The
constructor therefore finds neither `ALREADY_NONBLOCK` nor `ALREADY_CLOEXEC`
in the flags of an accepted descriptor: on a descriptor that `accept4` opened
non-blocking and close-on-exec it runs `setNonblocking` and `setCloseOnExec`,
which read the flags of the descriptor, where the bitwise OR makes no call.
The descriptor is owned. -/
theorem new_fd_flags_is_take_ownership :
    NEW_FD_FLAGS = 1 ∧
    ALREADY_CLOEXEC ||| ALREADY_NONBLOCK ||| TAKE_OWNERSHIP = 7 ∧
    NEW_FD_FLAGS = TAKE_OWNERSHIP ∧
    NEW_FD_FLAGS &&& ALREADY_NONBLOCK = 0 ∧
    NEW_FD_FLAGS &&& ALREADY_CLOEXEC = 0 ∧
    (OwnedFileDescriptor.new false { statusFlags := O_NONBLOCK, fdFlags := FD_CLOEXEC } 5
      NEW_FD_FLAGS).calls = [.F_GETFL, .F_GETFD] ∧
    (OwnedFileDescriptor.new false { statusFlags := O_NONBLOCK, fdFlags := FD_CLOEXEC } 5
      (ALREADY_CLOEXEC ||| ALREADY_NONBLOCK ||| TAKE_OWNERSHIP)).calls = [] ∧
    (OwnedFileDescriptor.init 5 NEW_FD_FLAGS).closesOnDestruction = true := by
  refine ⟨by decide, by decide, by decide, by decide, by decide, by decide, by decide, by decide⟩


/-- The object made by the constructor satisfies the invariant. -/
theorem init_inv (fd : Int) (flags : Nat) : (OwnedFileDescriptor.init fd flags).Inv := by
  refine ⟨?_, ?_, ?_, ?_, ?_, ?_⟩
  · show (0 : Nat) = 0 ||| 0
    decide
  all_goals simp [OwnedFileDescriptor.init]

/-- The method `onReadable` keeps the invariant. -/
theorem onReadable_inv (d : OwnedFileDescriptor) (h : d.Inv) : d.onReadable.1.Inv := by
  obtain ⟨hm, hr, hw, hrw, hs, hn⟩ := h
  unfold OwnedFileDescriptor.onReadable
  cases he : d.error with
  | some e => exact ⟨hm, hr, hw, hrw, hs, hn⟩
  | none =>
      cases hrd : d.readable with
      | some r => exact ⟨hm, hr, hw, hrw, hs, hn⟩
      | none =>
          refine ⟨?_, ?_, ?_, ?_, ?_, ?_⟩
          · simp only [OwnedFileDescriptor.registered, OwnedFileDescriptor.pendingEvents]
          · intro r hr2
            simp only [Option.some.injEq] at hr2
            subst hr2
            refine ⟨Nat.lt_succ_self _, ?_⟩
            intro hmem
            exact Nat.lt_irrefl _ (hs _ hmem)
          · intro w hw2
            obtain ⟨h1, h2⟩ := hw w hw2
            exact ⟨Nat.lt_succ_of_lt h1, h2⟩
          · intro r w hr2 hw2
            simp only [Option.some.injEq] at hr2
            subst hr2
            have := (hw w hw2).1
            exact fun h => Nat.lt_irrefl _ (h ▸ this)
          · intro s hmem
            exact Nat.lt_succ_of_lt (hs s hmem)
          · exact hn

/-- The method `onWritable` keeps the invariant. -/
theorem onWritable_inv (d : OwnedFileDescriptor) (h : d.Inv) : d.onWritable.1.Inv := by
  obtain ⟨hm, hr, hw, hrw, hs, hn⟩ := h
  unfold OwnedFileDescriptor.onWritable
  cases he : d.error with
  | some e => exact ⟨hm, hr, hw, hrw, hs, hn⟩
  | none =>
      cases hwd : d.writable with
      | some w => exact ⟨hm, hr, hw, hrw, hs, hn⟩
      | none =>
          refine ⟨?_, ?_, ?_, ?_, ?_, ?_⟩
          · simp only [OwnedFileDescriptor.registered, OwnedFileDescriptor.pendingEvents]
            exact Nat.lor_comm _ _
          · intro r hr2
            obtain ⟨h1, h2⟩ := hr r hr2
            exact ⟨Nat.lt_succ_of_lt h1, h2⟩
          · intro w hw2
            simp only [Option.some.injEq] at hw2
            subst hw2
            refine ⟨Nat.lt_succ_self _, ?_⟩
            intro hmem
            exact Nat.lt_irrefl _ (hs _ hmem)
          · intro r w hr2 hw2
            simp only [Option.some.injEq] at hw2
            subst hw2
            have := (hr r hr2).1
            exact fun h => Nat.lt_irrefl _ (h ▸ this)
          · intro s hmem
            exact Nat.lt_succ_of_lt (hs s hmem)
          · exact hn

/-- An event that is reported, the reported events being among those of a
mask, is in the mask. -/
theorem land_contained (events mask bit : Nat) (h : events &&& mask = events)
    (hb : events &&& bit ≠ 0) : mask &&& bit ≠ 0 := by
  intro hz
  apply hb
  rw [← h, Nat.land_assoc, hz]
  exact Nat.and_zero _

/-- With the readable event registered, a readable waiter is pending. -/
theorem pendingEvents_readable (d : OwnedFileDescriptor)
    (h : d.pendingEvents &&& UV_READABLE ≠ 0) : ∃ r, d.readable = some r := by
  unfold OwnedFileDescriptor.pendingEvents at h
  cases hr : d.readable with
  | some r => exact ⟨r, rfl⟩
  | none =>
      exfalso
      apply h
      rw [hr]
      cases d.writable
      · exact (by decide : ((0 ||| 0) &&& 1 : Nat) = 0)
      · exact (by decide : ((0 ||| 2) &&& 1 : Nat) = 0)

/-- With the writable event registered, a writable waiter is pending. -/
theorem pendingEvents_writable (d : OwnedFileDescriptor)
    (h : d.pendingEvents &&& UV_WRITABLE ≠ 0) : ∃ w, d.writable = some w := by
  unfold OwnedFileDescriptor.pendingEvents at h
  cases hw : d.writable with
  | some w => exact ⟨w, rfl⟩
  | none =>
      exfalso
      apply h
      rw [hw]
      cases d.readable
      · exact (by decide : ((0 ||| 0) &&& 2 : Nat) = 0)
      · exact (by decide : ((1 ||| 0) &&& 2 : Nat) = 0)

/-- Settling the readable waiter keeps the invariant of the waiters. -/
theorem settle_readable_inv (d : OwnedFileDescriptor) (r : Nat) (s : Settlement)
    (hs : s.waiter = r) (hr : d.readable = some r) (h : d.WaitersInv) :
    OwnedFileDescriptor.WaitersInv { d with readable := none, settled := d.settled ++ [s] } := by
  obtain ⟨h1, h2, h3, h4, h5⟩ := h
  refine ⟨?_, ?_, ?_, ?_, ?_⟩
  · intro r2 hr2
    cases hr2
  · intro w hw
    obtain ⟨ha, hb⟩ := h2 w hw
    refine ⟨ha, ?_⟩
    simp only [List.map_append, List.map_cons, List.map_nil, List.mem_append,
      List.mem_singleton, not_or]
    refine ⟨hb, ?_⟩
    rw [hs]
    exact fun e => h3 r w hr hw e.symm
  · intro r2 w hr2
    cases hr2
  · intro x hx
    simp only [List.map_append, List.map_cons, List.map_nil, List.mem_append,
      List.mem_singleton] at hx
    rcases hx with hx | hx
    · exact h4 x hx
    · rw [hx, hs]
      exact (h1 r hr).1
  · simp only [List.map_append, List.map_cons, List.map_nil]
    rw [List.nodup_append]
    refine ⟨h5, List.nodup_singleton _, ?_⟩
    intro a ha hb
    simp only [List.mem_singleton] at hb
    rw [hb, hs] at ha
    exact (h1 r hr).2 ha

/-- Settling the writable waiter keeps the invariant of the waiters. -/
theorem settle_writable_inv (d : OwnedFileDescriptor) (w : Nat) (s : Settlement)
    (hs : s.waiter = w) (hw : d.writable = some w) (h : d.WaitersInv) :
    OwnedFileDescriptor.WaitersInv { d with writable := none, settled := d.settled ++ [s] } := by
  obtain ⟨h1, h2, h3, h4, h5⟩ := h
  refine ⟨?_, ?_, ?_, ?_, ?_⟩
  · intro r hr
    obtain ⟨ha, hb⟩ := h1 r hr
    refine ⟨ha, ?_⟩
    simp only [List.map_append, List.map_cons, List.map_nil, List.mem_append,
      List.mem_singleton, not_or]
    refine ⟨hb, ?_⟩
    rw [hs]
    exact fun e => h3 r w hr hw e
  · intro w2 hw2
    cases hw2
  · intro r w2 _ hw2
    cases hw2
  · intro x hx
    simp only [List.map_append, List.map_cons, List.map_nil, List.mem_append,
      List.mem_singleton] at hx
    rcases hx with hx | hx
    · exact h4 x hx
    · rw [hx, hs]
      exact (h2 w hw).1
  · simp only [List.map_append, List.map_cons, List.map_nil]
    rw [List.nodup_append]
    refine ⟨h5, List.nodup_singleton _, ?_⟩
    intro a ha hb
    simp only [List.mem_singleton] at hb
    rw [hb, hs] at ha
    exact (h2 w hw).2 ha

/-- The invariant of the waiters looks only at the waiters, the number of
fulfillers and the settlements. -/
theorem waitersInv_congr (d d2 : OwnedFileDescriptor) (h1 : d2.readable = d.readable)
    (h2 : d2.writable = d.writable) (h3 : d2.fulfillers = d.fulfillers)
    (h4 : d2.settled = d.settled) (h : d.WaitersInv) : d2.WaitersInv := by
  unfold OwnedFileDescriptor.WaitersInv at *
  rw [h1, h2, h3, h4]
  exact h

/-- The readable step of `pollDone` does not throw when a readable waiter is
pending whenever the event is reported; it keeps the invariant of the waiters
and leaves the writable waiter alone. -/
theorem fireReadable_spec (d : OwnedFileDescriptor) (events : Nat) (h : d.WaitersInv)
    (hp : events &&& UV_READABLE ≠ 0 → ∃ r, d.readable = some r) :
    (d.fireReadable events).2 = none ∧ (d.fireReadable events).1.WaitersInv ∧
    (d.fireReadable events).1.writable = d.writable ∧
    (d.fireReadable events).1.error = d.error := by
  unfold OwnedFileDescriptor.fireReadable
  by_cases hb : events &&& UV_READABLE ≠ 0
  · obtain ⟨r, hr⟩ := hp hb
    rw [if_pos hb, hr]
    exact ⟨rfl, settle_readable_inv d r (.fulfilled r) rfl hr h, rfl, rfl⟩
  · rw [if_neg hb]
    exact ⟨rfl, h, rfl, rfl⟩

/-- The writable step of `pollDone`, likewise. -/
theorem fireWritable_spec (d : OwnedFileDescriptor) (events : Nat) (h : d.WaitersInv)
    (hp : events &&& UV_WRITABLE ≠ 0 → ∃ w, d.writable = some w) :
    (d.fireWritable events).2 = none ∧ (d.fireWritable events).1.WaitersInv ∧
    (d.fireWritable events).1.error = d.error := by
  unfold OwnedFileDescriptor.fireWritable
  by_cases hb : events &&& UV_WRITABLE ≠ 0
  · obtain ⟨w, hw⟩ := hp hb
    rw [if_pos hb, hw]
    exact ⟨rfl, settle_writable_inv d w (.fulfilled w) rfl hw h, rfl⟩
  · rw [if_neg hb]
    exact ⟨rfl, h, rfl⟩

/-- A poll error: nothing is thrown, both waiters are cleared, the exception is
stored, the poller is stopped, and each waiter that was pending is rejected
with the exception. -/
theorem pollDone_error (d : OwnedFileDescriptor) (status : Int) (events : Nat)
    (message : String) (hs : status ≠ 0) :
    (d.pollDone status events message).2 = none ∧
    (d.pollDone status events message).1.readable = none ∧
    (d.pollDone status events message).1.writable = none ∧
    (d.pollDone status events message).1.error = some (pollException message) ∧
    (d.pollDone status events message).1.registered = 0 ∧
    (∀ r, d.readable = some r →
      Settlement.rejected r (pollException message) ∈
        (d.pollDone status events message).1.settled) ∧
    (∀ w, d.writable = some w →
      Settlement.rejected w (pollException message) ∈
        (d.pollDone status events message).1.settled) := by
  unfold OwnedFileDescriptor.pollDone
  rw [if_pos hs]
  refine ⟨rfl, rfl, rfl, rfl, rfl, ?_, ?_⟩
  · intro r hr
    simp only [hr]
    cases d.writable <;> simp
  · intro w hw
    simp only [hw]
    cases d.readable <;> simp

/-- A poll error keeps the invariant of the waiters. -/
theorem pollDone_error_waiters (d : OwnedFileDescriptor) (status : Int) (events : Nat)
    (message : String) (hs : status ≠ 0) (hw : d.WaitersInv) :
    (d.pollDone status events message).1.WaitersInv := by
  unfold OwnedFileDescriptor.pollDone
  rw [if_pos hs]
  cases hr : d.readable with
  | none =>
      cases hwr : d.writable with
      | none =>
          refine waitersInv_congr _ _ ?_ ?_ ?_ ?_ hw <;>
            first | rfl | exact hr.symm | exact hwr.symm
      | some w =>
          refine waitersInv_congr _ _ ?_ ?_ ?_ ?_
            (settle_writable_inv d w (.rejected w (pollException message)) rfl hwr hw) <;>
            first | rfl | exact hr.symm
  | some r =>
      have h1 := settle_readable_inv d r (.rejected r (pollException message)) rfl hr hw
      cases hwr : d.writable with
      | none =>
          refine waitersInv_congr _ _ ?_ ?_ ?_ ?_ h1 <;>
            first | rfl | exact hr.symm | exact hwr.symm
      | some w =>
          refine waitersInv_congr _ _ ?_ ?_ ?_ ?_
            (settle_writable_inv
              { d with readable := none,
                       settled := d.settled ++ [.rejected r (pollException message)] }
              w (.rejected w (pollException message)) rfl hwr h1) <;>
            rfl

/-- The method `pollDone` keeps the invariant and throws nothing, if the
events it reports are registered with the poller. -/
theorem pollDone_inv (d : OwnedFileDescriptor) (status : Int) (events : Nat)
    (message : String) (h : d.Inv) (hc : events &&& d.registered = events) :
    (d.pollDone status events message).1.Inv ∧
    (d.pollDone status events message).2 = none := by
  obtain ⟨hm, hw⟩ := h
  by_cases hs : status ≠ 0
  · refine ⟨⟨?_, ?_⟩, (pollDone_error d status events message hs).1⟩
    · unfold OwnedFileDescriptor.pollDone
      rw [if_pos hs]
      exact (by decide : (0 : Nat) = 0 ||| 0)
    · exact pollDone_error_waiters d status events message hs hw
  · have hr1 : events &&& UV_READABLE ≠ 0 → ∃ r, d.readable = some r := by
      intro hb
      apply pendingEvents_readable
      rw [← hm]
      exact land_contained events _ _ hc hb
    have hw1 : events &&& UV_WRITABLE ≠ 0 → ∃ w, d.writable = some w := by
      intro hb
      apply pendingEvents_writable
      rw [← hm]
      exact land_contained events _ _ hc hb
    obtain ⟨f1, f2, f3, _⟩ := fireReadable_spec d events hw hr1
    obtain ⟨g1, g2, _⟩ := fireWritable_spec (d.fireReadable events).1 events f2
      (by rw [f3]; exact hw1)
    unfold OwnedFileDescriptor.pollDone
    rw [if_neg hs]
    rcases hfr : d.fireReadable events with ⟨d1, o1⟩
    rw [hfr] at f1 g1 g2
    simp only at f1 g1 g2
    subst f1
    simp only
    rcases hfw : d1.fireWritable events with ⟨d2, o2⟩
    rw [hfw] at g1 g2
    simp only at g1 g2
    subst g1
    simp only
    exact ⟨⟨rfl, waitersInv_congr d2 _ rfl rfl rfl rfl g2⟩, trivial⟩

/-- Along a sequence of operations in which `pollDone` reports only registered
events, the invariant is kept and no `pollDone` throws. -/
theorem poll_run_inv (ops : List PollOp) :
    ∀ d : OwnedFileDescriptor, d.Inv → d.reportsRegistered ops = true →
      (d.run ops).1.Inv ∧ ∀ o ∈ (d.run ops).2, ∀ e, o ≠ .polled (some e) := by
  induction ops with
  | nil =>
      intro d h _
      exact ⟨h, fun o ho => by cases ho⟩
  | cons op rest ih =>
      intro d h hr
      simp only [OwnedFileDescriptor.reportsRegistered, Bool.and_eq_true] at hr
      obtain ⟨hop, hrest⟩ := hr
      have hstep : (d.step op).1.Inv ∧ ∀ e, (d.step op).2 ≠ .polled (some e) := by
        cases op with
        | onReadable => exact ⟨onReadable_inv d h, fun e he => by cases he⟩
        | onWritable => exact ⟨onWritable_inv d h, fun e he => by cases he⟩
        | pollDone status events message =>
            simp only [decide_eq_true_eq] at hop
            obtain ⟨hi, hn⟩ := pollDone_inv d status events message h hop
            refine ⟨hi, ?_⟩
            intro e he
            simp only [OwnedFileDescriptor.step, hn] at he
            cases he
      obtain ⟨hi, ho⟩ := ih (d.step op).1 hstep.1 hrest
      refine ⟨hi, ?_⟩
      intro o hmem
      simp only [OwnedFileDescriptor.run, List.mem_cons] at hmem
      rcases hmem with hmem | hmem
      · rw [hmem]
        exact hstep.2
      · exact ho o hmem

/-- Once an error is stored, `onReadable` and `onWritable` change nothing and
give back a promise broken by that error. -/
theorem run_waits_broken (waits : List PollOp)
    (hw : ∀ op ∈ waits, op = .onReadable ∨ op = .onWritable) :
    ∀ (d : OwnedFileDescriptor) (e : Exception), d.error = some e →
      d.run waits = (d, waits.map fun _ => .waited (.broken e)) := by
  induction waits with
  | nil =>
      intro d e _
      rfl
  | cons op rest ih =>
      intro d e he
      have hstep : d.step op = (d, .waited (.broken e)) := by
        rcases hw op (List.mem_cons_self _ _) with h | h
        · subst h
          simp only [OwnedFileDescriptor.step, OwnedFileDescriptor.onReadable, he]
        · subst h
          simp only [OwnedFileDescriptor.step, OwnedFileDescriptor.onWritable, he]
      have hrest := ih (fun op2 h2 => hw op2 (List.mem_cons_of_mem _ h2)) d e he
      simp only [OwnedFileDescriptor.run, hstep, hrest, List.map_cons]

/-- C28: poll-waiter invariant.  Take an object made by the constructor and any
sequence of `onReadable`, `onWritable` and `pollDone` in which every `pollDone`
reports only events registered with the poller at that time.  Then, at the end
of the sequence, the events registered with the poller are exactly
`UV_READABLE` if a readable waiter is pending together with `UV_WRITABLE` if a
writable waiter is pending; no `pollDone` of the sequence has thrown, so no
non-null assertion on a waiter failed; and no waiter was settled twice.  A poll
error after the sequence throws nothing, rejects each pending waiter with the
exception it makes, clears both, stores the exception and stops the poller;
and every `onReadable` and `onWritable` after it changes nothing and gives a
promise broken by that same exception. -/
theorem poll_waiter_invariant (fd : Int) (flags : Nat) (ops : List PollOp)
    (d : OwnedFileDescriptor) (outcomes : List PollOutcome)
    (hrun : (OwnedFileDescriptor.init fd flags).run ops = (d, outcomes))
    (hreg : (OwnedFileDescriptor.init fd flags).reportsRegistered ops = true) :
    d.registered =
      (if d.readable.isSome then UV_READABLE else 0) |||
      (if d.writable.isSome then UV_WRITABLE else 0) ∧
    (∀ o ∈ outcomes, ∀ e, o ≠ .polled (some e)) ∧
    (d.settled.map Settlement.waiter).Nodup ∧
    (∀ (status : Int) (events : Nat) (message : String), status ≠ 0 →
      (d.pollDone status events message).2 = none ∧
      (d.pollDone status events message).1.readable = none ∧
      (d.pollDone status events message).1.writable = none ∧
      (d.pollDone status events message).1.error = some (pollException message) ∧
      (d.pollDone status events message).1.registered = 0 ∧
      (∀ r, d.readable = some r →
        Settlement.rejected r (pollException message) ∈
          (d.pollDone status events message).1.settled) ∧
      (∀ w, d.writable = some w →
        Settlement.rejected w (pollException message) ∈
          (d.pollDone status events message).1.settled) ∧
      (((d.pollDone status events message).1.settled).map Settlement.waiter).Nodup ∧
      ∀ waits : List PollOp, (∀ op ∈ waits, op = .onReadable ∨ op = .onWritable) →
        (d.pollDone status events message).1.run waits =
          ((d.pollDone status events message).1,
            waits.map fun _ => .waited (.broken (pollException message)))) := by
  obtain ⟨hinv, hout⟩ := poll_run_inv ops _ (init_inv fd flags) hreg
  rw [hrun] at hinv hout
  simp only at hinv hout
  refine ⟨?_, hout, hinv.2.2.2.2.2, ?_⟩
  · rw [hinv.1]
    unfold OwnedFileDescriptor.pendingEvents
    cases d.readable <;> cases d.writable <;> rfl
  · intro status events message hs
    obtain ⟨e1, e2, e3, e4, e5, e6, e7⟩ := pollDone_error d status events message hs
    refine ⟨e1, e2, e3, e4, e5, e6, e7, ?_, ?_⟩
    · exact (pollDone_error_waiters d status events message hs hinv.2).2.2.2.2
    · intro waits hw
      exact run_waits_broken waits hw _ _ e4

/-- Witness of C28: both waiters are registered, then the poller reports the
readable event and later the writable one. -/
theorem poll_waiter_invariant_witness :
    (OwnedFileDescriptor.init 5 1).reportsRegistered
      [.onReadable, .onWritable, .pollDone 0 1 "", .pollDone 0 2 ""] = true ∧
    ∀ o ∈ [PollOutcome.waited (.promise 0), .waited (.promise 1), .polled none, .polled none],
      ∀ e, o ≠ .polled (some e) :=
  ⟨by decide,
   (poll_waiter_invariant 5 1 [.onReadable, .onWritable, .pollDone 0 1 "", .pollDone 0 2 ""]
      { fd := 5, flags := 1, readable := none, writable := none, error := none,
        uvPoller := some 0, fulfillers := 2,
        settled := [.fulfilled 0, .fulfilled 1] }
      [.waited (.promise 0), .waited (.promise 1), .polled none, .polled none]
      (by decide) (by decide)).2.1⟩

end V8Capnp
